import Mathlib

/-!
# react-redux `utils/Subscription.js`: listener collections and subscription nodes

A shallow embedding of `createListenerCollection` and `createSubscription`
(`src/utils/Subscription.js`), and of `subscribeUpdates` with its teardown
function (`src/components/connectAdvanced.js`).

JavaScript objects are modelled by addresses into an allocation table: the
`k`-th call of `subscribe` on a collection allocates the listener object with
address `k`, together with the `isSubscribed` variable of the closure that the
call returns.  The unsubscribe capability returned by that call is identified
with the same number `k`.
-/

set_option autoImplicit false

namespace ReactRedux

/-! ## The intrusive doubly linked list of `createListenerCollection` -/

/-- One record per call of `subscribe`: the listener object
`{ callback, next, prev }` allocated by the call and the `isSubscribed`
variable captured by the `unsubscribe` closure that the call returns. -/
structure Listener (α : Type) where
  callback : α
  next : Option Nat
  prev : Option Nat
  isSubscribed : Bool
  deriving DecidableEq, Repr

/-- Closure state of one `createListenerCollection()` call: the variables
`first` and `last`, and the table of all listener objects allocated so far. -/
structure ListenerCollection (α : Type) where
  heap : List (Listener α)
  first : Option Nat
  last : Option Nat
  deriving DecidableEq, Repr

variable {α : Type}

/-- `listener.next` for the listener object at address `a`. -/
def nextOf (h : List (Listener α)) (a : Nat) : Option Nat :=
  match h[a]? with
  | some l => l.next
  | none => none

/-- `listener.prev` for the listener object at address `a`. -/
def prevOf (h : List (Listener α)) (a : Nat) : Option Nat :=
  match h[a]? with
  | some l => l.prev
  | none => none

/-- The `isSubscribed` variable of capability `a`; a number that names no
capability issued so far reads as `false`. -/
def flagOf (h : List (Listener α)) (a : Nat) : Bool :=
  match h[a]? with
  | some l => l.isSubscribed
  | none => false

/-- `listener.callback` for the listener object at address `a`. -/
def callbackOf (h : List (Listener α)) (a : Nat) : Option α :=
  match h[a]? with
  | some l => some l.callback
  | none => none

/-- Assignment `listener.next = v` on the object at address `a`. -/
def setNext (h : List (Listener α)) (a : Nat) (v : Option Nat) : List (Listener α) :=
  List.modify (fun l => { l with next := v }) a h

/-- Assignment `listener.prev = v` on the object at address `a`. -/
def setPrev (h : List (Listener α)) (a : Nat) (v : Option Nat) : List (Listener α) :=
  List.modify (fun l => { l with prev := v }) a h

/-- Assignment `isSubscribed = b` in the closure of capability `a`. -/
def setFlag (h : List (Listener α)) (a : Nat) (b : Bool) : List (Listener α) :=
  List.modify (fun l => { l with isSubscribed := b }) a h

namespace ListenerCollection

/-- State right after `createListenerCollection()`: `first = last = null`. -/
def fresh : ListenerCollection α := { heap := [], first := none, last := none }

/-- `clear()`: `first = null; last = null`.  The listener objects themselves
are not touched. -/
def clear (s : ListenerCollection α) : ListenerCollection α :=
  { s with first := none, last := none }

/-- `subscribe(callback)`: allocates the listener `{callback, next: null,
prev: last}`, makes it `last`, links it behind the old `last` (or makes it
`first`).  Returns the new state; the capability returned by the call is the
address of the new listener, `s.heap.length`. -/
def subscribe (cb : α) (s : ListenerCollection α) : ListenerCollection α :=
  let a := s.heap.length
  let heap := s.heap ++ [{ callback := cb, next := none, prev := s.last, isSubscribed := true }]
  match s.last with
  | some p => { heap := setNext heap p (some a), first := s.first, last := some a }
  | none => { heap := heap, first := some a, last := some a }

/-- The closure `unsubscribe` returned by the `a`-th `subscribe` call. -/
def unsubscribe (a : Nat) (s : ListenerCollection α) : ListenerCollection α :=
  if !(flagOf s.heap a) || s.first.isNone then s
  else
    let s1 : ListenerCollection α := { s with heap := setFlag s.heap a false }
    let s2 : ListenerCollection α :=
      match nextOf s1.heap a with
      | some n => { s1 with heap := setPrev s1.heap n (prevOf s1.heap a) }
      | none => { s1 with last := prevOf s1.heap a }
    match prevOf s2.heap a with
    | some p => { s2 with heap := setNext s2.heap p (nextOf s2.heap a) }
    | none => { s2 with first := nextOf s2.heap a }

/-- The loop of `get()`: follows `next` from `cur`, collecting the listeners
met.  `none` when the fuel runs out before `null` is reached. -/
def getFrom (h : List (Listener α)) : Nat → Option Nat → Option (List Nat)
  | _, none => some []
  | 0, some _ => none
  | fuel + 1, some a => (getFrom h fuel (nextOf h a)).map (fun r => a :: r)

/-- `get()`: the listeners reached from `first`, as addresses. -/
def get (fuel : Nat) (s : ListenerCollection α) : Option (List Nat) :=
  getFrom s.heap fuel s.first

end ListenerCollection

/-- Calls a client can make on one collection. -/
inductive Op (α : Type) where
  | subscribe (cb : α)
  | unsubscribe (cap : Nat)
  | clear
  deriving DecidableEq, Repr

/-- Effect of one call. -/
def Op.apply : Op α → ListenerCollection α → ListenerCollection α
  | .subscribe cb, s => s.subscribe cb
  | .unsubscribe a, s => s.unsubscribe a
  | .clear, s => s.clear

/-- Effect of a sequence of calls, first call first. -/
def runOps (ops : List (Op α)) (s : ListenerCollection α) : ListenerCollection α :=
  ops.foldl (fun st op => op.apply st) s

/-- What the callback `cb` does when it is invoked while the collection is in
state `s`: the calls it makes on the collection, in order. -/
abbrev Behaviour (α : Type) := α → ListenerCollection α → List (Op α)

/-- The `while (listener)` loop of `notify()`.  The second component of the
state records, in order, the listeners whose callback has been invoked.
`listener.next` is read after `listener.callback()` has returned.  `none` when
the fuel runs out before `null` is reached. -/
def notifyLoop (beh : Behaviour α) :
    Nat → Option Nat → ListenerCollection α × List Nat → Option (ListenerCollection α × List Nat)
  | _, none, st => some st
  | 0, some _, _ => none
  | fuel + 1, some a, st =>
    match callbackOf st.1.heap a with
    | none => none
    | some cb =>
      let s1 := runOps (beh cb st.1) st.1
      notifyLoop beh fuel (nextOf s1.heap a) (s1, st.2 ++ [a])

/-- `notify()`: `batch(() => { let listener = first; while (listener) ... })`.
The batching function of `getBatch()` is a parameter. -/
def notify
    (batch : (ListenerCollection α × List Nat → Option (ListenerCollection α × List Nat)) →
      ListenerCollection α × List Nat → Option (ListenerCollection α × List Nat))
    (beh : Behaviour α) (fuel : Nat) (s : ListenerCollection α) :
    Option (ListenerCollection α × List Nat) :=
  batch (fun st => notifyLoop beh fuel st.1.first st) (s, [])

/-- A batching function that runs its argument once, synchronously. -/
def runOnce {σ : Type} (work : σ → Option σ) (st : σ) : Option σ := work st

/-! ### The list invariant -/

/-- List segment: starting from pointer `f`, following `next` visits exactly
the addresses `ls` and then arrives at pointer `nx`; every visited listener's
`prev` is the listener visited before it (`p` for the first one); `l` is the
last address visited (`p` when none is). -/
def LSeg (h : List (Listener α)) :
    Option Nat → List Nat → Option Nat → Option Nat → Option Nat → Prop
  | p, [], f, nx, l => f = nx ∧ l = p
  | p, a :: as, f, nx, l =>
    f = some a ∧ a < h.length ∧ prevOf h a = p ∧ LSeg h (some a) as (nextOf h a) nx l

/-- The list invariant of the specification: `first` and `last` are both
`null`, or the listeners reached from `first` through `next` form a finite
chain without repetition that ends at `last`, with `first.prev = null`,
`last.next = null`, and `prev`/`next` of neighbours pointing at each other. -/
def ListInvariant (s : ListenerCollection α) : Prop :=
  ∃ ls : List Nat, ls.Nodup ∧ LSeg s.heap none ls s.first none s.last

/-- Addresses `a ≥ e` whose capability has `isSubscribed = true`, in
increasing order (the order of the `subscribe` calls). -/
def linkedSince (e : Nat) (h : List (Listener α)) : List Nat :=
  (List.range' e (h.length - e)).filter (fun a => flagOf h a)

/-- Representation invariant: the chain from `first` is exactly the list of
listeners subscribed since address `e` and not unsubscribed. -/
def Inv (e : Nat) (s : ListenerCollection α) : Prop :=
  e ≤ s.heap.length ∧ LSeg s.heap none (linkedSince e s.heap) s.first none s.last

/-! ### Call sequences -/

/-- The callbacks passed to `subscribe` in a call sequence, in call order.  On
a fresh collection entry `k` is the callback of the listener with address `k`,
whose unsubscribe capability is number `k`. -/
def subscribedCallbacks : List (Op α) → List α
  | [] => []
  | .subscribe cb :: ops => cb :: subscribedCallbacks ops
  | .unsubscribe _ :: ops => subscribedCallbacks ops
  | .clear :: ops => subscribedCallbacks ops

/-- Capability `k` is invoked somewhere in the sequence. -/
def invoked (k : Nat) : List (Op α) → Bool
  | [] => false
  | .unsubscribe a :: ops => decide (a = k) || invoked k ops
  | .subscribe _ :: ops => invoked k ops
  | .clear :: ops => invoked k ops

/-- The listeners whose capability is never invoked in the sequence, in the
order of their `subscribe` calls. -/
def notInvoked (ops : List (Op α)) : List Nat :=
  (List.range (subscribedCallbacks ops).length).filter (fun k => !(invoked k ops))

/-- The sequence contains no `clear()`. -/
def noClear : List (Op α) → Bool
  | [] => true
  | .clear :: _ => false
  | .subscribe _ :: ops => noClear ops
  | .unsubscribe _ :: ops => noClear ops

/-- Every capability invoked in the sequence was returned by an earlier
`subscribe` call; `n` capabilities exist when the sequence starts. -/
def issuedFrom (n : Nat) : List (Op α) → Bool
  | [] => true
  | .subscribe _ :: ops => issuedFrom (n + 1) ops
  | .unsubscribe a :: ops => decide (a < n) && issuedFrom n ops
  | .clear :: ops => issuedFrom n ops

/-- Checks a call sequence that starts in state `s`, where `e` is the number of
capabilities issued before the most recent `clear()`: a capability issued
before that `clear()` may be invoked only while the collection is empty
(`first === null`).  Returns the number of capabilities issued before the most
recent `clear()` at the end of the sequence, `none` when the check fails. -/
def discipline (e : Nat) (s : ListenerCollection α) : List (Op α) → Option Nat
  | [] => some e
  | .subscribe cb :: ops => discipline e (s.subscribe cb) ops
  | .clear :: ops => discipline s.heap.length s.clear ops
  | .unsubscribe a :: ops =>
    if e ≤ a ∨ s.first = none then discipline e (s.unsubscribe a) ops else none

/-- Invariant of a `notify()` pass whose callbacks only unsubscribe.  `P` marks
the listeners that were linked when the pass began: the cursor of the loop
stays inside `P`, `next` pointers of `P` listeners lead forward inside `P`,
and never jump over a listener that is still linked. -/
def PassInv (P : Nat → Prop) (e : Nat) (s : ListenerCollection α) : Prop :=
  Inv e s ∧
  (∀ a ∈ linkedSince e s.heap, P a) ∧
  (∀ x y, P x → nextOf s.heap x = some y → P y ∧ x < y) ∧
  (∀ x a, P x → a ∈ linkedSince e s.heap → x < a → ∃ y, nextOf s.heap x = some y ∧ y ≤ a) ∧
  (∀ x, P x → x < s.heap.length)

/-! ### The events of a pass -/

/-- What happens during a `notify()` pass: the loop invokes the callback of the
listener at address `a`, or the running callback makes a call on the
collection. -/
inductive PassEvent (α : Type) where
  | invoke (a : Nat)
  | op (o : Op α)
  deriving DecidableEq, Repr

/-- The `while (listener)` loop of `notify()` once more, this time returning
the events of its first `fuel` iterations in order: each `listener.callback()`
followed by the calls that callback makes.  `listener.next` is read after the
callback has returned.  The list ends where the loop ends, or where the fuel
does. -/
def notifyEvents (beh : Behaviour α) :
    Nat → Option Nat → ListenerCollection α → List (PassEvent α)
  | _, none, _ => []
  | 0, some _, _ => []
  | fuel + 1, some a, s =>
    match callbackOf s.heap a with
    | none => []
    | some cb =>
      let s1 := runOps (beh cb s) s
      PassEvent.invoke a ::
        ((beh cb s).map PassEvent.op ++ notifyEvents beh fuel (nextOf s1.heap a) s1)

/-- The listeners invoked, in order. -/
def invokedIn : List (PassEvent α) → List Nat
  | [] => []
  | .invoke a :: evs => a :: invokedIn evs
  | .op _ :: evs => invokedIn evs

/-- A listener whose unsubscribe capability is invoked before the traversal
has reached it is not invoked in the remainder of the pass. -/
def UnsubscribedAheadNotInvoked (evs : List (PassEvent α)) : Prop :=
  ∀ pre post b, evs = pre ++ PassEvent.op (Op.unsubscribe b) :: post →
    PassEvent.invoke b ∉ pre → PassEvent.invoke b ∉ post

/-- The calls made on the collection during the pass, in order.  Applied to the
state in which the pass began they give the state of the collection at that
point of the pass. -/
def opsIn : List (PassEvent α) → List (Op α)
  | [] => []
  | .invoke _ :: evs => opsIn evs
  | .op o :: evs => o :: opsIn evs

/-- The listener at address `a` is linked: `get()` returns it. -/
def ListenerCollection.isLinked (s : ListenerCollection α) (a : Nat) : Prop :=
  ∃ ls, s.get s.heap.length = some ls ∧ a ∈ ls

/-- In a pass that began in state `s`: a listener whose unsubscribe capability
is invoked before the traversal has reached it, at a moment when the listener
whose callback is running is itself still linked, is not invoked in the
remainder of the pass. -/
def UnsubscribedAheadNotInvokedWhileLinked (s : ListenerCollection α)
    (evs : List (PassEvent α)) : Prop :=
  ∀ pre post b x, evs = pre ++ PassEvent.op (Op.unsubscribe b) :: post →
    PassEvent.invoke b ∉ pre → (invokedIn pre).getLast? = some x →
    (runOps (opsIn pre) s).isLinked x → PassEvent.invoke b ∉ post

/-- The calls a callback may make in the passes considered for this property:
it subscribes listeners and invokes unsubscribe capabilities that have been
issued (`n` exist when the callback starts) since the most recent `clear()`
(those from address `e` on); it does not call `clear()`. -/
def callsAdmissible (e n : Nat) (ops : List (Op α)) : Prop :=
  noClear ops = true ∧ issuedFrom n ops = true ∧ ∀ a, Op.unsubscribe a ∈ ops → e ≤ a

/-- Invariant of the remainder of a pass: `P` marks the listeners the traversal
can still arrive at.  It holds every linked listener and every listener
subscribed from now on, and following `next` does not leave it. -/
def Reach (P : Nat → Prop) (e : Nat) (s : ListenerCollection α) : Prop :=
  Inv e s ∧
  (∀ a ∈ linkedSince e s.heap, P a) ∧
  (∀ x y, P x → nextOf s.heap x = some y → P y) ∧
  (∀ a, s.heap.length ≤ a → P a)

/-! ## Subscription nodes (`createSubscription`) -/

/-- Function values that are registered as listener callbacks or stored in an
`onStateChange` slot: the `handleChangeWrapper` and the `notifyNestedSubs` of
node `n`, and functions of the owner that make no call on this subsystem. -/
inductive Fn where
  | handleChangeWrapper (n : Nat)
  | notifyNestedSubs (n : Nat)
  | other (id : Nat)
  deriving DecidableEq, Repr

/-- The detach capability a node keeps in its variable `unsubscribe`: the one
returned by the `k`-th `store.subscribe` call, or capability `a` of the
listener collection object `c` (returned by `parentSub.addNestedSub`). -/
inductive Cap where
  | store (k : Nat)
  | listener (c : Nat) (a : Nat)
  deriving DecidableEq, Repr

/-- Closure state of one `createSubscription(store, parentSub)` call.
`listeners = none` stands for the shared `nullListeners`, `some c` for the
collection object `c` made by `createListenerCollection()`. -/
structure Subscription where
  parentSub : Option Nat
  unsubscribe : Option Cap
  listeners : Option Nat
  onStateChange : Option Fn
  deriving DecidableEq, Repr

/-- What the trace records: node `n` called its upstream subscribe and
captured `cap`; node `n` invoked the captured `cap`; function `f` was called. -/
inductive Event where
  | upstream (n : Nat) (cap : Cap)
  | detach (n : Nat) (cap : Cap)
  | call (f : Fn)
  deriving DecidableEq, Repr

/-- All objects of the subsystem: the subscription nodes, the listener
collection objects, the handlers registered with the store (each with a flag
that its detach capability clears), and the trace of events. -/
structure World where
  subs : List Subscription
  colls : List (ListenerCollection Fn)
  store : List (Fn × Bool)
  trace : List Event
  deriving DecidableEq, Repr

namespace World

/-- No objects yet. -/
def empty : World := { subs := [], colls := [], store := [], trace := [] }

/-- Appends events to the trace. -/
def emit (w : World) (evs : List Event) : World := { w with trace := w.trace ++ evs }

/-- `createSubscription(store, parentSub)`: `unsubscribe` undefined,
`listeners = nullListeners`; the `onStateChange` slot is not set.  The new
node gets the number `w.subs.length`. -/
def createSubscription (parentSub : Option Nat) (w : World) : World :=
  { w with subs := w.subs ++
      [{ parentSub := parentSub, unsubscribe := none, listeners := none, onStateChange := none }] }

/-- Assignment `subscription.onStateChange = f` by the owner of node `n`. -/
def setOnStateChange (n : Nat) (f : Option Fn) (w : World) : World :=
  { w with subs := List.modify (fun s => { s with onStateChange := f }) n w.subs }

/-- `isSubscribed()`: `Boolean(unsubscribe)`. -/
def isSubscribed (n : Nat) (w : World) : Bool :=
  match w.subs[n]? with
  | some sub => sub.unsubscribe.isSome
  | none => false

/-- The value of the variable `unsubscribe` of node `n`. -/
def held (n : Nat) (w : World) : Option Cap :=
  match w.subs[n]? with
  | some sub => sub.unsubscribe
  | none => none

/-- `listeners.subscribe(cb)` on the current `listeners` of node `p`; fails on
`nullListeners`, which has no `subscribe`. -/
def listenersSubscribe (p : Nat) (cb : Fn) (w : World) : Option (World × Cap) :=
  match w.subs[p]? with
  | none => none
  | some sub =>
    match sub.listeners with
    | none => none
    | some c =>
      match w.colls[c]? with
      | none => none
      | some coll =>
        some ({ w with colls := w.colls.set c (coll.subscribe cb) },
          Cap.listener c coll.heap.length)

/-- Modelled from the spec: `store.subscribe(cb)` of the root store, which is
an external collaborator (section 6): it registers a zero-argument handler
and returns a one-shot idempotent detach capability. -/
def storeSubscribe (cb : Fn) (w : World) : World × Cap :=
  ({ w with store := w.store ++ [(cb, true)] }, Cap.store w.store.length)

/-- The two assignments of `trySubscribe()` once the upstream subscribe has
returned `r.2` in world `r.1`: `unsubscribe` takes the capability and
`listeners` a new collection object. -/
def attach (n : Nat) (r : World × Cap) : World :=
  { r.1 with
    subs := List.modify
      (fun s => { s with unsubscribe := some r.2, listeners := some r.1.colls.length }) n r.1.subs
    colls := r.1.colls ++ [ListenerCollection.fresh]
    trace := r.1.trace ++ [Event.upstream n r.2] }

/-- `trySubscribe()` of node `n`.  With a parent the upstream subscribe is
`parentSub.addNestedSub(handleChangeWrapper)`, that is `trySubscribe()` of the
parent followed by `listeners.subscribe` there; without one it is
`store.subscribe(handleChangeWrapper)`.  Then `listeners` becomes a new
collection object. -/
def trySubscribe : Nat → Nat → World → Option World
  | 0, _, _ => none
  | fuel + 1, n, w =>
    match w.subs[n]? with
    | none => none
    | some sub =>
      if sub.unsubscribe.isSome then some w
      else
        match sub.parentSub with
        | some p =>
          ((trySubscribe fuel p w).bind
            (listenersSubscribe p (Fn.handleChangeWrapper n))).map (attach n)
        | none => some (attach n (storeSubscribe (Fn.handleChangeWrapper n) w))

/-- `addNestedSub(listener)`: `trySubscribe()` and then
`listeners.subscribe(listener)`. -/
def addNestedSub (fuel : Nat) (n : Nat) (cb : Fn) (w : World) : Option (World × Cap) :=
  (trySubscribe fuel n w).bind (listenersSubscribe n cb)

/-- Invocation of a detach capability: the store's capability unregisters the
handler (idempotent, section 6); a collection's capability is the `unsubscribe`
closure of that collection. -/
def invokeCap : Cap → World → World
  | .store k, w => { w with store := List.modify (fun e => (e.1, false)) k w.store }
  | .listener c a, w =>
    { w with colls := List.modify (fun coll => coll.unsubscribe a) c w.colls }

/-- `tryUnsubscribe()` of node `n`: when `unsubscribe` is set, invokes it,
resets it, clears the collection and puts `nullListeners` back. -/
def tryUnsubscribe (n : Nat) (w : World) : Option World :=
  match w.subs[n]? with
  | none => none
  | some sub =>
    match sub.unsubscribe with
    | none => some w
    | some cap =>
      match sub.listeners with
      | none => none
      | some c =>
        let w1 := (invokeCap cap w).emit [Event.detach n cap]
        some { w1 with
          subs := List.modify (fun s => { s with unsubscribe := none, listeners := none }) n
            w1.subs
          colls := List.modify ListenerCollection.clear c w1.colls }

/-- The `while (listener)` loop of `notify()` on collection object `c`, with
`call` running a callback.  The collection is read again after each callback. -/
def notifyColl (call : Fn → World → Option World) (c : Nat) :
    Nat → Option Nat → World → Option World
  | _, none, w => some w
  | 0, some _, _ => none
  | fuel + 1, some a, w =>
    match w.colls[c]? with
    | none => none
    | some coll =>
      match callbackOf coll.heap a with
      | none => none
      | some cb =>
        match call cb w with
        | none => none
        | some w1 =>
          match w1.colls[c]? with
          | none => none
          | some coll1 => notifyColl call c fuel (nextOf coll1.heap a) w1

/-- Calling a function value.  `handleChangeWrapper` of node `n` calls the
`onStateChange` slot when it is set; `notifyNestedSubs` of node `n` runs
`listeners.notify()`, which for `nullListeners` does nothing.  The batching
function of `getBatch()` is taken to run its argument once, synchronously
(section 5 of the specification). -/
def callFn : Nat → Fn → World → Option World
  | 0, _, _ => none
  | fuel + 1, f, w =>
    let w0 := w.emit [Event.call f]
    match f with
    | .other _ => some w0
    | .handleChangeWrapper n =>
      match w0.subs[n]? with
      | none => none
      | some sub =>
        match sub.onStateChange with
        | none => some w0
        | some g => callFn fuel g w0
    | .notifyNestedSubs n =>
      match w0.subs[n]? with
      | none => none
      | some sub =>
        match sub.listeners with
        | none => some w0
        | some c =>
          match w0.colls[c]? with
          | none => none
          | some coll => notifyColl (callFn fuel) c fuel coll.first w0

/-- Calls the functions of a list in order. -/
def callAll (call : Fn → World → Option World) : List Fn → World → Option World
  | [], w => some w
  | f :: fs, w =>
    match call f w with
    | none => none
    | some w1 => callAll call fs w1

/-- Modelled from the spec: the handlers currently registered with the root
store, in registration order. -/
def storeHandlers (w : World) : List Fn :=
  (w.store.filter (fun e => e.2)).map (fun e => e.1)

/-- Modelled from the spec: one store change, in which the root store calls
the handlers registered when the change begins (section 2). -/
def storeChange (fuel : Nat) (w : World) : Option World :=
  callAll (callFn fuel) w.storeHandlers w

/-- Calling a function value when the functions of the owners do act on the
subsystem: `owner id` is what the function `Fn.other id` does when it is
called, for instance `tryUnsubscribe()` on a node.  `handleChangeWrapper` and
`notifyNestedSubs` are as in `callFn`, so that a listener callback can change
nodes and collections while the `notify()` loop that invoked it is still
running. -/
def callFnWith (owner : Nat → World → Option World) : Nat → Fn → World → Option World
  | 0, _, _ => none
  | fuel + 1, f, w =>
    let w0 := w.emit [Event.call f]
    match f with
    | .other id => owner id w0
    | .handleChangeWrapper n =>
      match w0.subs[n]? with
      | none => none
      | some sub =>
        match sub.onStateChange with
        | none => some w0
        | some g => callFnWith owner fuel g w0
    | .notifyNestedSubs n =>
      match w0.subs[n]? with
      | none => none
      | some sub =>
        match sub.listeners with
        | none => some w0
        | some c =>
          match w0.colls[c]? with
          | none => none
          | some coll => notifyColl (callFnWith owner fuel) c fuel coll.first w0

end World

/-- Calls an owner can make on one node. -/
inductive NodeOp where
  | trySubscribe
  | tryUnsubscribe
  | addNestedSub (cb : Fn)
  deriving DecidableEq, Repr

/-- Effect of one call on node `n`. -/
def NodeOp.apply (fuel n : Nat) : NodeOp → World → Option World
  | .trySubscribe, w => w.trySubscribe fuel n
  | .tryUnsubscribe, w => w.tryUnsubscribe n
  | .addNestedSub cb, w => (w.addNestedSub fuel n cb).map (fun r => r.1)

/-- Effect of a sequence of calls on node `n`, first call first. -/
def runNodeOps (fuel n : Nat) : List NodeOp → World → Option World
  | [], w => some w
  | op :: ops, w =>
    match op.apply fuel n w with
    | none => none
    | some w1 => runNodeOps fuel n ops w1

/-- Well-formed worlds: a parent is created before its child (it is an
argument of the child's `createSubscription` call), a node without
`unsubscribe` has `nullListeners`, and a node with `unsubscribe` has a
collection object. -/
def WF (w : World) : Prop :=
  ∀ (n : Nat) (sub : Subscription), w.subs[n]? = some sub →
    (∀ p, sub.parentSub = some p → p < n) ∧
    (sub.unsubscribe = none → sub.listeners = none) ∧
    (sub.unsubscribe.isSome = true → ∃ c, sub.listeners = some c ∧ c < w.colls.length)

/-! ### Upstream subscriptions of one node -/

/-- The two things a node does upstream. -/
inductive Upstream where
  | subscribe
  | detach
  deriving DecidableEq, Repr

/-- The upstream events of node `n` in a trace, with the capability concerned. -/
def upstreamEvents (n : Nat) : List Event → List (Upstream × Cap)
  | [] => []
  | .upstream m cap :: evs =>
    if m = n then (Upstream.subscribe, cap) :: upstreamEvents n evs else upstreamEvents n evs
  | .detach m cap :: evs =>
    if m = n then (Upstream.detach, cap) :: upstreamEvents n evs else upstreamEvents n evs
  | .call _ :: evs => upstreamEvents n evs

/-- The state machine of the specification (section 4.2): `trySubscribe()` and
`addNestedSub()` subscribe upstream exactly when the node is Unsubscribed,
`tryUnsubscribe()` detaches exactly when it is Subscribed. -/
def specUpstream : Bool → List NodeOp → List Upstream
  | _, [] => []
  | false, .trySubscribe :: ops => Upstream.subscribe :: specUpstream true ops
  | true, .trySubscribe :: ops => specUpstream true ops
  | false, .addNestedSub _ :: ops => Upstream.subscribe :: specUpstream true ops
  | true, .addNestedSub _ :: ops => specUpstream true ops
  | true, .tryUnsubscribe :: ops => Upstream.detach :: specUpstream false ops
  | false, .tryUnsubscribe :: ops => specUpstream false ops

/-- Upstream events are well paired when a capability is captured only while
none is held, and the only capability ever invoked is the one held, which is
then dropped. -/
def Paired : Option Cap → List (Upstream × Cap) → Prop
  | _, [] => True
  | none, (Upstream.subscribe, cap) :: rest => Paired (some cap) rest
  | some held, (Upstream.detach, cap) :: rest => cap = held ∧ Paired none rest
  | none, (Upstream.detach, _) :: _ => False
  | some _, (Upstream.subscribe, _) :: _ => False

/-- The callbacks registered through `addNestedSub` since the node last became
subscribed, given those registered so far in the current cycle. -/
def registeredSince : List Fn → List NodeOp → List Fn
  | cur, [] => cur
  | cur, .trySubscribe :: ops => registeredSince cur ops
  | _, .tryUnsubscribe :: ops => registeredSince [] ops
  | cur, .addNestedSub cb :: ops => registeredSince (cur ++ [cb]) ops

/-- `getListeners().get()` of node `n`, as the callbacks of the listeners
returned; `nullListeners.get()` is `[]`. -/
def World.listenerCallbacks (fuel : Nat) (n : Nat) (w : World) : Option (List (Option Fn)) :=
  match w.subs[n]? with
  | none => none
  | some sub =>
    match sub.listeners with
    | none => some []
    | some c =>
      match w.colls[c]? with
      | none => none
      | some coll => (coll.get fuel).map (fun ls => ls.map (callbackOf coll.heap))

/-- Node `n` is Unsubscribed and `cur` is empty, or it is Subscribed and its
collection is the one obtained from a fresh collection by subscribing the
callbacks `cur` in order. -/
def HoldsListeners (n : Nat) (w : World) (cur : List Fn) : Prop :=
  (w.held n = none ∧ cur = []) ∨
  (∃ (sub : Subscription) (c : Nat), w.subs[n]? = some sub ∧ sub.unsubscribe.isSome = true ∧
    sub.listeners = some c ∧
    w.colls[c]? = some (runOps (cur.map Op.subscribe) ListenerCollection.fresh))

/-! ### Trees of subscribed nodes -/

mutual
/-- A tree of node numbers: a node and the trees of its children, in the
order in which the children subscribed. -/
inductive SubTree where
  | node (id : Nat) (kids : SubForest)
/-- A list of trees. -/
inductive SubForest where
  | nil
  | cons (t : SubTree) (ts : SubForest)
end

/-- The node at the root. -/
def SubTree.root : SubTree → Nat
  | .node n _ => n

/-- The roots of the trees of a forest. -/
def SubForest.roots : SubForest → List Nat
  | .nil => []
  | .cons t ts => t.root :: ts.roots

mutual
/-- All nodes of a tree. -/
def SubTree.ids : SubTree → List Nat
  | .node n kids => n :: kids.ids
/-- All nodes of a forest. -/
def SubForest.ids : SubForest → List Nat
  | .nil => []
  | .cons t ts => t.ids ++ ts.ids
end

mutual
/-- The parent-child pairs of a tree. -/
def SubTree.edges : SubTree → List (Nat × Nat)
  | .node n kids => kids.roots.map (fun m => (n, m)) ++ kids.edges
/-- The parent-child pairs inside the trees of a forest. -/
def SubForest.edges : SubForest → List (Nat × Nat)
  | .nil => []
  | .cons t ts => t.edges ++ ts.edges
end

mutual
/-- The calls made when the `handleChangeWrapper` of the root of a tree runs:
the wrapper, the node's `notifyNestedSubs` (its slot), then the children. -/
def SubTree.calls : SubTree → List Event
  | .node n kids =>
    Event.call (Fn.handleChangeWrapper n) :: Event.call (Fn.notifyNestedSubs n) :: kids.calls
/-- The calls made for the trees of a forest, in order. -/
def SubForest.calls : SubForest → List Event
  | .nil => []
  | .cons t ts => t.calls ++ ts.calls
end

mutual
/-- Fuel that suffices for the `handleChangeWrapper` of the root of a tree. -/
def SubTree.fuel : SubTree → Nat
  | .node _ kids => kids.fuel + 3
/-- Fuel that suffices for the loop over a forest. -/
def SubForest.fuel : SubForest → Nat
  | .nil => 0
  | .cons t ts => t.fuel + ts.fuel + 1
end

mutual
/-- The world holds the tree `t` of subscribed nodes below `parent`: every
node of `t` is subscribed, refers to its parent through `parentSub`, has its
own `notifyNestedSubs` in the `onStateChange` slot, and the listeners of its
collection are the `handleChangeWrapper`s of its children. -/
def Attached (w : World) (parent : Option Nat) : SubTree → Prop
  | .node n kids =>
    (∃ (sub : Subscription) (c : Nat) (coll : ListenerCollection Fn) (addrs : List Nat),
      w.subs[n]? = some sub ∧ sub.parentSub = parent ∧
      sub.unsubscribe.isSome = true ∧ sub.onStateChange = some (Fn.notifyNestedSubs n) ∧
      sub.listeners = some c ∧ w.colls[c]? = some coll ∧
      coll.get coll.heap.length = some addrs ∧
      addrs.map (callbackOf coll.heap) =
        kids.roots.map (fun m => some (Fn.handleChangeWrapper m))) ∧
    AttachedAll w (some n) kids
/-- All trees of a forest are held below `parent`. -/
def AttachedAll (w : World) (parent : Option Nat) : SubForest → Prop
  | .nil => True
  | .cons t ts => Attached w parent t ∧ AttachedAll w parent ts
end

/-! ### Example worlds -/

/-- The tree root → A → B, with the nodes numbered 0, 1, 2. -/
def threeLevelTree : SubTree :=
  .node 0 (.cons (.node 1 (.cons (.node 2 .nil) .nil)) .nil)

/-- Three nodes created root first, each slot set to the node's own
`notifyNestedSubs`, then `trySubscribe()` on `B`, which subscribes `A` and the
root on the way. -/
def threeLevelBuild : Option World :=
  ((((((World.empty.createSubscription none).createSubscription (some 0)).createSubscription
    (some 1)).setOnStateChange 0 (some (Fn.notifyNestedSubs 0))).setOnStateChange 1
    (some (Fn.notifyNestedSubs 1))).setOnStateChange 2
    (some (Fn.notifyNestedSubs 2))).trySubscribe 3 2

/-- The world that `threeLevelBuild` produces. -/
def threeLevelWorld : World :=
  { subs := [
      { parentSub := none, unsubscribe := some (Cap.store 0), listeners := some 0,
        onStateChange := some (Fn.notifyNestedSubs 0) },
      { parentSub := some 0, unsubscribe := some (Cap.listener 0 0), listeners := some 1,
        onStateChange := some (Fn.notifyNestedSubs 1) },
      { parentSub := some 1, unsubscribe := some (Cap.listener 1 0), listeners := some 2,
        onStateChange := some (Fn.notifyNestedSubs 2) }]
    colls := [
      { heap := [{ callback := Fn.handleChangeWrapper 1, next := none, prev := none,
                   isSubscribed := true }], first := some 0, last := some 0 },
      { heap := [{ callback := Fn.handleChangeWrapper 2, next := none, prev := none,
                   isSubscribed := true }], first := some 0, last := some 0 },
      { heap := [], first := none, last := none }]
    store := [(Fn.handleChangeWrapper 0, true)]
    trace := [Event.upstream 0 (Cap.store 0), Event.upstream 1 (Cap.listener 0 0),
      Event.upstream 2 (Cap.listener 1 0)] }

/-! ## Store updates of a connected component (`subscribeUpdates`) -/

/-- JavaScript values as far as `subscribeUpdates` tells them apart: it tests
values for truthiness and compares them with `===`.  Objects are known by
their identity; `NaN` is left out. -/
inductive Value where
  | undefined
  | null
  | boolean (b : Bool)
  | number (n : Int)
  | string (s : String)
  | object (id : Nat)
  deriving DecidableEq, Repr

/-- Truthiness, as tested by `if (v)` and `!v`. -/
def Value.truthy : Value → Bool
  | .undefined => false
  | .null => false
  | .boolean b => b
  | .number n => decide (n ≠ 0)
  | .string s => decide (s ≠ "")
  | .object _ => true

/-- Outcome of one run of `childPropsSelector(latestStoreState,
lastWrapperProps.current)`: it returns the new child props or throws. -/
inductive SelectorRun where
  | returned (props : Value)
  | threw (error : Value)
  deriving DecidableEq, Repr

/-- Calls of the function arguments `notifyNestedSubs` and
`forceComponentUpdateDispatch` of `subscribeUpdates`; the second with the
`error` of the payload it is given.  The two functions belong to the caller:
their calls are recorded, and they are taken to return. -/
inductive Effect where
  | notifyNestedSubs
  | forceComponentUpdateDispatch (error : Value)
  deriving DecidableEq, Repr

/-- How a function call ends. -/
inductive Completion where
  | normal
  | thrown (e : Value)
  deriving DecidableEq, Repr

/-- Closure state of one `subscribeUpdates(...)` call that went past its first
line: the node `subscription`, the variables `didUnsubscribe` and
`lastThrownError`, the `current` fields of the four refs, the calls made so
far to the function arguments, and the world the node lives in. -/
structure SubscribeUpdates where
  subscription : Nat
  didUnsubscribe : Bool
  lastThrownError : Value
  lastWrapperProps : Value
  lastChildProps : Value
  renderIsScheduled : Value
  childPropsFromStoreUpdate : Value
  calls : List Effect
  world : World
  deriving DecidableEq, Repr

/-- `checkForUpdates()`, where `run` is what the selector does if it is run
(on the state that `store.getState()` returns and `lastWrapperProps.current`).
A stale call returns at once.  Otherwise `error` and `lastThrownError` take
the thrown value, `lastThrownError` is reset when `error` is falsy, and the
new child props (`undefined` after a throw) are compared with
`lastChildProps.current`. -/
def checkForUpdates (run : SelectorRun) (u : SubscribeUpdates) : SubscribeUpdates :=
  if u.didUnsubscribe then u
  else
    let newChildProps : Value :=
      match run with
      | .returned props => props
      | .threw _ => Value.undefined
    let error : Value :=
      match run with
      | .returned _ => Value.undefined
      | .threw e => e
    let u1 : SubscribeUpdates :=
      match run with
      | .returned _ => u
      | .threw e => { u with lastThrownError := e }
    let u2 : SubscribeUpdates :=
      if !error.truthy then { u1 with lastThrownError := Value.null } else u1
    if newChildProps = u2.lastChildProps then
      if !u2.renderIsScheduled.truthy then
        { u2 with calls := u2.calls ++ [Effect.notifyNestedSubs] }
      else u2
    else
      { u2 with
        lastChildProps := newChildProps
        childPropsFromStoreUpdate := newChildProps
        renderIsScheduled := Value.boolean true
        calls := u2.calls ++ [Effect.forceComponentUpdateDispatch error] }

/-- `captureWrapperProps(...)`, the effect run after each render, on the refs
it shares with `subscribeUpdates`. -/
def captureWrapperProps (wrapperProps actualChildProps : Value) (u : SubscribeUpdates) :
    SubscribeUpdates :=
  let u1 : SubscribeUpdates :=
    { u with
      lastWrapperProps := wrapperProps
      lastChildProps := actualChildProps
      renderIsScheduled := Value.boolean false }
  if u1.childPropsFromStoreUpdate.truthy then
    { u1 with
      childPropsFromStoreUpdate := Value.null
      calls := u1.calls ++ [Effect.notifyNestedSubs] }
  else u1

/-- `subscribeUpdates(...)` on node `subscription` of world `w`, with the
`current` values of the four refs and the outcome `firstRun` of the selector
run made by the first `checkForUpdates()`.  `some none` is the return without
a teardown function (`shouldHandleStateChanges` false); otherwise the slot of
the node takes `checkForUpdates` (function value `Fn.other checkForUpdatesId`
in the world), the node subscribes, `checkForUpdates()` runs once, and the
closure state returned stands for `unsubscribeWrapper`. -/
def subscribeUpdates (shouldHandleStateChanges : Bool) (fuel : Nat) (w : World)
    (subscription checkForUpdatesId : Nat)
    (lastWrapperProps lastChildProps renderIsScheduled childPropsFromStoreUpdate : Value)
    (firstRun : SelectorRun) : Option (Option SubscribeUpdates) :=
  if !shouldHandleStateChanges then some none
  else
    match (w.setOnStateChange subscription (some (Fn.other checkForUpdatesId))).trySubscribe
        fuel subscription with
    | none => none
    | some w1 =>
      some (some (checkForUpdates firstRun
        { subscription := subscription
          didUnsubscribe := false
          lastThrownError := Value.null
          lastWrapperProps := lastWrapperProps
          lastChildProps := lastChildProps
          renderIsScheduled := renderIsScheduled
          childPropsFromStoreUpdate := childPropsFromStoreUpdate
          calls := []
          world := w1 }))

/-- `unsubscribeWrapper()`: sets `didUnsubscribe`, calls
`subscription.tryUnsubscribe()`, assigns `subscription.onStateChange = null`,
and then throws `lastThrownError` when that is truthy. -/
def unsubscribeWrapper (u : SubscribeUpdates) : Option (SubscribeUpdates × Completion) :=
  let u1 : SubscribeUpdates := { u with didUnsubscribe := true }
  match u1.world.tryUnsubscribe u1.subscription with
  | none => none
  | some w1 =>
    let u2 : SubscribeUpdates := { u1 with world := w1.setOnStateChange u1.subscription none }
    some (u2,
      if u2.lastThrownError.truthy then Completion.thrown u2.lastThrownError
      else Completion.normal)

/-- What can happen to the closure between `subscribeUpdates` and a teardown:
a call of `checkForUpdates` (with the outcome the selector has if it is run),
the effect `captureWrapperProps` after a render, a call of the teardown
function, or a call made on the subscription node from elsewhere, as nested
components make. -/
inductive UpdateStep where
  | checkForUpdates (run : SelectorRun)
  | captureWrapperProps (wrapperProps actualChildProps : Value)
  | unsubscribeWrapper
  | node (op : NodeOp)
  deriving DecidableEq, Repr

/-- Effect of one step; what a teardown call throws goes to its caller and is
not kept. -/
def UpdateStep.apply (fuel : Nat) : UpdateStep → SubscribeUpdates → Option SubscribeUpdates
  | .checkForUpdates run, u => some (ReactRedux.checkForUpdates run u)
  | .captureWrapperProps wrapperProps actualChildProps, u =>
    some (ReactRedux.captureWrapperProps wrapperProps actualChildProps u)
  | .unsubscribeWrapper, u => (ReactRedux.unsubscribeWrapper u).map (fun r => r.1)
  | .node op, u => (op.apply fuel u.subscription u.world).map (fun w => { u with world := w })

/-- Effect of a sequence of steps, first step first. -/
def runUpdateSteps (fuel : Nat) : List UpdateStep → SubscribeUpdates → Option SubscribeUpdates
  | [], u => some u
  | st :: sts, u =>
    match st.apply fuel u with
    | none => none
    | some u1 => runUpdateSteps fuel sts u1

/-- The most recent selector run, in the words of the specification: the
outcome of the last call of `checkForUpdates` that ran the selector.  `stale`
tells whether the teardown function has been called, after which
`checkForUpdates` no longer runs the selector; `r` is the most recent run so
far. -/
def mostRecentRun : Bool → SelectorRun → List UpdateStep → SelectorRun
  | _, r, [] => r
  | false, _, .checkForUpdates run :: sts => mostRecentRun false run sts
  | true, r, .checkForUpdates _ :: sts => mostRecentRun true r sts
  | _, r, .unsubscribeWrapper :: sts => mostRecentRun true r sts
  | stale, r, .captureWrapperProps _ _ :: sts => mostRecentRun stale r sts
  | stale, r, .node _ :: sts => mostRecentRun stale r sts

/-- What `lastThrownError` holds after a selector run that was not stale: the
thrown value when it is truthy, `null` otherwise. -/
def SelectorRun.keptError : SelectorRun → Value
  | .returned _ => Value.null
  | .threw e => if e.truthy then e else Value.null

/-- The teardown of the specification: it throws exactly when the most recent
selector run threw, and then the error of that run. -/
def specTeardown : SelectorRun → Completion
  | .returned _ => Completion.normal
  | .threw e => Completion.thrown e

/-- The teardown as the code decides it: a thrown value counts as an error
when it is truthy. -/
def truthyTeardown : SelectorRun → Completion
  | .returned _ => Completion.normal
  | .threw e => if e.truthy then Completion.thrown e else Completion.normal

/-! # Theorems -/

/-! ## Reading the allocation table after an assignment -/

theorem length_setNext (h : List (Listener α)) (a : Nat) (v : Option Nat) :
    (setNext h a v).length = h.length := by simp [setNext]

theorem length_setPrev (h : List (Listener α)) (a : Nat) (v : Option Nat) :
    (setPrev h a v).length = h.length := by simp [setPrev]

theorem length_setFlag (h : List (Listener α)) (a : Nat) (b : Bool) :
    (setFlag h a b).length = h.length := by simp [setFlag]

theorem nextOf_setNext (h : List (Listener α)) (a b : Nat) (v : Option Nat) :
    nextOf (setNext h a v) b = if a = b ∧ b < h.length then v else nextOf h b := by
  unfold nextOf setNext
  rw [List.getElem?_modify]
  by_cases hab : a = b
  · subst hab
    by_cases hlt : a < h.length
    · simp [hlt, List.getElem?_eq_getElem hlt]
    · simp [hlt, List.getElem?_eq_none (Nat.le_of_not_lt hlt)]
  · simp [hab]

theorem prevOf_setNext (h : List (Listener α)) (a b : Nat) (v : Option Nat) :
    prevOf (setNext h a v) b = prevOf h b := by
  unfold prevOf setNext
  rw [List.getElem?_modify]
  by_cases hab : a = b
  · subst hab
    cases hg : h[a]? <;> simp
  · simp [hab]

theorem flagOf_setNext (h : List (Listener α)) (a b : Nat) (v : Option Nat) :
    flagOf (setNext h a v) b = flagOf h b := by
  unfold flagOf setNext
  rw [List.getElem?_modify]
  by_cases hab : a = b
  · subst hab
    cases hg : h[a]? <;> simp
  · simp [hab]

theorem callbackOf_setNext (h : List (Listener α)) (a b : Nat) (v : Option Nat) :
    callbackOf (setNext h a v) b = callbackOf h b := by
  unfold callbackOf setNext
  rw [List.getElem?_modify]
  by_cases hab : a = b
  · subst hab
    cases hg : h[a]? <;> simp
  · simp [hab]

theorem prevOf_setPrev (h : List (Listener α)) (a b : Nat) (v : Option Nat) :
    prevOf (setPrev h a v) b = if a = b ∧ b < h.length then v else prevOf h b := by
  unfold prevOf setPrev
  rw [List.getElem?_modify]
  by_cases hab : a = b
  · subst hab
    by_cases hlt : a < h.length
    · simp [hlt, List.getElem?_eq_getElem hlt]
    · simp [hlt, List.getElem?_eq_none (Nat.le_of_not_lt hlt)]
  · simp [hab]

theorem nextOf_setPrev (h : List (Listener α)) (a b : Nat) (v : Option Nat) :
    nextOf (setPrev h a v) b = nextOf h b := by
  unfold nextOf setPrev
  rw [List.getElem?_modify]
  by_cases hab : a = b
  · subst hab
    cases hg : h[a]? <;> simp
  · simp [hab]

theorem flagOf_setPrev (h : List (Listener α)) (a b : Nat) (v : Option Nat) :
    flagOf (setPrev h a v) b = flagOf h b := by
  unfold flagOf setPrev
  rw [List.getElem?_modify]
  by_cases hab : a = b
  · subst hab
    cases hg : h[a]? <;> simp
  · simp [hab]

theorem callbackOf_setPrev (h : List (Listener α)) (a b : Nat) (v : Option Nat) :
    callbackOf (setPrev h a v) b = callbackOf h b := by
  unfold callbackOf setPrev
  rw [List.getElem?_modify]
  by_cases hab : a = b
  · subst hab
    cases hg : h[a]? <;> simp
  · simp [hab]

theorem flagOf_setFlag (h : List (Listener α)) (a b : Nat) (v : Bool) :
    flagOf (setFlag h a v) b = if a = b ∧ b < h.length then v else flagOf h b := by
  unfold flagOf setFlag
  rw [List.getElem?_modify]
  by_cases hab : a = b
  · subst hab
    by_cases hlt : a < h.length
    · simp [hlt, List.getElem?_eq_getElem hlt]
    · simp [hlt, List.getElem?_eq_none (Nat.le_of_not_lt hlt)]
  · simp [hab]

theorem nextOf_setFlag (h : List (Listener α)) (a b : Nat) (v : Bool) :
    nextOf (setFlag h a v) b = nextOf h b := by
  unfold nextOf setFlag
  rw [List.getElem?_modify]
  by_cases hab : a = b
  · subst hab
    cases hg : h[a]? <;> simp
  · simp [hab]

theorem prevOf_setFlag (h : List (Listener α)) (a b : Nat) (v : Bool) :
    prevOf (setFlag h a v) b = prevOf h b := by
  unfold prevOf setFlag
  rw [List.getElem?_modify]
  by_cases hab : a = b
  · subst hab
    cases hg : h[a]? <;> simp
  · simp [hab]

theorem callbackOf_setFlag (h : List (Listener α)) (a b : Nat) (v : Bool) :
    callbackOf (setFlag h a v) b = callbackOf h b := by
  unfold callbackOf setFlag
  rw [List.getElem?_modify]
  by_cases hab : a = b
  · subst hab
    cases hg : h[a]? <;> simp
  · simp [hab]

theorem flagOf_lt {h : List (Listener α)} {a : Nat} (hf : flagOf h a = true) : a < h.length := by
  unfold flagOf at hf
  by_contra hlt
  rw [List.getElem?_eq_none (Nat.le_of_not_lt hlt)] at hf
  simp at hf

theorem nextOf_append_left (h : List (Listener α)) (x : Listener α) (a : Nat) (ha : a < h.length) :
    nextOf (h ++ [x]) a = nextOf h a := by
  unfold nextOf; rw [List.getElem?_append_left ha]

theorem prevOf_append_left (h : List (Listener α)) (x : Listener α) (a : Nat) (ha : a < h.length) :
    prevOf (h ++ [x]) a = prevOf h a := by
  unfold prevOf; rw [List.getElem?_append_left ha]

theorem flagOf_append_left (h : List (Listener α)) (x : Listener α) (a : Nat) (ha : a < h.length) :
    flagOf (h ++ [x]) a = flagOf h a := by
  unfold flagOf; rw [List.getElem?_append_left ha]

theorem callbackOf_append_left (h : List (Listener α)) (x : Listener α) (a : Nat) (ha : a < h.length) :
    callbackOf (h ++ [x]) a = callbackOf h a := by
  unfold callbackOf; rw [List.getElem?_append_left ha]

theorem nextOf_append_new (h : List (Listener α)) (x : Listener α) :
    nextOf (h ++ [x]) h.length = x.next := by
  unfold nextOf; simp

theorem prevOf_append_new (h : List (Listener α)) (x : Listener α) :
    prevOf (h ++ [x]) h.length = x.prev := by
  unfold prevOf; simp

theorem flagOf_append_new (h : List (Listener α)) (x : Listener α) :
    flagOf (h ++ [x]) h.length = x.isSubscribed := by
  unfold flagOf; simp

theorem callbackOf_append_new (h : List (Listener α)) (x : Listener α) :
    callbackOf (h ++ [x]) h.length = some x.callback := by
  unfold callbackOf; simp

/-! ## List segments -/

theorem LSeg.frame {h h2 : List (Listener α)} {ls : List Nat} (hlen : h.length ≤ h2.length)
    (hn : ∀ a ∈ ls, nextOf h2 a = nextOf h a) (hp : ∀ a ∈ ls, prevOf h2 a = prevOf h a) :
    ∀ {p f nx l : Option Nat}, LSeg h p ls f nx l → LSeg h2 p ls f nx l := by
  induction ls with
  | nil => intro p f nx l hs; exact hs
  | cons a as ih =>
    intro p f nx l hs
    obtain ⟨h1, h3, h4, h5⟩ := hs
    refine ⟨h1, Nat.lt_of_lt_of_le h3 hlen, ?_, ?_⟩
    · rw [hp a (List.mem_cons_self _ _)]; exact h4
    · rw [hn a (List.mem_cons_self _ _)]
      exact ih (fun b hb => hn b (List.mem_cons_of_mem _ hb))
        (fun b hb => hp b (List.mem_cons_of_mem _ hb)) h5

theorem LSeg.append_iff {h : List (Listener α)} {l1 l2 : List Nat} :
    ∀ {p f nx l : Option Nat}, LSeg h p (l1 ++ l2) f nx l ↔
      ∃ m q, LSeg h p l1 f m q ∧ LSeg h q l2 m nx l := by
  induction l1 with
  | nil =>
    intro p f nx l
    constructor
    · intro hs; exact ⟨f, p, ⟨rfl, rfl⟩, hs⟩
    · rintro ⟨m, q, ⟨rfl, rfl⟩, hs⟩; exact hs
  | cons a as ih =>
    intro p f nx l
    constructor
    · rintro ⟨h1, h3, h4, h5⟩
      obtain ⟨m, q, h6, h7⟩ := ih.mp h5
      exact ⟨m, q, ⟨h1, h3, h4, h6⟩, h7⟩
    · rintro ⟨m, q, ⟨h1, h3, h4, h6⟩, h7⟩
      exact ⟨h1, h3, h4, ih.mpr ⟨m, q, h6, h7⟩⟩

theorem LSeg.lt_length {h : List (Listener α)} {ls : List Nat} :
    ∀ {p f nx l : Option Nat}, LSeg h p ls f nx l → ∀ a ∈ ls, a < h.length := by
  induction ls with
  | nil => intro p f nx l _ a ha; cases ha
  | cons b bs ih =>
    intro p f nx l hs a ha
    obtain ⟨_, h3, _, h5⟩ := hs
    rcases List.mem_cons.mp ha with rfl | ha
    · exact h3
    · exact ih h5 a ha

/-- The last pointer of a non-empty segment is its last element. -/
theorem LSeg.last_eq {h : List (Listener α)} {ls : List Nat} :
    ∀ {p f nx l : Option Nat}, LSeg h p ls f nx l → l = (ls.getLast?).or p := by
  induction ls with
  | nil => intro p f nx l hs; simpa using hs.2
  | cons b bs ih =>
    intro p f nx l hs
    obtain ⟨_, _, _, h5⟩ := hs
    have := ih h5
    rw [this]
    cases bs with
    | nil => simp
    | cons c cs =>
      rw [List.getLast?_cons_cons]
      rw [List.getLast?_eq_getLast _ (List.cons_ne_nil c cs)]
      rfl

theorem LSeg.first_eq {h : List (Listener α)} {ls : List Nat} {p f nx l : Option Nat}
    (hs : LSeg h p ls f nx l) : f = (ls.head?).or nx := by
  cases ls with
  | nil => simpa using hs.1
  | cons b bs => simpa using hs.1

/-- Walking `next` from the start of a segment that ends in `null` returns the segment. -/
theorem LSeg.getFrom_eq {h : List (Listener α)} {ls : List Nat} :
    ∀ {p f l : Option Nat} (fuel : Nat), LSeg h p ls f none l → ls.length ≤ fuel →
      ListenerCollection.getFrom h fuel f = some ls := by
  induction ls with
  | nil =>
    intro p f l fuel hs _
    obtain ⟨rfl, _⟩ := hs
    cases fuel <;> rfl
  | cons b bs ih =>
    intro p f l fuel hs hfuel
    obtain ⟨rfl, _, _, h5⟩ := hs
    cases fuel with
    | zero => simp at hfuel
    | succ k =>
      simp only [ListenerCollection.getFrom]
      rw [ih k h5 (by simpa using hfuel)]
      rfl

theorem LSeg.snoc_iff {h : List (Listener α)} {ls : List Nat} {a : Nat} {p f nx l : Option Nat} :
    LSeg h p (ls ++ [a]) f nx l ↔
      ∃ q, LSeg h p ls f (some a) q ∧ a < h.length ∧ prevOf h a = q ∧ nextOf h a = nx ∧
        l = some a := by
  rw [LSeg.append_iff]
  constructor
  · rintro ⟨m, q, h1, h2, h3, h4, h5, h6⟩
    subst h2
    exact ⟨q, h1, h3, h4, h5, h6⟩
  · rintro ⟨q, h1, h3, h4, h5, h6⟩
    exact ⟨some a, q, h1, rfl, h3, h4, h5, h6⟩

/-! ## The listeners linked since an address -/

theorem mem_linkedSince {e a : Nat} {h : List (Listener α)} :
    a ∈ linkedSince e h ↔ e ≤ a ∧ flagOf h a = true := by
  unfold linkedSince
  rw [List.mem_filter, List.mem_range']
  constructor
  · rintro ⟨⟨i, hi, rfl⟩, hf⟩
    exact ⟨by omega, hf⟩
  · rintro ⟨he, hf⟩
    have := flagOf_lt hf
    exact ⟨⟨a - e, by omega, by omega⟩, hf⟩

theorem nodup_linkedSince (e : Nat) (h : List (Listener α)) : (linkedSince e h).Nodup :=
  (List.nodup_range' e (h.length - e)).filter _

theorem linkedSince_congr {e : Nat} {h h2 : List (Listener α)} (hlen : h2.length = h.length)
    (hf : ∀ a, flagOf h2 a = flagOf h a) : linkedSince e h2 = linkedSince e h := by
  unfold linkedSince
  rw [hlen]
  exact List.filter_congr (fun a _ => hf a)

theorem linkedSince_append_new {e : Nat} (h : List (Listener α)) (x : Listener α)
    (he : e ≤ h.length) (hx : x.isSubscribed = true) :
    linkedSince e (h ++ [x]) = linkedSince e h ++ [h.length] := by
  unfold linkedSince
  have h1 : (h ++ [x]).length - e = (h.length - e) + 1 := by simp; omega
  rw [h1, List.range'_1_concat e (h.length - e), List.filter_append]
  congr 1
  · apply List.filter_congr
    intro a ha
    rw [List.mem_range'] at ha
    obtain ⟨i, hi, rfl⟩ := ha
    exact flagOf_append_left h x _ (by omega)
  · have : e + (h.length - e) = h.length := by omega
    rw [this]
    simp [flagOf_append_new, hx]

/-- Sorted: the chain lists the listeners in the order of their `subscribe` calls. -/
theorem sorted_linkedSince (e : Nat) (h : List (Listener α)) :
    (linkedSince e h).Pairwise (· < ·) :=
  (List.pairwise_lt_range' e (h.length - e)).filter _

theorem linkedSince_length_le (e : Nat) (h : List (Listener α)) :
    (linkedSince e h).length ≤ h.length := by
  unfold linkedSince
  refine le_trans (List.length_filter_le _ _) ?_
  simp

/-- Clearing the flag of `a` removes exactly `a` from the linked listeners. -/
theorem linkedSince_setFlag_false {e a : Nat} (h : List (Listener α)) (l1 l2 : List Nat)
    (hs : linkedSince e h = l1 ++ a :: l2) :
    linkedSince e (setFlag h a false) = l1 ++ l2 := by
  have hnd := nodup_linkedSince e h
  rw [hs] at hnd
  have ha1 : a ∉ l1 := fun hm => by
    have := List.nodup_append.mp hnd
    exact this.2.2 hm (List.mem_cons_self _ _)
  have ha2 : a ∉ l2 := by
    have := (List.nodup_append.mp hnd).2.1
    exact (List.nodup_cons.mp this).1
  have key : linkedSince e (setFlag h a false) = (linkedSince e h).filter (fun b => decide (b ≠ a)) := by
    unfold linkedSince
    rw [length_setFlag, List.filter_filter]
    apply List.filter_congr
    intro b hb
    rw [flagOf_setFlag]
    by_cases hab : a = b
    · subst hab
      rw [List.mem_range'] at hb
      have : a < h.length := by obtain ⟨i, hi, rfl⟩ := hb; omega
      simp [this]
    · have : b ≠ a := fun hh => hab hh.symm
      simp [hab, this]
  rw [key, hs, List.filter_append, List.filter_cons]
  simp only [ne_eq, not_true_eq_false, decide_False, Bool.false_eq_true, if_false]
  rw [List.filter_eq_self.mpr, List.filter_eq_self.mpr]
  · intro b hb
    have : b ≠ a := fun hh => ha2 (hh ▸ hb)
    simpa using this
  · intro b hb
    have : b ≠ a := fun hh => ha1 (hh ▸ hb)
    simpa using this

/-! ## The operations preserve the representation invariant -/

theorem Inv.fresh : Inv 0 (ListenerCollection.fresh : ListenerCollection α) := by
  refine ⟨Nat.le_refl _, ?_⟩
  simp [ListenerCollection.fresh, linkedSince, LSeg]

theorem Inv.clear {e : Nat} {s : ListenerCollection α} (_hI : Inv e s) :
    Inv s.heap.length s.clear := by
  refine ⟨Nat.le_refl _, ?_⟩
  simp [ListenerCollection.clear, linkedSince, LSeg]

theorem getLast?_eq_some_append {l : List Nat} {p : Nat} (h : l.getLast? = some p) :
    ∃ l1, l = l1 ++ [p] := by
  have hne : l ≠ [] := by rintro rfl; simp at h
  refine ⟨l.dropLast, ?_⟩
  have h2 := List.dropLast_append_getLast hne
  rw [List.getLast?_eq_getLast _ hne] at h
  injection h with h
  rw [← h]; exact h2.symm

theorem Inv.subscribe {e : Nat} {s : ListenerCollection α} (cb : α) (hI : Inv e s) :
    Inv e (s.subscribe cb) := by
  obtain ⟨he, hs⟩ := hI
  have hlast := hs.last_eq
  unfold ListenerCollection.subscribe
  cases hl : s.last with
  | none =>
    rw [hl] at hlast
    have hnil : linkedSince e s.heap = [] := by
      cases hll : linkedSince e s.heap with
      | nil => rfl
      | cons b bs =>
        rw [hll] at hlast
        rw [List.getLast?_eq_getLast _ (List.cons_ne_nil b bs)] at hlast
        simp at hlast
    refine ⟨by simp; omega, ?_⟩
    simp only
    rw [linkedSince_append_new _ _ he rfl, hnil]
    refine ⟨rfl, by simp, ?_, ?_, rfl⟩
    · rw [prevOf_append_new]
    · rw [nextOf_append_new]
  | some p =>
    rw [hl] at hlast
    have hgl : (linkedSince e s.heap).getLast? = some p := by
      cases hll : (linkedSince e s.heap).getLast? with
      | none => rw [hll] at hlast; simp at hlast
      | some b => rw [hll] at hlast; simpa using hlast.symm
    obtain ⟨l1, hl1⟩ := getLast?_eq_some_append hgl
    have hnd := nodup_linkedSince e s.heap
    rw [hl1] at hs hnd
    obtain ⟨q, h1, h2, h3, h4, _⟩ := LSeg.snoc_iff.mp hs
    have hp1 : p ∉ l1 := fun hm =>
      (List.nodup_append.mp hnd).2.2 hm (List.mem_singleton_self p)
    have hlt1 := h1.lt_length
    refine ⟨by simp [length_setNext]; omega, ?_⟩
    simp only
    rw [linkedSince_congr (length_setNext _ _ _) (fun a => flagOf_setNext _ _ _ _),
      linkedSince_append_new _ _ he rfl, hl1]
    refine LSeg.snoc_iff.mpr ⟨some p, LSeg.snoc_iff.mpr ⟨q, ?_, ?_, ?_, ?_, rfl⟩, ?_, ?_, ?_, rfl⟩
    · refine LSeg.frame (by simp [length_setNext]) ?_ ?_ h1
      · intro a ha
        rw [nextOf_setNext, if_neg, nextOf_append_left _ _ _ (hlt1 a ha)]
        rintro ⟨rfl, _⟩; exact hp1 ha
      · intro a ha
        rw [prevOf_setNext, prevOf_append_left _ _ _ (hlt1 a ha)]
    · simp [length_setNext]; omega
    · rw [prevOf_setNext, prevOf_append_left _ _ _ h2, h3]
    · rw [nextOf_setNext, if_pos]
      exact ⟨rfl, by simp; omega⟩
    · simp [length_setNext]
    · rw [prevOf_setNext, prevOf_append_new]
    · rw [nextOf_setNext, if_neg, nextOf_append_new]
      rintro ⟨rfl, _⟩; omega

theorem linkedSince_subscribe {e : Nat} (s : ListenerCollection α) (cb : α)
    (he : e ≤ s.heap.length) :
    linkedSince e (s.subscribe cb).heap = linkedSince e s.heap ++ [s.heap.length] := by
  unfold ListenerCollection.subscribe
  cases hl : s.last with
  | none => exact linkedSince_append_new _ _ he rfl
  | some p =>
    simp only
    rw [linkedSince_congr (length_setNext _ _ _) (fun a => flagOf_setNext _ _ _ _),
      linkedSince_append_new _ _ he rfl]

theorem head?_eq_some_cons {l : List Nat} {n : Nat} (h : l.head? = some n) :
    ∃ l2, l = n :: l2 := by
  cases l with
  | nil => simp at h
  | cons b bs => simp at h; exact ⟨bs, by rw [h]⟩

/-- Right half of an unlink: the successor segment after `listener.next.prev = listener.prev`
(or `last = listener.prev`). -/
theorem LSeg.unlink_right {h : List (Listener α)} {a : Nat} {l2 : List Nat} {q l : Option Nat}
    (hnd : (a :: l2).Nodup) (hs2 : LSeg h (some a) l2 (nextOf h a) none l) :
    (∀ n, nextOf h a = some n →
      LSeg (setPrev (setFlag h a false) n q) q l2 (some n) none l ∧ n ∈ l2) ∧
    (nextOf h a = none → l2 = [] ∧ l = some a) := by
  constructor
  · intro n hn
    rw [hn] at hs2
    have hf := hs2.first_eq
    have hh : l2.head? = some n := by
      cases hl : l2.head? with
      | none => rw [hl] at hf; simp at hf
      | some b => rw [hl] at hf; simpa using hf.symm
    obtain ⟨l3, rfl⟩ := head?_eq_some_cons hh
    obtain ⟨_, h2, h3, h4⟩ := hs2
    have hn3 : n ∉ l3 := (List.nodup_cons.mp (List.nodup_cons.mp hnd).2).1
    refine ⟨⟨rfl, by simp [length_setPrev, length_setFlag]; exact h2, ?_, ?_⟩,
      List.mem_cons_self _ _⟩
    · rw [prevOf_setPrev, if_pos]
      exact ⟨rfl, by simp [length_setFlag]; exact h2⟩
    · rw [nextOf_setPrev, nextOf_setFlag]
      refine LSeg.frame (by simp [length_setPrev, length_setFlag]) ?_ ?_ h4
      · intro b _; rw [nextOf_setPrev, nextOf_setFlag]
      · intro b hb
        rw [prevOf_setPrev, if_neg, prevOf_setFlag]
        rintro ⟨rfl, _⟩; exact hn3 hb
  · intro hn
    rw [hn] at hs2
    have hf := hs2.first_eq
    have hnil : l2 = [] := by
      cases l2 with
      | nil => rfl
      | cons b bs => simp at hf
    subst hnil
    exact ⟨rfl, hs2.2⟩

theorem LSeg.last_none {h : List (Listener α)} {l1 : List Nat} {p f nx : Option Nat}
    (hs : LSeg h p l1 f nx none) : l1 = [] := by
  have := hs.last_eq
  cases l1 with
  | nil => rfl
  | cons b bs =>
    rw [List.getLast?_eq_getLast _ (List.cons_ne_nil b bs)] at this
    simp at this

theorem LSeg.last_some {h : List (Listener α)} {l1 : List Nat} {f nx : Option Nat} {p : Nat}
    (hs : LSeg h none l1 f nx (some p)) : ∃ l0, l1 = l0 ++ [p] := by
  have := hs.last_eq
  apply getLast?_eq_some_append
  cases hl : l1.getLast? with
  | none => rw [hl] at this; simp at this
  | some b => rw [hl] at this; simpa using this.symm

/-- The pointer surgery of `unsubscribe` on a chain `l1 ++ a :: l2` yields the chain `l1 ++ l2`. -/
theorem LSeg.unsubscribe_chain {h : List (Listener α)} {a : Nat} {l1 l2 : List Nat} {f l : Option Nat}
    (hnd : (l1 ++ a :: l2).Nodup) (hs : LSeg h none (l1 ++ a :: l2) f none l)
    (hfl : flagOf h a = true) :
    LSeg (ListenerCollection.unsubscribe a ⟨h, f, l⟩).heap none (l1 ++ l2)
      (ListenerCollection.unsubscribe a ⟨h, f, l⟩).first none
      (ListenerCollection.unsubscribe a ⟨h, f, l⟩).last := by
  obtain ⟨m, q, hs1, hm, halt, hpa, hs2⟩ := LSeg.append_iff.mp hs
  subst hm
  have hnd2 : (a :: l2).Nodup := (List.nodup_append.mp hnd).2.1
  have ha1 : a ∉ l1 := fun hm' =>
    (List.nodup_append.mp hnd).2.2 hm' (List.mem_cons_self _ _)
  have hdisj : ∀ b ∈ l1, b ∉ l2 := fun b hb hb2 =>
    (List.nodup_append.mp hnd).2.2 hb (List.mem_cons_of_mem _ hb2)
  have hfirst : f.isNone = false := by
    have := hs.first_eq
    cases l1 <;> simp at this <;> simp [this]
  obtain ⟨hR1, hR2⟩ := LSeg.unlink_right (q := q) hnd2 hs2
  have hlt1 := hs1.lt_length
  unfold ListenerCollection.unsubscribe
  simp only [hfl, hfirst, Bool.not_true, Bool.or_self, Bool.false_eq_true, if_false,
    nextOf_setFlag, prevOf_setFlag]
  cases hn : nextOf h a with
  | none =>
    obtain ⟨rfl, rfl⟩ := hR2 hn
    simp only [hpa, prevOf_setFlag, nextOf_setFlag, hn, List.append_nil]
    cases q with
    | none =>
      have := hs1.last_none
      subst this
      exact ⟨rfl, rfl⟩
    | some p =>
      obtain ⟨l0, rfl⟩ := hs1.last_some
      obtain ⟨q0, h1, h2, h3, h4, _⟩ := LSeg.snoc_iff.mp hs1
      have hp0 : p ∉ l0 := fun hm' =>
        (List.nodup_append.mp (List.nodup_append.mp hnd).1).2.2 hm' (List.mem_singleton_self p)
      simp only
      refine LSeg.snoc_iff.mpr ⟨q0, ?_, ?_, ?_, ?_, rfl⟩
      · refine LSeg.frame (by simp [length_setNext, length_setFlag]) ?_ ?_ h1
        · intro b hb
          rw [nextOf_setNext, if_neg, nextOf_setFlag]
          rintro ⟨rfl, _⟩; exact hp0 hb
        · intro b _; rw [prevOf_setNext, prevOf_setFlag]
      · simp [length_setNext, length_setFlag]; exact h2
      · rw [prevOf_setNext, prevOf_setFlag, h3]
      · rw [nextOf_setNext, if_pos]
        exact ⟨rfl, by simp [length_setFlag]; exact h2⟩
  | some n =>
    obtain ⟨hR, hn2⟩ := hR1 n hn
    have hna : n ≠ a := fun hh => (List.nodup_cons.mp hnd2).1 (hh ▸ hn2)
    have hpa2 : prevOf (setPrev (setFlag h a false) n (prevOf h a)) a = q := by
      rw [prevOf_setPrev, if_neg, prevOf_setFlag, hpa]
      rintro ⟨rfl, _⟩; exact hna rfl
    simp only [hpa2, nextOf_setPrev, nextOf_setFlag, hn]
    rw [hpa]
    cases q with
    | none =>
      have := hs1.last_none
      subst this
      exact hR
    | some p =>
      obtain ⟨l0, rfl⟩ := hs1.last_some
      obtain ⟨q0, h1, h2, h3, h4, _⟩ := LSeg.snoc_iff.mp hs1
      have hp0 : p ∉ l0 := fun hm' =>
        (List.nodup_append.mp (List.nodup_append.mp hnd).1).2.2 hm' (List.mem_singleton_self p)
      have hpn : p ≠ n := fun hh => hdisj p (by simp) (hh ▸ hn2)
      simp only
      refine LSeg.append_iff.mpr ⟨some n, some p, LSeg.snoc_iff.mpr ⟨q0, ?_, ?_, ?_, ?_, rfl⟩, ?_⟩
      · refine LSeg.frame (by simp [length_setNext, length_setPrev, length_setFlag]) ?_ ?_ h1
        · intro b hb
          rw [nextOf_setNext, if_neg, nextOf_setPrev, nextOf_setFlag]
          rintro ⟨rfl, _⟩; exact hp0 hb
        · intro b hb
          rw [prevOf_setNext, prevOf_setPrev, if_neg, prevOf_setFlag]
          rintro ⟨rfl, _⟩
          exact hdisj n (by simp [hb]) hn2
      · simp [length_setNext, length_setPrev, length_setFlag]; exact h2
      · rw [prevOf_setNext, prevOf_setPrev, if_neg, prevOf_setFlag, h3]
        rintro ⟨hh, _⟩; exact hpn hh.symm
      · rw [nextOf_setNext, if_pos]
        exact ⟨rfl, by simp [length_setPrev, length_setFlag]; exact h2⟩
      · refine LSeg.frame (by simp [length_setNext]) ?_ ?_ hR
        · intro b hb
          rw [nextOf_setNext, if_neg]
          rintro ⟨rfl, _⟩; exact hdisj p (by simp) hb
        · intro b _; rw [prevOf_setNext]

/-! ## Frame facts for the operations -/

theorem length_unsubscribe (a : Nat) (s : ListenerCollection α) :
    (s.unsubscribe a).heap.length = s.heap.length := by
  unfold ListenerCollection.unsubscribe
  split
  · rfl
  · simp only
    split <;> split <;> simp [length_setNext, length_setPrev, length_setFlag]

theorem callbackOf_unsubscribe (a b : Nat) (s : ListenerCollection α) :
    callbackOf (s.unsubscribe a).heap b = callbackOf s.heap b := by
  unfold ListenerCollection.unsubscribe
  split
  · rfl
  · simp only
    split <;> split <;>
      simp [callbackOf_setNext, callbackOf_setPrev, callbackOf_setFlag]

theorem flagOf_unsubscribe (a b : Nat) (s : ListenerCollection α) :
    flagOf (s.unsubscribe a).heap b =
      if (!(flagOf s.heap a) || s.first.isNone) = true then flagOf s.heap b
      else flagOf (setFlag s.heap a false) b := by
  unfold ListenerCollection.unsubscribe
  split
  · rfl
  · simp only
    split <;> split <;> simp [flagOf_setNext, flagOf_setPrev]

theorem unsubscribe_of_first_none (a : Nat) (s : ListenerCollection α) (h : s.first = none) :
    s.unsubscribe a = s := by
  unfold ListenerCollection.unsubscribe
  simp [h]

theorem unsubscribe_of_flag_false (a : Nat) (s : ListenerCollection α)
    (h : flagOf s.heap a = false) : s.unsubscribe a = s := by
  unfold ListenerCollection.unsubscribe
  simp [h]

theorem length_subscribe (cb : α) (s : ListenerCollection α) :
    (s.subscribe cb).heap.length = s.heap.length + 1 := by
  unfold ListenerCollection.subscribe
  split <;> simp [length_setNext]

theorem callbackOf_subscribe_old (cb : α) (s : ListenerCollection α) (b : Nat)
    (hb : b < s.heap.length) : callbackOf (s.subscribe cb).heap b = callbackOf s.heap b := by
  unfold ListenerCollection.subscribe
  split <;> simp [callbackOf_setNext, callbackOf_append_left _ _ _ hb]

theorem callbackOf_subscribe_new (cb : α) (s : ListenerCollection α) :
    callbackOf (s.subscribe cb).heap s.heap.length = some cb := by
  unfold ListenerCollection.subscribe
  split <;> simp [callbackOf_setNext, callbackOf_append_new]

theorem flagOf_subscribe_old (cb : α) (s : ListenerCollection α) (b : Nat)
    (hb : b < s.heap.length) : flagOf (s.subscribe cb).heap b = flagOf s.heap b := by
  unfold ListenerCollection.subscribe
  split <;> simp [flagOf_setNext, flagOf_append_left _ _ _ hb]

theorem flagOf_subscribe_new (cb : α) (s : ListenerCollection α) :
    flagOf (s.subscribe cb).heap s.heap.length = true := by
  unfold ListenerCollection.subscribe
  split <;> simp [flagOf_setNext, flagOf_append_new]

/-- In a state that satisfies the invariant from address `e` on, every unsubscribe capability
issued since `e`, and every capability at all while the collection is empty, keeps the
invariant. -/
theorem Inv.unsubscribe_inv {e a : Nat} {s : ListenerCollection α} (hI : Inv e s)
    (ha : e ≤ a ∨ s.first = none) : Inv e (s.unsubscribe a) := by
  by_cases hg : (!(flagOf s.heap a) || s.first.isNone) = true
  · have : s.unsubscribe a = s := by
      unfold ListenerCollection.unsubscribe; rw [if_pos hg]
    rw [this]; exact hI
  · have hfl : flagOf s.heap a = true := by
      cases hh : flagOf s.heap a
      · simp [hh] at hg
      · rfl
    have hfn : s.first ≠ none := by
      intro hh; simp [hh] at hg
    have hea : e ≤ a := by
      rcases ha with h | h
      · exact h
      · exact absurd h hfn
    obtain ⟨he, hs⟩ := hI
    have hmem : a ∈ linkedSince e s.heap := mem_linkedSince.mpr ⟨hea, hfl⟩
    obtain ⟨l1, l2, hl⟩ := List.append_of_mem hmem
    have hnd := nodup_linkedSince e s.heap
    rw [hl] at hs hnd
    refine ⟨by rw [length_unsubscribe]; exact he, ?_⟩
    have hlk : linkedSince e (s.unsubscribe a).heap = l1 ++ l2 := by
      rw [← linkedSince_setFlag_false s.heap l1 l2 hl]
      apply linkedSince_congr
      · rw [length_unsubscribe, length_setFlag]
      · intro b; rw [flagOf_unsubscribe, if_neg hg]
    rw [hlk]
    exact LSeg.unsubscribe_chain hnd hs hfl

/-- `get()` in a state that satisfies the invariant returns the linked listeners. -/
theorem Inv.get_eq {e : Nat} {s : ListenerCollection α} (hI : Inv e s) (fuel : Nat)
    (hfuel : s.heap.length ≤ fuel) : s.get fuel = some (linkedSince e s.heap) :=
  hI.2.getFrom_eq fuel (le_trans (linkedSince_length_le e s.heap) hfuel)

theorem Inv.listInvariant {e : Nat} {s : ListenerCollection α} (hI : Inv e s) :
    ListInvariant s :=
  ⟨linkedSince e s.heap, nodup_linkedSince e s.heap, hI.2⟩

/-! ## Call sequences -/

theorem runOps_cons (op : Op α) (ops : List (Op α)) (s : ListenerCollection α) :
    runOps (op :: ops) s = runOps ops (op.apply s) := rfl

theorem runOps_nil (s : ListenerCollection α) : runOps ([] : List (Op α)) s = s := rfl

theorem map_callback_modify (f : Listener α → Listener α) (hf : ∀ l, (f l).callback = l.callback)
    (n : Nat) (h : List (Listener α)) :
    (List.modify f n h).map (fun l => l.callback) = h.map (fun l => l.callback) := by
  apply List.ext_getElem?
  intro i
  rw [List.getElem?_map, List.getElem?_map, List.getElem?_modify]
  by_cases hni : n = i
  · subst hni
    cases hg : h[n]? <;> simp [hf]
  · simp [hni]

theorem map_callback_setNext (h : List (Listener α)) (a : Nat) (v : Option Nat) :
    (setNext h a v).map (fun l => l.callback) = h.map (fun l => l.callback) :=
  map_callback_modify (fun l => { l with next := v }) (fun _ => rfl) a h

theorem map_callback_setPrev (h : List (Listener α)) (a : Nat) (v : Option Nat) :
    (setPrev h a v).map (fun l => l.callback) = h.map (fun l => l.callback) :=
  map_callback_modify (fun l => { l with prev := v }) (fun _ => rfl) a h

theorem map_callback_setFlag (h : List (Listener α)) (a : Nat) (v : Bool) :
    (setFlag h a v).map (fun l => l.callback) = h.map (fun l => l.callback) :=
  map_callback_modify (fun l => { l with isSubscribed := v }) (fun _ => rfl) a h

theorem map_callback_subscribe (cb : α) (s : ListenerCollection α) :
    (s.subscribe cb).heap.map (fun l => l.callback) = s.heap.map (fun l => l.callback) ++ [cb] := by
  unfold ListenerCollection.subscribe
  split
  · rw [map_callback_setNext]
    simp
  · simp

theorem map_callback_unsubscribe (a : Nat) (s : ListenerCollection α) :
    (s.unsubscribe a).heap.map (fun l => l.callback) = s.heap.map (fun l => l.callback) := by
  unfold ListenerCollection.unsubscribe
  split
  · rfl
  · simp only
    split <;> split <;>
      simp only [map_callback_setNext, map_callback_setPrev, map_callback_setFlag]

theorem map_callback_runOps (ops : List (Op α)) :
    ∀ s : ListenerCollection α,
      (runOps ops s).heap.map (fun l => l.callback) =
        s.heap.map (fun l => l.callback) ++ subscribedCallbacks ops := by
  induction ops with
  | nil => intro s; simp [runOps_nil, subscribedCallbacks]
  | cons op ops ih =>
    intro s
    rw [runOps_cons, ih]
    cases op with
    | subscribe cb => simp [Op.apply, subscribedCallbacks, map_callback_subscribe]
    | unsubscribe a => simp [Op.apply, subscribedCallbacks, map_callback_unsubscribe]
    | clear => simp [Op.apply, subscribedCallbacks, ListenerCollection.clear]

/-- Under the invariant from address `0`, invoking capability `a` clears exactly its flag. -/
theorem Inv.flagOf_unsubscribe_eq {s : ListenerCollection α} (hI : Inv 0 s) (a b : Nat) :
    flagOf (s.unsubscribe a).heap b = (flagOf s.heap b && decide (b ≠ a)) := by
  rw [ReactRedux.flagOf_unsubscribe]
  split
  · rename_i hg
    by_cases hab : b = a
    · subst hab
      cases hfl : flagOf s.heap b with
      | false => simp
      | true =>
        exfalso
        have hfn : s.first = none := by
          cases hf : s.first with
          | none => rfl
          | some x => simp [hfl, hf] at hg
        have hmem : b ∈ linkedSince 0 s.heap := mem_linkedSince.mpr ⟨Nat.zero_le _, hfl⟩
        have := hI.2.first_eq
        rw [hfn] at this
        cases hl : linkedSince 0 s.heap with
        | nil => rw [hl] at hmem; cases hmem
        | cons c cs => rw [hl] at this; simp at this
    · simp [hab]
  · rw [flagOf_setFlag]
    by_cases hab : b = a
    · subst hab
      by_cases hlt : b < s.heap.length
      · simp [hlt]
      · have : flagOf s.heap b = false := by
          cases hfl : flagOf s.heap b with
          | false => rfl
          | true => exact absurd (flagOf_lt hfl) hlt
        simp [hlt, this]
    · have : ¬ a = b := fun hh => hab hh.symm
      simp [hab, this]

/-- Flags after a sequence without `clear()` whose invocations all name issued capabilities. -/
theorem flagOf_runOps (ops : List (Op α)) :
    ∀ s : ListenerCollection α, Inv 0 s → noClear ops = true →
      issuedFrom s.heap.length ops = true →
      Inv 0 (runOps ops s) ∧
      (runOps ops s).heap.length = s.heap.length + (subscribedCallbacks ops).length ∧
      ∀ k, flagOf (runOps ops s).heap k =
        ((if k < s.heap.length then flagOf s.heap k
          else decide (k < s.heap.length + (subscribedCallbacks ops).length)) &&
          !(invoked k ops)) := by
  induction ops with
  | nil =>
    intro s hI _ _
    refine ⟨hI, by simp [runOps_nil, subscribedCallbacks], ?_⟩
    intro k
    simp only [runOps_nil, subscribedCallbacks, invoked, List.length_nil, Nat.add_zero]
    by_cases hk : k < s.heap.length
    · simp [hk]
    · have : flagOf s.heap k = false := by
        cases hfl : flagOf s.heap k with
        | false => rfl
        | true => exact absurd (flagOf_lt hfl) hk
      simp [hk, this]
  | cons op ops ih =>
    intro s hI hnc hiss
    cases op with
    | clear => simp [noClear] at hnc
    | subscribe cb =>
      simp only [noClear] at hnc
      simp only [issuedFrom] at hiss
      have hI2 := hI.subscribe cb
      have hlen := length_subscribe cb s
      obtain ⟨h1, h2, h3⟩ := ih (s.subscribe cb) hI2 hnc (by rw [hlen]; exact hiss)
      refine ⟨h1, ?_, ?_⟩
      · rw [runOps_cons]; simp only [Op.apply, subscribedCallbacks, List.length_cons]
        rw [h2, hlen]; omega
      · intro k
        rw [runOps_cons]; simp only [Op.apply, subscribedCallbacks, List.length_cons, invoked]
        rw [h3 k, hlen]
        by_cases hk : k < s.heap.length
        · have hk2 : k < s.heap.length + 1 := by omega
          simp only [hk, hk2, if_true]
          rw [flagOf_subscribe_old cb s k hk]
        · by_cases hk2 : k = s.heap.length
          · subst hk2
            simp [flagOf_subscribe_new]
          · have hk3 : ¬ k < s.heap.length + 1 := by omega
            simp only [hk, hk3, if_false]
            congr 2
            apply propext
            omega
    | unsubscribe a =>
      simp only [noClear] at hnc
      simp only [issuedFrom, Bool.and_eq_true, decide_eq_true_eq] at hiss
      have hI2 : Inv 0 (s.unsubscribe a) := hI.unsubscribe_inv (Or.inl (Nat.zero_le _))
      have hlen := length_unsubscribe a s
      obtain ⟨h1, h2, h3⟩ := ih (s.unsubscribe a) hI2 hnc (by rw [hlen]; exact hiss.2)
      refine ⟨h1, ?_, ?_⟩
      · rw [runOps_cons]; simp only [Op.apply, subscribedCallbacks]
        rw [h2, hlen]
      · intro k
        rw [runOps_cons]; simp only [Op.apply, subscribedCallbacks, invoked]
        rw [h3 k, hlen]
        by_cases hk : k < s.heap.length
        · simp only [hk, if_true]
          rw [hI.flagOf_unsubscribe_eq]
          by_cases hka : k = a
          · subst hka; simp
          · have : ¬ a = k := fun hh => hka hh.symm
            simp [hka, this]
        · have : ¬ a = k := fun hh => hk (hh ▸ hiss.1)
          simp [hk, this]

theorem linkedSince_zero_fresh_runOps (ops : List (Op α)) (hnc : noClear ops = true)
    (hiss : issuedFrom 0 ops = true) :
    linkedSince 0 (runOps ops (ListenerCollection.fresh : ListenerCollection α)).heap =
      notInvoked ops := by
  obtain ⟨_, h2, h3⟩ := flagOf_runOps ops ListenerCollection.fresh Inv.fresh hnc
    (by simpa [ListenerCollection.fresh] using hiss)
  unfold linkedSince notInvoked
  rw [h2]
  simp only [ListenerCollection.fresh, List.length_nil, Nat.zero_add, Nat.sub_zero]
  rw [List.range_eq_range']
  apply List.filter_congr
  intro k hk
  rw [List.mem_range'] at hk
  have hk2 : k < (subscribedCallbacks ops).length := by
    obtain ⟨i, hi, rfl⟩ := hk; omega
  have h3k := h3 k
  simp only [ListenerCollection.fresh, List.length_nil, Nat.zero_add, Nat.not_lt_zero,
    if_false] at h3k
  rw [h3k]
  simp [hk2]

/-- A disciplined call sequence keeps the representation invariant. -/
theorem Inv.runOps_of_discipline (ops : List (Op α)) :
    ∀ (e : Nat) (s : ListenerCollection α) (e2 : Nat), Inv e s → discipline e s ops = some e2 →
      Inv e2 (runOps ops s) := by
  induction ops with
  | nil =>
    intro e s e2 hI hd
    simp only [discipline, Option.some.injEq] at hd
    subst hd; exact hI
  | cons op ops ih =>
    intro e s e2 hI hd
    rw [runOps_cons]
    cases op with
    | subscribe cb => exact ih e _ e2 (hI.subscribe cb) hd
    | clear => exact ih _ _ e2 hI.clear hd
    | unsubscribe a =>
      simp only [discipline] at hd
      split at hd
      · rename_i hc
        exact ih e _ e2 (hI.unsubscribe_inv hc) hd
      · cases hd

/-- C3: after any sequence of `subscribe` calls and invocations of returned unsubscribe
capabilities on a fresh collection (no `clear()`, repeated invocations allowed), `get()` returns
exactly the listeners whose capability was never invoked, each once and in the order of their
`subscribe` calls; listener `k` carries the callback of the `k`-th `subscribe` call. -/
theorem get_after_subscribe_unsubscribe (ops : List (Op α)) (hnc : noClear ops = true)
    (hiss : issuedFrom 0 ops = true) (fuel : Nat)
    (hfuel : (subscribedCallbacks ops).length ≤ fuel) :
    (runOps ops ListenerCollection.fresh).get fuel = some (notInvoked ops) ∧
    (runOps ops ListenerCollection.fresh).heap.map (fun l => l.callback) =
      subscribedCallbacks ops := by
  obtain ⟨hI, hlen, _⟩ := flagOf_runOps ops ListenerCollection.fresh Inv.fresh hnc
    (by simpa [ListenerCollection.fresh] using hiss)
  constructor
  · rw [hI.get_eq fuel, linkedSince_zero_fresh_runOps ops hnc hiss]
    rw [hlen]
    simpa [ListenerCollection.fresh] using hfuel
  · rw [map_callback_runOps]
    simp [ListenerCollection.fresh]

/-- Witness for C3: four listeners, capability 1 invoked twice, capability 0 once. -/
theorem get_after_subscribe_unsubscribe_witness :
    (runOps [Op.subscribe 10, .subscribe 20, .subscribe 30, .unsubscribe 1, .unsubscribe 1,
        .subscribe 40, .unsubscribe 0] ListenerCollection.fresh).get 4 = some [2, 3] ∧
    (runOps [Op.subscribe 10, .subscribe 20, .subscribe 30, .unsubscribe 1, .unsubscribe 1,
        .subscribe 40, .unsubscribe 0] ListenerCollection.fresh).heap.map (fun l => l.callback) =
      [10, 20, 30, 40] :=
  get_after_subscribe_unsubscribe
    [Op.subscribe 10, .subscribe 20, .subscribe 30, .unsubscribe 1, .unsubscribe 1,
      .subscribe 40, .unsubscribe 0] (by decide) (by decide) 4 (by decide)

/-- C6, as stated, fails: after `subscribe; subscribe; clear(); subscribe`, invoking the
capability of the second (dropped) listener leaves `first` at the new listener and `last` at a
dropped one, so the chain from `first` does not end at `last`. -/
theorem listInvariant_fails_after_clear :
    ¬ ListInvariant (runOps [Op.subscribe 0, .subscribe 1, .clear, .subscribe 2, .unsubscribe 1]
      (ListenerCollection.fresh : ListenerCollection Nat)) := by
  rintro ⟨ls, _, hs⟩
  have hst : runOps [Op.subscribe 0, .subscribe 1, .clear, .subscribe 2, .unsubscribe 1]
      (ListenerCollection.fresh : ListenerCollection Nat) =
      { heap := [⟨0, none, none, true⟩, ⟨1, none, some 0, false⟩, ⟨2, none, none, true⟩],
        first := some 2, last := some 0 } := by decide
  rw [hst] at hs
  cases ls with
  | nil => exact absurd hs.1 (by simp)
  | cons a as =>
    obtain ⟨h1, _, _, h4⟩ := hs
    simp only [Option.some.injEq] at h1
    subst h1
    cases as with
    | nil => exact absurd h4.2 (by simp)
    | cons b bs => exact absurd h4.1 (by simp [nextOf])

/-- C6, amended: every state reached from a fresh collection by `subscribe` calls, `clear()`
calls and invocations of unsubscribe capabilities, where a capability issued before a `clear()`
is invoked only while the collection is empty, satisfies the list invariant. -/
theorem listInvariant_of_discipline (ops : List (Op α))
    (hd : (discipline 0 ListenerCollection.fresh ops).isSome = true) :
    ListInvariant (runOps ops ListenerCollection.fresh) := by
  obtain ⟨e2, he2⟩ := Option.isSome_iff_exists.mp hd
  exact (Inv.runOps_of_discipline ops 0 _ e2 Inv.fresh he2).listInvariant

/-- Witness for the amended C6: a history with a `clear()`, an invocation of a capability issued
before it while the collection is empty, and later subscriptions and removals. -/
theorem listInvariant_of_discipline_witness :
    ListInvariant (runOps [Op.subscribe 0, .subscribe 1, .unsubscribe 0, .clear, .unsubscribe 1,
      .subscribe 2, .subscribe 3, .subscribe 4, .unsubscribe 3, .unsubscribe 3]
      (ListenerCollection.fresh : ListenerCollection Nat)) :=
  listInvariant_of_discipline _ (by decide)

/-- C7, as stated, fails: with one listener subscribed, `clear()`, and a new listener subscribed
to the same collection, `get()` returns the new listener; invoking the capability issued before
the `clear()` then empties the collection. -/
theorem stale_unsubscribe_after_resubscribe :
    (runOps [Op.subscribe 0, .clear, .subscribe 1]
      (ListenerCollection.fresh : ListenerCollection Nat)).get 2 = some [1] ∧
    ((runOps [Op.subscribe 0, .clear, .subscribe 1]
      (ListenerCollection.fresh : ListenerCollection Nat)).unsubscribe 0).get 2 = some [] := by
  decide

/-- C7, amended: in every state, after `clear()` the collection is empty, and as long as no
listener has been subscribed since, invoking any unsubscribe capabilities changes nothing:
the state stays the cleared one and `get()` stays empty. -/
theorem clear_then_unsubscribe (s : ListenerCollection α) (caps : List Nat) (fuel : Nat) :
    s.clear.get fuel = some [] ∧
    runOps (caps.map Op.unsubscribe) s.clear = s.clear ∧
    (runOps (caps.map Op.unsubscribe) s.clear).get fuel = some [] := by
  have hget : s.clear.get fuel = some [] := by
    cases fuel <;> rfl
  have hrun : runOps (caps.map Op.unsubscribe) s.clear = s.clear := by
    induction caps with
    | nil => rfl
    | cons a as ih =>
      rw [List.map_cons, runOps_cons]
      simp only [Op.apply]
      rw [unsubscribe_of_first_none a s.clear rfl]
      exact ih
  exact ⟨hget, hrun, by rw [hrun]; exact hget⟩

/-! ## `notify()` with callbacks that leave the collection alone -/

theorem callbackOf_isSome_of_lt {h : List (Listener α)} {a : Nat} (ha : a < h.length) :
    ∃ cb, callbackOf h a = some cb := by
  unfold callbackOf
  rw [List.getElem?_eq_getElem ha]
  exact ⟨_, rfl⟩

/-- Traversal of a segment whose callbacks make no call on the collection. -/
theorem notifyLoop_segment (beh : Behaviour α) (s : ListenerCollection α) (ls : List Nat)
    (hq : ∀ a ∈ ls, ∀ cb, callbackOf s.heap a = some cb → beh cb s = []) :
    ∀ {p f l : Option Nat} (fuel : Nat) (log : List Nat), LSeg s.heap p ls f none l →
      ls.length ≤ fuel → notifyLoop beh fuel f (s, log) = some (s, log ++ ls) := by
  induction ls with
  | nil =>
    intro p f l fuel log hs _
    obtain ⟨rfl, _⟩ := hs
    cases fuel <;> simp [notifyLoop]
  | cons b bs ih =>
    intro p f l fuel log hs hfuel
    obtain ⟨rfl, h2, _, h4⟩ := hs
    cases fuel with
    | zero => simp at hfuel
    | succ k =>
      obtain ⟨cb, hcb⟩ := callbackOf_isSome_of_lt h2
      simp only [notifyLoop, hcb]
      rw [hq b (List.mem_cons_self _ _) cb hcb]
      simp only [runOps_nil]
      rw [ih (fun a ha => hq a (List.mem_cons_of_mem _ ha)) k (log ++ [b]) h4
        (by simpa using hfuel)]
      simp

/-! ## `notify()` with callbacks that unsubscribe -/

theorem prevOf_unsubscribe_mid (h : List (Listener α)) (a n : Nat) (v : Bool) :
    prevOf (setPrev (setFlag h a v) n (prevOf (setFlag h a v) a)) a = prevOf h a := by
  rw [prevOf_setPrev]
  split
  · rw [prevOf_setFlag]
  · rw [prevOf_setFlag]

/-- The only `next` pointer that `unsubscribe` writes is the one of the removed listener's
predecessor. -/
theorem nextOf_unsubscribe (a x : Nat) (s : ListenerCollection α) :
    nextOf (s.unsubscribe a).heap x =
      if (!(flagOf s.heap a) || s.first.isNone) = true then nextOf s.heap x
      else if prevOf s.heap a = some x ∧ x < s.heap.length then nextOf s.heap a
      else nextOf s.heap x := by
  unfold ListenerCollection.unsubscribe
  split
  · rfl
  · simp only [nextOf_setFlag, prevOf_setFlag]
    cases hn : nextOf s.heap a with
    | none =>
      simp only [prevOf_setFlag]
      cases hp : prevOf s.heap a with
      | none => simp [nextOf_setFlag]
      | some p =>
        simp only [nextOf_setNext, nextOf_setFlag, length_setFlag, hn, Option.some.injEq]
    | some n =>
      simp only
      have := prevOf_unsubscribe_mid s.heap a n false
      rw [prevOf_setFlag] at this
      rw [this]
      cases hp : prevOf s.heap a with
      | none => simp [nextOf_setPrev, nextOf_setFlag]
      | some p =>
        simp only [nextOf_setNext, nextOf_setPrev, nextOf_setFlag, length_setPrev,
          length_setFlag, hn, Option.some.injEq]

theorem LSeg.prev_next {h : List (Listener α)} {ls : List Nat} {a p : Nat} :
    ∀ {p0 f nx l : Option Nat}, LSeg h p0 ls f nx l → a ∈ ls → prevOf h a = some p →
      (p0 = some p ∧ f = some a) ∨ (p ∈ ls ∧ nextOf h p = some a) := by
  induction ls with
  | nil => intro p0 f nx l _ ha; cases ha
  | cons b bs ih =>
    intro p0 f nx l hs ha hp
    obtain ⟨h1, _, h3, h4⟩ := hs
    rcases List.mem_cons.mp ha with rfl | ha
    · left; exact ⟨by rw [← h3, hp], h1⟩
    · right
      rcases ih h4 ha hp with ⟨h5, h6⟩ | ⟨h5, h6⟩
      · simp only [Option.some.injEq] at h5
        subst h5
        exact ⟨List.mem_cons_self _ _, h6⟩
      · exact ⟨List.mem_cons_of_mem _ h5, h6⟩

theorem LSeg.next_mem {h : List (Listener α)} {ls : List Nat} {a y : Nat} :
    ∀ {p0 f l : Option Nat}, LSeg h p0 ls f none l → ls.Pairwise (· < ·) → a ∈ ls →
      nextOf h a = some y → y ∈ ls ∧ a < y := by
  induction ls with
  | nil => intro p0 f l _ _ ha; cases ha
  | cons b bs ih =>
    intro p0 f l hs hpw ha hn
    obtain ⟨_, _, _, h4⟩ := hs
    rcases List.mem_cons.mp ha with rfl | ha
    · have hf := h4.first_eq
      rw [hn] at hf
      cases bs with
      | nil => simp at hf
      | cons c cs =>
        simp at hf
        subst hf
        exact ⟨by simp, (List.pairwise_cons.mp hpw).1 _ (List.mem_cons_self _ _)⟩
    · obtain ⟨h5, h6⟩ := ih h4 (List.pairwise_cons.mp hpw).2 ha hn
      exact ⟨List.mem_cons_of_mem _ h5, h6⟩

theorem LSeg.next_le {h : List (Listener α)} {ls : List Nat} {x a : Nat} :
    ∀ {p0 f l : Option Nat}, LSeg h p0 ls f none l → ls.Pairwise (· < ·) → x ∈ ls → a ∈ ls →
      x < a → ∃ y, nextOf h x = some y ∧ y ≤ a := by
  induction ls with
  | nil => intro p0 f l _ _ hx; cases hx
  | cons b bs ih =>
    intro p0 f l hs hpw hx ha hxa
    obtain ⟨_, _, _, h4⟩ := hs
    have hpw2 := List.pairwise_cons.mp hpw
    rcases List.mem_cons.mp hx with rfl | hx
    · rcases List.mem_cons.mp ha with rfl | ha
      · omega
      · have hf := h4.first_eq
        cases bs with
        | nil => cases ha
        | cons c cs =>
          simp at hf
          refine ⟨c, hf, ?_⟩
          rcases List.mem_cons.mp ha with rfl | ha2
          · exact Nat.le_refl _
          · exact Nat.le_of_lt ((List.pairwise_cons.mp hpw2.2).1 _ ha2)
    · rename_i hx0
      rcases List.mem_cons.mp ha with hab | ha
      · have := hpw2.1 _ hx
        omega
      · exact ih h4 hpw2.2 hx ha hxa

theorem PassInv.init {e : Nat} {s : ListenerCollection α} (hI : Inv e s) :
    PassInv (fun a => a ∈ linkedSince e s.heap) e s := by
  refine ⟨hI, fun a ha => ha, ?_, ?_, ?_⟩
  · intro x y hx hn
    exact hI.2.next_mem (sorted_linkedSince e s.heap) hx hn
  · intro x a hx ha hxa
    exact hI.2.next_le (sorted_linkedSince e s.heap) hx ha hxa
  · intro x hx
    exact flagOf_lt (mem_linkedSince.mp hx).2

theorem linkedSince_unsubscribe_subset {e a b : Nat} {s : ListenerCollection α}
    (hb : b ∈ linkedSince e (s.unsubscribe a).heap) : b ∈ linkedSince e s.heap ∧
      (((!(flagOf s.heap a) || s.first.isNone) = false) → b ≠ a) := by
  rw [mem_linkedSince] at hb ⊢
  obtain ⟨h1, h2⟩ := hb
  rw [flagOf_unsubscribe] at h2
  split at h2
  · rename_i hg
    exact ⟨⟨h1, h2⟩, fun hh => by rw [hh] at hg; cases hg⟩
  · rw [flagOf_setFlag] at h2
    split at h2
    · cases h2
    · rename_i hne
      refine ⟨⟨h1, h2⟩, fun _ hba => hne ⟨hba.symm, ?_⟩⟩
      exact flagOf_lt h2

theorem PassInv.unsubscribe_pass {P : Nat → Prop} {e a : Nat} {s : ListenerCollection α}
    (hP : PassInv P e s) (hea : e ≤ a) : PassInv P e (s.unsubscribe a) := by
  obtain ⟨hI, hlk, hcl, hre, hbd⟩ := hP
  by_cases hg : (!(flagOf s.heap a) || s.first.isNone) = true
  · have : s.unsubscribe a = s := by
      unfold ListenerCollection.unsubscribe; rw [if_pos hg]
    rw [this]; exact ⟨hI, hlk, hcl, hre, hbd⟩
  · have hfl : flagOf s.heap a = true := by
      cases hh : flagOf s.heap a
      · simp [hh] at hg
      · rfl
    have hmem : a ∈ linkedSince e s.heap := mem_linkedSince.mpr ⟨hea, hfl⟩
    have hgf : (!(flagOf s.heap a) || s.first.isNone) = false := Bool.eq_false_iff.mpr hg
    -- the predecessor of `a`, when there is one, is linked and points at `a`
    have hpred : ∀ p, prevOf s.heap a = some p → P p ∧ nextOf s.heap p = some a := by
      intro p hp
      rcases hI.2.prev_next hmem hp with ⟨h1, _⟩ | ⟨h1, h2⟩
      · cases h1
      · exact ⟨hlk p h1, h2⟩
    refine ⟨hI.unsubscribe_inv (Or.inl hea), ?_, ?_, ?_, ?_⟩
    · intro b hb
      exact hlk b (linkedSince_unsubscribe_subset hb).1
    · intro x y hx hn
      rw [nextOf_unsubscribe, if_neg hg] at hn
      split at hn
      · rename_i hc
        obtain ⟨_, hpa⟩ := hpred x hc.1
        have h1 := hcl x a hx hpa
        have h2 := hcl a y h1.1 hn
        exact ⟨h2.1, by omega⟩
      · exact hcl x y hx hn
    · intro x b hx hb hxb
      obtain ⟨hb1, hb2⟩ := linkedSince_unsubscribe_subset hb
      have hba := hb2 hgf
      rw [nextOf_unsubscribe, if_neg hg]
      split
      · rename_i hc
        obtain ⟨_, hpa⟩ := hpred x hc.1
        obtain ⟨y, hy1, hy2⟩ := hre x b hx hb1 hxb
        rw [hpa] at hy1
        simp only [Option.some.injEq] at hy1
        subst hy1
        have h1 := hcl x a hx hpa
        exact hre a b h1.1 hb1 (by omega)
      · exact hre x b hx hb1 hxb
    · intro x hx
      rw [length_unsubscribe]; exact hbd x hx

theorem PassInv.runOps {P : Nat → Prop} {e : Nat} (ops : List (Op α))
    (hops : ∀ op ∈ ops, ∃ a, op = Op.unsubscribe a ∧ e ≤ a) :
    ∀ s : ListenerCollection α, PassInv P e s →
      PassInv P e (runOps ops s) ∧ (runOps ops s).heap.length = s.heap.length ∧
      ∀ b ∈ linkedSince e (runOps ops s).heap, b ∈ linkedSince e s.heap := by
  induction ops with
  | nil => intro s hP; exact ⟨hP, rfl, fun b hb => hb⟩
  | cons op ops ih =>
    intro s hP
    obtain ⟨a, rfl, hea⟩ := hops op (List.mem_cons_self _ _)
    obtain ⟨h1, h2, h3⟩ := ih (fun o ho => hops o (List.mem_cons_of_mem _ ho))
      (s.unsubscribe a) (hP.unsubscribe_pass hea)
    rw [runOps_cons]
    refine ⟨h1, ?_, ?_⟩
    · simp only [Op.apply]; rw [h2, length_unsubscribe]
    · intro b hb
      exact (linkedSince_unsubscribe_subset (h3 b hb)).1

/-- The loop of `notify()` when callbacks only invoke unsubscribe capabilities issued since
address `e`: it ends, moves strictly forward, and reaches every listener that is still linked
when it ends. -/
theorem notifyLoop_unsubscribing (beh : Behaviour α) (e : Nat) (P : Nat → Prop)
    (hbeh : ∀ cb st op, op ∈ beh cb st → ∃ a, op = Op.unsubscribe a ∧ e ≤ a) :
    ∀ (fuel : Nat) (c : Option Nat) (s : ListenerCollection α) (log : List Nat),
      PassInv P e s → (∀ x, c = some x → P x ∧ s.heap.length ≤ x + fuel) →
      ∃ s2 extra, notifyLoop beh fuel c (s, log) = some (s2, log ++ extra) ∧
        PassInv P e s2 ∧ s2.heap.length = s.heap.length ∧
        (∀ b ∈ linkedSince e s2.heap, b ∈ linkedSince e s.heap) ∧
        extra.Pairwise (· < ·) ∧ (∀ b ∈ extra, ∃ x, c = some x ∧ x ≤ b) ∧
        (∀ b ∈ linkedSince e s2.heap, (∃ x, c = some x ∧ x ≤ b) → b ∈ extra) := by
  intro fuel
  induction fuel with
  | zero =>
    intro c s log hP hc
    cases c with
    | none =>
      refine ⟨s, [], by simp [notifyLoop], hP, rfl, fun b hb => hb, List.Pairwise.nil, ?_, ?_⟩
      · intro b hb; cases hb
      · rintro b _ ⟨x, hx, _⟩; cases hx
    | some x =>
      obtain ⟨h1, h2⟩ := hc x rfl
      have := hP.2.2.2.2 x h1
      omega
  | succ k ih =>
    intro c s log hP hc
    cases c with
    | none =>
      refine ⟨s, [], by simp [notifyLoop], hP, rfl, fun b hb => hb, List.Pairwise.nil, ?_, ?_⟩
      · intro b hb; cases hb
      · rintro b _ ⟨x, hx, _⟩; cases hx
    | some x =>
      obtain ⟨hPx, hfuel⟩ := hc x rfl
      have hxlt := hP.2.2.2.2 x hPx
      obtain ⟨cb, hcb⟩ := callbackOf_isSome_of_lt hxlt
      obtain ⟨hP1, hlen1, hsub1⟩ := PassInv.runOps (beh cb s) (hbeh cb s) s hP
      have hc1 : ∀ y, nextOf (runOps (beh cb s) s).heap x = some y →
          P y ∧ (runOps (beh cb s) s).heap.length ≤ y + k := by
        intro y hy
        obtain ⟨h1, h2⟩ := hP1.2.2.1 x y hPx hy
        exact ⟨h1, by rw [hlen1]; omega⟩
      obtain ⟨s2, extra, h1, h2, h3, h4, h5, h6, h7⟩ :=
        ih (nextOf (runOps (beh cb s) s).heap x) (runOps (beh cb s) s) (log ++ [x]) hP1 hc1
      refine ⟨s2, x :: extra, ?_, h2, by rw [h3, hlen1], fun b hb => hsub1 b (h4 b hb), ?_, ?_, ?_⟩
      · simp only [notifyLoop, hcb]
        rw [h1]; simp
      · refine List.pairwise_cons.mpr ⟨?_, h5⟩
        intro b hb
        obtain ⟨y, hy, hyb⟩ := h6 b hb
        have := (hP1.2.2.1 x y hPx hy).2
        omega
      · intro b hb
        rcases List.mem_cons.mp hb with rfl | hb
        · exact ⟨b, rfl, Nat.le_refl _⟩
        · obtain ⟨y, hy, hyb⟩ := h6 b hb
          have := (hP1.2.2.1 x y hPx hy).2
          exact ⟨x, rfl, by omega⟩
      · rintro b hb ⟨x2, hx2, hxb⟩
        simp only [Option.some.injEq] at hx2
        subst hx2
        by_cases hbx : b = x
        · subst hbx; exact List.mem_cons_self _ _
        · obtain ⟨y, hy1, hy2⟩ := hP1.2.2.2.1 x b hPx (h4 b hb) (by omega)
          exact List.mem_cons_of_mem _ (h7 b hb ⟨y, hy1, hy2⟩)

/-- The first listener of a chain is the smallest linked address. -/
theorem Inv.first_le {e : Nat} {s : ListenerCollection α} (hI : Inv e s) {b : Nat}
    (hb : b ∈ linkedSince e s.heap) : ∃ x, s.first = some x ∧ x ∈ linkedSince e s.heap ∧ x ≤ b := by
  have hf := hI.2.first_eq
  have hpw := sorted_linkedSince e s.heap
  cases hl : linkedSince e s.heap with
  | nil => rw [hl] at hb; cases hb
  | cons c cs =>
    rw [hl] at hf hb hpw
    refine ⟨c, by simpa using hf, List.mem_cons_self _ _, ?_⟩
    rcases List.mem_cons.mp hb with rfl | hb
    · exact Nat.le_refl _
    · exact Nat.le_of_lt ((List.pairwise_cons.mp hpw).1 _ hb)

theorem Inv.first_mem {e : Nat} {s : ListenerCollection α} (hI : Inv e s) {x : Nat}
    (hx : s.first = some x) : x ∈ linkedSince e s.heap := by
  have hf := hI.2.first_eq
  rw [hx] at hf
  cases hl : linkedSince e s.heap with
  | nil => rw [hl] at hf; simp at hf
  | cons c cs =>
    rw [hl] at hf
    simp at hf
    subst hf
    exact List.mem_cons_self _ _

/-- C4: on every collection state reached by a disciplined call sequence, with callbacks that
do not touch the collection and a batching function that runs its argument once, `notify()`
leaves the collection as it is and invokes exactly the listeners that `get()` returns, each once,
in the order of their `subscribe` calls. -/
theorem notify_without_mutation (ops : List (Op α))
    (hd : (discipline 0 ListenerCollection.fresh ops).isSome = true)
    (batch : (ListenerCollection α × List Nat → Option (ListenerCollection α × List Nat)) →
      ListenerCollection α × List Nat → Option (ListenerCollection α × List Nat))
    (hbatch : ∀ work st, batch work st = work st)
    (beh : Behaviour α) (hpure : ∀ cb st, beh cb st = [])
    (fuel : Nat) (hfuel : (runOps ops ListenerCollection.fresh).heap.length ≤ fuel) :
    ∃ ls, (runOps ops ListenerCollection.fresh).get fuel = some ls ∧
      notify batch beh fuel (runOps ops ListenerCollection.fresh) =
        some (runOps ops ListenerCollection.fresh, ls) ∧
      ls.Pairwise (· < ·) := by
  obtain ⟨e2, he2⟩ := Option.isSome_iff_exists.mp hd
  have hI := Inv.runOps_of_discipline ops 0 _ e2 Inv.fresh he2
  refine ⟨linkedSince e2 (runOps ops ListenerCollection.fresh).heap, hI.get_eq fuel hfuel, ?_,
    sorted_linkedSince _ _⟩
  unfold notify
  rw [hbatch]
  have := notifyLoop_segment beh (runOps ops ListenerCollection.fresh) _
    (fun a _ cb _ => hpure cb _) fuel [] hI.2
    (le_trans (linkedSince_length_le _ _) hfuel)
  simpa using this

/-- Witness for C4: listeners subscribed in the order X, Y, Z (callbacks 7, 8, 9) are invoked as
exactly the listeners 0, 1, 2. -/
theorem notify_without_mutation_witness :
    (∃ ls, (runOps [Op.subscribe 7, .subscribe 8, .subscribe 9]
        (ListenerCollection.fresh : ListenerCollection Nat)).get 3 = some ls ∧
      notify runOnce (fun _ _ => []) 3 (runOps [Op.subscribe 7, .subscribe 8, .subscribe 9]
        (ListenerCollection.fresh : ListenerCollection Nat)) =
        some (runOps [Op.subscribe 7, .subscribe 8, .subscribe 9]
          (ListenerCollection.fresh : ListenerCollection Nat), ls) ∧
      ls.Pairwise (· < ·)) ∧
    (notify runOnce (fun _ _ => []) 3 (runOps [Op.subscribe 7, .subscribe 8, .subscribe 9]
        (ListenerCollection.fresh : ListenerCollection Nat))).map (fun r => r.2) =
      some [0, 1, 2] :=
  ⟨notify_without_mutation [Op.subscribe 7, .subscribe 8, .subscribe 9] (by decide) runOnce
    (fun _ _ => rfl) (fun _ _ => []) (fun _ _ => rfl) 3 (by decide), by decide⟩

/-- C2: on every collection state reached by a disciplined call sequence, a `notify()` pass whose
callbacks invoke unsubscribe capabilities of listeners of the collection (their own or others';
issued since the last `clear()`) returns, invokes no listener twice, and invokes exactly once every
listener that is still linked when the pass ends. -/
theorem notify_with_unsubscribing_callbacks (ops : List (Op α)) (e : Nat)
    (hd : discipline 0 ListenerCollection.fresh ops = some e)
    (batch : (ListenerCollection α × List Nat → Option (ListenerCollection α × List Nat)) →
      ListenerCollection α × List Nat → Option (ListenerCollection α × List Nat))
    (hbatch : ∀ work st, batch work st = work st)
    (beh : Behaviour α)
    (hbeh : ∀ cb st op, op ∈ beh cb st → ∃ a, op = Op.unsubscribe a ∧ e ≤ a)
    (fuel : Nat) (hfuel : (runOps ops ListenerCollection.fresh).heap.length ≤ fuel) :
    ∃ s2 log ls2, notify batch beh fuel (runOps ops ListenerCollection.fresh) = some (s2, log) ∧
      s2.get fuel = some ls2 ∧ log.Nodup ∧ ∀ a ∈ ls2, log.count a = 1 := by
  have hI := Inv.runOps_of_discipline ops 0 _ e Inv.fresh hd
  obtain ⟨s2, extra, h1, h2, h3, h4, h5, h6, h7⟩ :=
    notifyLoop_unsubscribing beh e _ hbeh fuel (runOps ops ListenerCollection.fresh).first
      (runOps ops ListenerCollection.fresh) [] (PassInv.init hI)
      (fun x hx => ⟨hI.first_mem hx, by omega⟩)
  have hnd : extra.Nodup := h5.imp (fun h => Nat.ne_of_lt h)
  refine ⟨s2, extra, linkedSince e s2.heap, ?_, h2.1.get_eq fuel (by rw [h3]; exact hfuel),
    hnd, ?_⟩
  · unfold notify
    rw [hbatch]
    simpa using h1
  · intro a ha
    apply List.count_eq_one_of_mem hnd
    obtain ⟨x, hx1, _, hx3⟩ := hI.first_le (h4 a ha)
    exact h7 a ha ⟨x, hx1, hx3⟩

/-- Witness for C2: over `[C, D]`, where `C` (callback 0) unsubscribes itself as its first action,
`D` (listener 1) stays linked and its callback runs exactly once. -/
theorem notify_with_unsubscribing_callbacks_witness :
    (∃ s2 log ls2, notify runOnce (fun cb _ => if cb = 0 then [Op.unsubscribe 0] else []) 2
        (runOps [Op.subscribe 0, .subscribe 1]
          (ListenerCollection.fresh : ListenerCollection Nat)) = some (s2, log) ∧
      s2.get 2 = some ls2 ∧ log.Nodup ∧ ∀ a ∈ ls2, log.count a = 1) ∧
    (notify runOnce (fun cb _ => if cb = 0 then [Op.unsubscribe 0] else []) 2
        (runOps [Op.subscribe 0, .subscribe 1]
          (ListenerCollection.fresh : ListenerCollection Nat))).map
        (fun r => (r.2, r.1.get 2)) = some ([0, 1], some [1]) :=
  ⟨notify_with_unsubscribing_callbacks [Op.subscribe 0, .subscribe 1] 0 (by decide) runOnce
    (fun _ _ => rfl) (fun cb _ => if cb = 0 then [Op.unsubscribe 0] else [])
    (fun cb _ op hop => by
      by_cases h : cb = 0
      · simp only [h, if_true, List.mem_singleton] at hop
        exact ⟨0, hop, Nat.le_refl _⟩
      · simp [h] at hop)
    2 (by decide), by decide⟩

/-! ## `notify()` with callbacks that subscribe -/

/-- Effect of a callback that only subscribes callbacks from the class `late`. -/
theorem Inv.runOps_subscribes {e : Nat} (late : α → Bool) (ops : List (Op α))
    (hops : ∀ op ∈ ops, ∃ cb, op = Op.subscribe cb ∧ late cb = true) :
    ∀ s : ListenerCollection α, Inv e s →
      Inv e (runOps ops s) ∧ (runOps ops s).heap.length = s.heap.length + ops.length ∧
      linkedSince e (runOps ops s).heap =
        linkedSince e s.heap ++ List.range' s.heap.length ops.length ∧
      (∀ a, a < s.heap.length → callbackOf (runOps ops s).heap a = callbackOf s.heap a) ∧
      (∀ a cb, s.heap.length ≤ a → callbackOf (runOps ops s).heap a = some cb →
        late cb = true) := by
  induction ops with
  | nil =>
    intro s hI
    refine ⟨hI, rfl, by simp [runOps_nil], fun _ _ => rfl, ?_⟩
    intro a cb ha hcb
    rw [runOps_nil] at hcb
    unfold callbackOf at hcb
    rw [List.getElem?_eq_none ha] at hcb
    cases hcb
  | cons op ops ih =>
    intro s hI
    obtain ⟨cb0, rfl, hl0⟩ := hops _ (List.mem_cons_self _ _)
    obtain ⟨h1, h2, h3, h4, h5⟩ := ih (fun o ho => hops o (List.mem_cons_of_mem _ ho))
      (s.subscribe cb0) (hI.subscribe cb0)
    rw [runOps_cons]
    simp only [Op.apply]
    rw [length_subscribe] at h2 h3 h4 h5
    refine ⟨h1, by rw [h2, List.length_cons]; omega, ?_, ?_, ?_⟩
    · rw [h3, linkedSince_subscribe s cb0 hI.1, List.length_cons, List.range'_succ]
      simp
    · intro a ha
      rw [h4 a (by omega), callbackOf_subscribe_old cb0 s a ha]
    · intro a cb ha hcb
      by_cases hal : a = s.heap.length
      · subst hal
        rw [h4 _ (by omega), callbackOf_subscribe_new] at hcb
        injection hcb with hcb
        rw [← hcb]; exact hl0
      · exact h5 a cb (by omega) hcb

theorem Inv.next_eq_head {e x : Nat} {s : ListenerCollection α} (hI : Inv e s)
    (pre tail : List Nat) (hl : linkedSince e s.heap = pre ++ x :: tail) :
    nextOf s.heap x = tail.head? := by
  have hs := hI.2
  rw [hl] at hs
  obtain ⟨m, q, _, _, _, _, h4⟩ := LSeg.append_iff.mp hs
  have := h4.first_eq
  rw [this]
  cases tail <;> rfl

theorem range'_append_range' (n a b : Nat) :
    List.range' n a ++ List.range' (n + a) b = List.range' n (a + b) := by
  rw [List.range'_append_1, Nat.add_comm]

/-- Traversal when callbacks only subscribe `late` callbacks and `late` callbacks do nothing:
the remaining initially linked listeners `rest` are invoked, then the listeners `added` so far,
then every listener subscribed from here on. -/
theorem notifyLoop_subscribing (beh : Behaviour α) (e : Nat) (late : α → Bool)
    (hbeh : ∀ cb st op, op ∈ beh cb st → ∃ cb2, op = Op.subscribe cb2 ∧ late cb2 = true)
    (hlate : ∀ cb st, late cb = true → beh cb st = []) :
    ∀ (rest pre added : List Nat) (s : ListenerCollection α) (log : List Nat),
      Inv e s → linkedSince e s.heap = pre ++ (rest ++ added) →
      (∀ a ∈ added, ∀ cb, callbackOf s.heap a = some cb → late cb = true) →
      ∃ fuel s2, notifyLoop beh fuel (rest ++ added).head? (s, log) =
          some (s2, log ++ (rest ++ added) ++
            List.range' s.heap.length (s2.heap.length - s.heap.length)) ∧
        Inv e s2 ∧ s.heap.length ≤ s2.heap.length ∧
        linkedSince e s2.heap = linkedSince e s.heap ++
          List.range' s.heap.length (s2.heap.length - s.heap.length) := by
  intro rest
  induction rest with
  | nil =>
    intro pre added s log hI hl hadded
    have hs := hI.2
    rw [hl] at hs
    obtain ⟨m, q, _, h2⟩ := LSeg.append_iff.mp hs
    have hm : m = ([] ++ added).head? := by
      rw [h2.first_eq]; cases added <;> rfl
    rw [hm] at h2
    refine ⟨added.length, s, ?_, hI, Nat.le_refl _, by simp⟩
    rw [notifyLoop_segment beh s ([] ++ added)
      (fun a ha cb hcb => hlate cb s (hadded a (by simpa using ha) cb hcb)) added.length log h2
      (by simp)]
    simp
  | cons x rest ih =>
    intro pre added s log hI hl hadded
    have hxmem : x ∈ linkedSince e s.heap := by rw [hl]; simp
    have hxlt : x < s.heap.length := flagOf_lt (mem_linkedSince.mp hxmem).2
    obtain ⟨cb, hcb⟩ := callbackOf_isSome_of_lt hxlt
    obtain ⟨h1, h2, h3, h4, h5⟩ := hI.runOps_subscribes late (beh cb s) (hbeh cb s) s
    have hl1 : linkedSince e (runOps (beh cb s) s).heap =
        (pre ++ [x]) ++ (rest ++ (added ++ List.range' s.heap.length (beh cb s).length)) := by
      rw [h3, hl]; simp
    have hnext : nextOf (runOps (beh cb s) s).heap x =
        (rest ++ (added ++ List.range' s.heap.length (beh cb s).length)).head? := by
      apply Inv.next_eq_head h1 pre
      rw [hl1]; simp
    have hadded1 : ∀ a ∈ added ++ List.range' s.heap.length (beh cb s).length, ∀ cb2,
        callbackOf (runOps (beh cb s) s).heap a = some cb2 → late cb2 = true := by
      intro a ha cb2 hcb2
      rcases List.mem_append.mp ha with ha | ha
      · have halt : a < s.heap.length := by
          have : a ∈ linkedSince e s.heap := by rw [hl]; simp [ha]
          exact flagOf_lt (mem_linkedSince.mp this).2
        rw [h4 a halt] at hcb2
        exact hadded a ha cb2 hcb2
      · rw [List.mem_range'] at ha
        obtain ⟨i, _, rfl⟩ := ha
        exact h5 _ cb2 (by omega) hcb2
    obtain ⟨fuel, s2, h6, h7, h8, h9⟩ :=
      ih (pre ++ [x]) (added ++ List.range' s.heap.length (beh cb s).length)
        (runOps (beh cb s) s) (log ++ [x]) h1 hl1 hadded1
    have hsplit : List.range' s.heap.length (s2.heap.length - s.heap.length) =
        List.range' s.heap.length (beh cb s).length ++
          List.range' (runOps (beh cb s) s).heap.length
            (s2.heap.length - (runOps (beh cb s) s).heap.length) := by
      rw [h2, range'_append_range']
      congr 1
      omega
    refine ⟨fuel + 1, s2, ?_, h7, by omega, ?_⟩
    · simp only [List.cons_append, List.head?_cons, notifyLoop, hcb]
      rw [hnext, h6, hsplit]
      simp
    · rw [h9, h3, hsplit]
      simp

/-- C9, as stated, fails: with one listener whose callback subscribes a second one, the pass
started on that single listener also invokes the listener subscribed during the pass. -/
theorem notify_invokes_listener_subscribed_during_pass :
    (runOps [Op.subscribe 0] (ListenerCollection.fresh : ListenerCollection Nat)).get 2 =
      some [0] ∧
    (notify runOnce (fun cb _ => if cb = 0 then [Op.subscribe 1] else []) 2
      (runOps [Op.subscribe 0] (ListenerCollection.fresh : ListenerCollection Nat))).map
        (fun r => r.2) = some [0, 1] := by
  decide

/-- C9, amended: `notify()` reads `listener.next` after the listener's callback has returned.
On every collection state reached by a disciplined call sequence, when callbacks subscribe new
listeners whose own callbacks make no call on the collection, the pass returns and has invoked
the listeners linked when it began and then every listener subscribed during the pass, each once
and in subscription order; all of them are linked when the pass ends. -/
theorem notify_with_subscribing_callbacks (ops : List (Op α))
    (hd : (discipline 0 ListenerCollection.fresh ops).isSome = true)
    (batch : (ListenerCollection α × List Nat → Option (ListenerCollection α × List Nat)) →
      ListenerCollection α × List Nat → Option (ListenerCollection α × List Nat))
    (hbatch : ∀ work st, batch work st = work st)
    (beh : Behaviour α) (late : α → Bool)
    (hbeh : ∀ cb st op, op ∈ beh cb st → ∃ cb2, op = Op.subscribe cb2 ∧ late cb2 = true)
    (hlate : ∀ cb st, late cb = true → beh cb st = []) :
    ∃ fuel s2 ls,
      (runOps ops ListenerCollection.fresh).get (runOps ops ListenerCollection.fresh).heap.length =
        some ls ∧
      notify batch beh fuel (runOps ops ListenerCollection.fresh) =
        some (s2, ls ++ List.range' (runOps ops ListenerCollection.fresh).heap.length
          (s2.heap.length - (runOps ops ListenerCollection.fresh).heap.length)) ∧
      s2.get s2.heap.length =
        some (ls ++ List.range' (runOps ops ListenerCollection.fresh).heap.length
          (s2.heap.length - (runOps ops ListenerCollection.fresh).heap.length)) := by
  obtain ⟨e2, he2⟩ := Option.isSome_iff_exists.mp hd
  have hI := Inv.runOps_of_discipline ops 0 _ e2 Inv.fresh he2
  obtain ⟨fuel, s2, h1, h2, _, h4⟩ :=
    notifyLoop_subscribing beh e2 late hbeh hlate
      (linkedSince e2 (runOps ops ListenerCollection.fresh).heap) [] []
      (runOps ops ListenerCollection.fresh) [] hI (by simp) (fun a ha => by cases ha)
  refine ⟨fuel, s2, linkedSince e2 (runOps ops ListenerCollection.fresh).heap,
    hI.get_eq _ (Nat.le_refl _), ?_, ?_⟩
  · unfold notify
    rw [hbatch]
    have hf : (runOps ops ListenerCollection.fresh).first =
        (linkedSince e2 (runOps ops ListenerCollection.fresh).heap ++ []).head? := by
      rw [hI.2.first_eq, List.append_nil]
      cases linkedSince e2 (runOps ops ListenerCollection.fresh).heap <;> rfl
    simp only
    rw [hf, h1]
    simp
  · rw [h2.get_eq _ (Nat.le_refl _), h4]

/-- Witness for the amended C9: two listeners; the first subscribes one listener, the second
subscribes two; the pass invokes the listeners 0, 1 and then 2, 3, 4. -/
theorem notify_with_subscribing_callbacks_witness :
    (∃ fuel s2 ls,
      (runOps [Op.subscribe 0, .subscribe 1]
        (ListenerCollection.fresh : ListenerCollection Nat)).get
          (runOps [Op.subscribe 0, .subscribe 1]
            (ListenerCollection.fresh : ListenerCollection Nat)).heap.length = some ls ∧
      notify runOnce
          (fun cb _ => if cb = 0 then [Op.subscribe 5] else
            if cb = 1 then [Op.subscribe 6, Op.subscribe 6] else []) fuel
          (runOps [Op.subscribe 0, .subscribe 1]
            (ListenerCollection.fresh : ListenerCollection Nat)) =
        some (s2, ls ++ List.range' (runOps [Op.subscribe 0, .subscribe 1]
          (ListenerCollection.fresh : ListenerCollection Nat)).heap.length
          (s2.heap.length - (runOps [Op.subscribe 0, .subscribe 1]
            (ListenerCollection.fresh : ListenerCollection Nat)).heap.length)) ∧
      s2.get s2.heap.length =
        some (ls ++ List.range' (runOps [Op.subscribe 0, .subscribe 1]
          (ListenerCollection.fresh : ListenerCollection Nat)).heap.length
          (s2.heap.length - (runOps [Op.subscribe 0, .subscribe 1]
            (ListenerCollection.fresh : ListenerCollection Nat)).heap.length))) ∧
    (notify runOnce
        (fun cb _ => if cb = 0 then [Op.subscribe 5] else
          if cb = 1 then [Op.subscribe 6, Op.subscribe 6] else []) 6
        (runOps [Op.subscribe 0, .subscribe 1]
          (ListenerCollection.fresh : ListenerCollection Nat))).map (fun r => r.2) =
      some [0, 1, 2, 3, 4] :=
  ⟨notify_with_subscribing_callbacks [Op.subscribe 0, .subscribe 1] (by decide) runOnce
    (fun _ _ => rfl)
    (fun cb _ => if cb = 0 then [Op.subscribe 5] else
      if cb = 1 then [Op.subscribe 6, Op.subscribe 6] else [])
    (fun cb => decide (5 ≤ cb))
    (fun cb _ op hop => by
      by_cases h0 : cb = 0
      · simp only [h0, if_true, List.mem_singleton] at hop
        exact ⟨5, hop, by decide⟩
      · by_cases h1 : cb = 1
        · simp only [h1, if_true, List.mem_cons, List.mem_singleton] at hop
          simp at hop
          exact ⟨6, hop, by decide⟩
        · simp [h0, h1] at hop)
    (fun cb _ hl => by
      have : 5 ≤ cb := by simpa using hl
      have h0 : cb ≠ 0 := by omega
      have h1 : cb ≠ 1 := by omega
      simp [h0, h1]), by decide⟩

/-! ## Store changes over a tree of subscribed nodes -/

theorem World.emit_emit (w : World) (a b : List Event) : (w.emit a).emit b = w.emit (a ++ b) := by
  simp [World.emit, List.append_assoc]

theorem World.emit_nil (w : World) : w.emit [] = w := by
  simp [World.emit]

theorem getFrom_eq_cons {α : Type} {h : List (Listener α)} {fuel : Nat} {f : Option Nat} {a : Nat}
    {ls : List Nat} (hg : ListenerCollection.getFrom h fuel f = some (a :: ls)) :
    f = some a ∧ ∃ fuel2, ListenerCollection.getFrom h fuel2 (nextOf h a) = some ls := by
  cases f with
  | none => cases fuel <;> simp [ListenerCollection.getFrom] at hg
  | some b =>
    cases fuel with
    | zero => simp [ListenerCollection.getFrom] at hg
    | succ k =>
      simp only [ListenerCollection.getFrom, Option.map_eq_some'] at hg
      obtain ⟨r, hr, hcons⟩ := hg
      injection hcons with h1 h2
      subst h1 h2
      exact ⟨rfl, k, hr⟩

theorem getFrom_eq_nil {α : Type} {h : List (Listener α)} {fuel : Nat} {f : Option Nat}
    (hg : ListenerCollection.getFrom h fuel f = some []) : f = none := by
  cases f with
  | none => rfl
  | some b =>
    cases fuel with
    | zero => simp [ListenerCollection.getFrom] at hg
    | succ k => simp [ListenerCollection.getFrom] at hg

theorem World.notifyColl_none (call : Fn → World → Option World) (c fuel : Nat) (w : World) :
    World.notifyColl call c fuel none w = some w := by
  cases fuel <;> rfl

mutual
theorem callFn_tree (w : World) (parent : Option Nat) (t : SubTree) (hA : Attached w parent t)
    (fuel : Nat) (hfuel : t.fuel ≤ fuel) (tr : List Event) :
    World.callFn fuel (Fn.handleChangeWrapper t.root) (w.emit tr) =
      some (w.emit (tr ++ t.calls)) := by
  cases t with
  | node n kids =>
    obtain ⟨⟨sub, c, coll, addrs, h1, _, _, h4, h5, h6, h7, h8⟩, hkids⟩ := hA
    simp only [SubTree.fuel] at hfuel
    obtain ⟨k, rfl⟩ : ∃ k, fuel = k + 2 := ⟨fuel - 2, by omega⟩
    have hrec := notifyColl_forest w (some n) kids hkids c coll h6 addrs coll.heap.length
      coll.first h7 h8 k k (by omega) (by omega) (tr ++ [Event.call (Fn.handleChangeWrapper n),
        Event.call (Fn.notifyNestedSubs n)])
    simp only [SubTree.root, SubTree.calls, World.callFn, World.emit_emit]
    have e1 : (w.emit (tr ++ [Event.call (Fn.handleChangeWrapper n)])).subs = w.subs := rfl
    have e2 : ∀ l, (w.emit l).subs = w.subs := fun _ => rfl
    have e3 : ∀ l, (w.emit l).colls = w.colls := fun _ => rfl
    simp only [e2, e3, h1, h4, h5, h6]
    simp only [List.append_assoc, List.singleton_append] at hrec ⊢
    exact hrec
theorem notifyColl_forest (w : World) (parent : Option Nat) (ts : SubForest)
    (hA : AttachedAll w parent ts) (c : Nat) (coll : ListenerCollection Fn)
    (hc : w.colls[c]? = some coll) (addrs : List Nat) (fuel0 : Nat) (f : Option Nat)
    (hg : ListenerCollection.getFrom coll.heap fuel0 f = some addrs)
    (hcb : addrs.map (callbackOf coll.heap) =
      ts.roots.map (fun m => some (Fn.handleChangeWrapper m)))
    (cf lf : Nat) (hcf : ts.fuel ≤ cf) (hlf : ts.fuel ≤ lf) (tr : List Event) :
    World.notifyColl (World.callFn cf) c lf f (w.emit tr) = some (w.emit (tr ++ ts.calls)) := by
  cases ts with
  | nil =>
    simp only [SubForest.roots, List.map_nil, List.map_eq_nil_iff] at hcb
    subst hcb
    rw [getFrom_eq_nil hg, World.notifyColl_none]
    simp [SubForest.calls]
  | cons t ts2 =>
    obtain ⟨hAt, hAts⟩ := hA
    simp only [SubForest.fuel] at hcf hlf
    cases addrs with
    | nil => simp [SubForest.roots] at hcb
    | cons a addrs2 =>
      simp only [SubForest.roots, List.map_cons, List.cons.injEq] at hcb
      obtain ⟨hcb1, hcb2⟩ := hcb
      obtain ⟨rfl, fuel2, hg2⟩ := getFrom_eq_cons hg
      obtain ⟨k, rfl⟩ : ∃ k, lf = k + 1 := ⟨lf - 1, by omega⟩
      have h1 := callFn_tree w parent t hAt cf (by omega) tr
      have h2 := notifyColl_forest w parent ts2 hAts c coll hc addrs2 fuel2 _ hg2 hcb2 cf k
        (by omega) (by omega) (tr ++ t.calls)
      have e3 : ∀ l, (w.emit l).colls = w.colls := fun _ => rfl
      simp only [World.notifyColl, e3, hc, hcb1, h1, h2, SubForest.calls, List.append_assoc]
end

mutual
theorem SubTree.count_calls (m : Nat) (t : SubTree) :
    t.calls.count (Event.call (Fn.handleChangeWrapper m)) = t.ids.count m := by
  cases t with
  | node n kids =>
    have ih := SubForest.count_calls_forest m kids
    simp only [SubTree.calls, SubTree.ids, List.count_cons, ih]
    by_cases h : n = m
    · subst h; simp
    · have h2 : ¬ (Event.call (Fn.handleChangeWrapper n) = Event.call (Fn.handleChangeWrapper m)) := by
        intro hh; injection hh with hh; injection hh with hh; exact h hh
      simp [h, h2]
theorem SubForest.count_calls_forest (m : Nat) (ts : SubForest) :
    ts.calls.count (Event.call (Fn.handleChangeWrapper m)) = ts.ids.count m := by
  cases ts with
  | nil => rfl
  | cons t ts2 =>
    simp only [SubForest.calls, SubForest.ids, List.count_append,
      SubTree.count_calls m t, SubForest.count_calls_forest m ts2]
end

theorem SubTree.calls_head (t : SubTree) :
    ∃ rest, t.calls = Event.call (Fn.handleChangeWrapper t.root) :: rest := by
  cases t with
  | node n kids => exact ⟨_, rfl⟩

theorem SubForest.mem_calls_of_mem_roots {m : Nat} :
    (ts : SubForest) → m ∈ ts.roots → Event.call (Fn.handleChangeWrapper m) ∈ ts.calls
  | .nil, hm => by simp [SubForest.roots] at hm
  | .cons t ts2, hm => by
    simp only [SubForest.roots, List.mem_cons] at hm
    simp only [SubForest.calls, List.mem_append]
    rcases hm with rfl | hm
    · left
      obtain ⟨rest, hr⟩ := t.calls_head
      rw [hr]; exact List.mem_cons_self _ _
    · right; exact SubForest.mem_calls_of_mem_roots ts2 hm

mutual
theorem SubTree.calls_in_order (p m : Nat) (t : SubTree) (he : (p, m) ∈ t.edges) :
    List.Sublist [Event.call (Fn.handleChangeWrapper p), Event.call (Fn.notifyNestedSubs p),
      Event.call (Fn.handleChangeWrapper m)] t.calls := by
  cases t with
  | node n kids =>
    simp only [SubTree.edges, List.mem_append, List.mem_map, Prod.mk.injEq] at he
    simp only [SubTree.calls]
    rcases he with ⟨m2, hm2, rfl, rfl⟩ | he
    · refine List.Sublist.cons₂ _ (List.Sublist.cons₂ _ ?_)
      exact List.singleton_sublist.mpr (SubForest.mem_calls_of_mem_roots kids hm2)
    · exact List.Sublist.cons _ (List.Sublist.cons _ (SubForest.calls_in_order_forest p m kids he))
theorem SubForest.calls_in_order_forest (p m : Nat) (ts : SubForest) (he : (p, m) ∈ ts.edges) :
    List.Sublist [Event.call (Fn.handleChangeWrapper p), Event.call (Fn.notifyNestedSubs p),
      Event.call (Fn.handleChangeWrapper m)] ts.calls := by
  cases ts with
  | nil => simp [SubForest.edges] at he
  | cons t ts2 =>
    simp only [SubForest.edges, List.mem_append] at he
    simp only [SubForest.calls]
    rcases he with he | he
    · exact (SubTree.calls_in_order p m t he).trans (List.sublist_append_left _ _)
    · exact (SubForest.calls_in_order_forest p m ts2 he).trans (List.sublist_append_right _ _)
end

/-- C1: for every tree of subscribed nodes held by the world (root registered with the store,
every other node's `handleChangeWrapper` a listener of its parent, every slot holding the node's
`notifyNestedSubs`), one store change returns and makes exactly the calls `t.calls`: the
`handleChangeWrapper` of every node of the tree is called exactly once, and for every parent `p`
and child `m` the calls of `p`'s `handleChangeWrapper`, of `p`'s `notifyNestedSubs` and of `m`'s
`handleChangeWrapper` occur in this order. -/
theorem store_change_visits_tree (w : World) (t : SubTree) (hA : Attached w none t)
    (hnd : t.ids.Nodup) (hstore : w.storeHandlers = [Fn.handleChangeWrapper t.root]) :
    (∀ fuel, t.fuel ≤ fuel → w.storeChange fuel = some (w.emit t.calls)) ∧
    (∀ m ∈ t.ids, t.calls.count (Event.call (Fn.handleChangeWrapper m)) = 1) ∧
    (∀ p m, (p, m) ∈ t.edges →
      List.Sublist [Event.call (Fn.handleChangeWrapper p), Event.call (Fn.notifyNestedSubs p),
        Event.call (Fn.handleChangeWrapper m)] t.calls) := by
  refine ⟨?_, ?_, fun p m he => SubTree.calls_in_order p m t he⟩
  · intro fuel hfuel
    have h := callFn_tree w none t hA fuel hfuel []
    rw [World.emit_nil] at h
    simp only [World.storeChange, hstore, World.callAll, h, List.nil_append]
  · intro m hm
    rw [SubTree.count_calls]
    exact List.count_eq_one_of_mem hnd hm

/-- Witness for C1: the world built by the real operations for root → A → B holds that tree, and
one store change calls the wrappers and notifications of 0, 1, 2 in this order. -/
theorem store_change_visits_tree_witness :
    threeLevelBuild = some threeLevelWorld ∧
    ((∀ fuel, threeLevelTree.fuel ≤ fuel →
        threeLevelWorld.storeChange fuel = some (threeLevelWorld.emit threeLevelTree.calls)) ∧
      (∀ m ∈ threeLevelTree.ids,
        threeLevelTree.calls.count (Event.call (Fn.handleChangeWrapper m)) = 1) ∧
      (∀ p m, (p, m) ∈ threeLevelTree.edges →
        List.Sublist [Event.call (Fn.handleChangeWrapper p), Event.call (Fn.notifyNestedSubs p),
          Event.call (Fn.handleChangeWrapper m)] threeLevelTree.calls)) ∧
    threeLevelTree.calls =
      [Event.call (Fn.handleChangeWrapper 0), Event.call (Fn.notifyNestedSubs 0),
        Event.call (Fn.handleChangeWrapper 1), Event.call (Fn.notifyNestedSubs 1),
        Event.call (Fn.handleChangeWrapper 2), Event.call (Fn.notifyNestedSubs 2)] :=
  ⟨by decide,
    store_change_visits_tree threeLevelWorld threeLevelTree
      ⟨⟨_, _, _, _, rfl, rfl, rfl, rfl, rfl, rfl, rfl, rfl⟩,
        ⟨⟨_, _, _, _, rfl, rfl, rfl, rfl, rfl, rfl, rfl, rfl⟩,
          ⟨⟨_, _, _, _, rfl, rfl, rfl, rfl, rfl, rfl, rfl, rfl⟩, trivial⟩, trivial⟩, trivial⟩
      (by decide) (by decide),
    by decide⟩

/-! ## Subscribing and unsubscribing a node -/

theorem upstreamEvents_append (n : Nat) (a b : List Event) :
    upstreamEvents n (a ++ b) = upstreamEvents n a ++ upstreamEvents n b := by
  induction a with
  | nil => rfl
  | cons ev evs ih =>
    cases ev with
    | upstream m cap =>
      simp only [List.cons_append, upstreamEvents]
      split <;> simp [ih]
    | detach m cap =>
      simp only [List.cons_append, upstreamEvents]
      split <;> simp [ih]
    | call f => simpa [upstreamEvents] using ih

theorem World.isSubscribed_eq_held (n : Nat) (w : World) :
    w.isSubscribed n = (w.held n).isSome := by
  unfold World.isSubscribed World.held
  cases w.subs[n]? <;> rfl

theorem WF.empty : WF World.empty := by
  intro n sub h
  simp [World.empty] at h

theorem WF.createSubscription {w : World} (hWF : WF w) (parent : Option Nat)
    (hp : ∀ q, parent = some q → q < w.subs.length) : WF (w.createSubscription parent) := by
  intro n sub h
  simp only [World.createSubscription] at h ⊢
  by_cases hn : n < w.subs.length
  · rw [List.getElem?_append_left hn] at h
    exact hWF n sub h
  · rw [List.getElem?_append_right (Nat.le_of_not_lt hn)] at h
    have hn0 : n - w.subs.length = 0 := by
      by_contra hne
      rw [List.getElem?_eq_none (by simp; omega)] at h
      cases h
    rw [hn0] at h
    simp only [List.getElem?_cons_zero, Option.some.injEq] at h
    subst h
    refine ⟨fun q hq => ?_, fun _ => rfl, fun hh => by simp at hh⟩
    have := hp q hq
    omega

theorem WF.setOnStateChange {w : World} (hWF : WF w) (n : Nat) (f : Option Fn) :
    WF (w.setOnStateChange n f) := by
  intro m sub h
  simp only [World.setOnStateChange, List.getElem?_modify] at h ⊢
  cases hm : w.subs[m]? with
  | none => rw [hm] at h; simp at h
  | some sub0 =>
    rw [hm] at h
    simp only [Option.map_eq_map, Option.map_some', Option.some.injEq] at h
    obtain ⟨h1, h2, h3⟩ := hWF m sub0 hm
    subst h
    split
    · exact ⟨h1, h2, h3⟩
    · exact ⟨h1, h2, h3⟩

theorem getElem?_of_lt {β : Type} {l : List β} {n : Nat} (h : n < l.length) :
    ∃ x, l[n]? = some x := ⟨l[n], List.getElem?_eq_getElem h⟩

/-- Final step of `trySubscribe()`: the node stores the capability and gets a new collection. -/
theorem WF.attach {w1 : World} (hWF : WF w1) (n : Nat) (cap : Cap) :
    WF (World.attach n (w1, cap)) := by
  intro m sub h
  simp only [World.attach, List.getElem?_modify] at h
  cases hm : w1.subs[m]? with
  | none => rw [hm] at h; simp at h
  | some sub0 =>
    rw [hm] at h
    simp only [Option.map_eq_map, Option.map_some', Option.some.injEq] at h
    obtain ⟨h1, h2, h3⟩ := hWF m sub0 hm
    subst h
    simp only [World.attach]
    split
    · refine ⟨h1, fun hh => by simp at hh, fun _ => ⟨w1.colls.length, rfl, by simp⟩⟩
    · refine ⟨h1, h2, fun hh => ?_⟩
      obtain ⟨c, hc1, hc2⟩ := h3 hh
      exact ⟨c, hc1, by simp; omega⟩

theorem WF.set_coll {w1 : World} (hWF : WF w1) (c : Nat) (coll : ListenerCollection Fn) :
    WF { w1 with colls := w1.colls.set c coll } := by
  intro m sub h
  obtain ⟨h1, h2, h3⟩ := hWF m sub h
  refine ⟨h1, h2, fun hh => ?_⟩
  obtain ⟨c2, hc1, hc2⟩ := h3 hh
  exact ⟨c2, hc1, by simpa using hc2⟩

theorem WF.add_store {w1 : World} (hWF : WF w1) (st : List (Fn × Bool)) :
    WF { w1 with store := st } := by
  intro m sub h
  exact hWF m sub h

/-- `trySubscribe()` on a node of a well-formed world returns; an already subscribed node is left
alone, an unsubscribed one calls its upstream subscribe once and gets a fresh collection. -/
theorem trySubscribe_spec (fuel : Nat) :
    ∀ (n : Nat) (w : World), WF w → n < w.subs.length → n < fuel →
      ∃ w2 T, w.trySubscribe fuel n = some w2 ∧ WF w2 ∧ w2.subs.length = w.subs.length ∧
        w2.trace = w.trace ++ T ∧ w2.isSubscribed n = true ∧
        (∀ m, n < m → w2.subs[m]? = w.subs[m]? ∧ upstreamEvents m T = []) ∧
        (w.isSubscribed n = true → w2 = w ∧ T = []) ∧
        (w.isSubscribed n = false → ∃ cap c sub2, w2.subs[n]? = some sub2 ∧
          sub2.unsubscribe = some cap ∧ sub2.listeners = some c ∧
          w2.colls[c]? = some ListenerCollection.fresh ∧
          upstreamEvents n T = [(Upstream.subscribe, cap)]) := by
  induction fuel with
  | zero => intro n w _ _ h; omega
  | succ k ih =>
    intro n w hWF hn hfuel
    obtain ⟨sub, hsub⟩ := getElem?_of_lt hn
    by_cases hs : sub.unsubscribe.isSome = true
    · have hsubd : w.isSubscribed n = true := by simp [World.isSubscribed, hsub, hs]
      refine ⟨w, [], ?_, hWF, rfl, by simp, hsubd, fun m _ => ⟨rfl, rfl⟩,
        fun _ => ⟨rfl, rfl⟩, fun hh => ?_⟩
      · simp [World.trySubscribe, hsub, hs]
      · rw [hsubd] at hh; cases hh
    · have hsubd : w.isSubscribed n = false := by simp [World.isSubscribed, hsub, hs]
      cases hp : sub.parentSub with
      | none =>
        refine ⟨World.attach n (World.storeSubscribe (Fn.handleChangeWrapper n) w),
          [Event.upstream n (Cap.store w.store.length)], ?_, ?_, ?_, ?_, ?_, ?_, ?_, ?_⟩
        · simp only [World.trySubscribe, hsub, hs, hp]
          rfl
        · exact WF.attach (hWF.add_store _) n _
        · simp [World.attach, World.storeSubscribe]
        · rfl
        · simp [World.isSubscribed, World.attach, World.storeSubscribe, List.getElem?_modify,
            hsub]
        · intro m hm
          refine ⟨?_, ?_⟩
          · simp only [World.attach, World.storeSubscribe]
            rw [List.getElem?_modify_ne _ _ (by omega)]
          · simp only [upstreamEvents]
            rw [if_neg (by omega)]
        · intro hh; rw [hsubd] at hh; cases hh
        · intro _
          refine ⟨Cap.store w.store.length, w.colls.length,
            { sub with unsubscribe := some (Cap.store w.store.length),
                       listeners := some w.colls.length }, ?_, rfl, rfl, ?_, ?_⟩
          · simp only [World.attach, World.storeSubscribe, List.getElem?_modify_eq, hsub]
            rfl
          · simp [World.attach, World.storeSubscribe]
          · simp [upstreamEvents]
      | some p =>
        have hpn : p < n := (hWF n sub hsub).1 p hp
        obtain ⟨w1, T1, h1, hWF1, hlen1, htr1, hsub1, hfr1, _, _⟩ :=
          ih p w hWF (by omega) (by omega)
        obtain ⟨subp, hsubp⟩ := getElem?_of_lt (l := w1.subs) (n := p) (by omega)
        have hsp : subp.unsubscribe.isSome = true := by
          simpa [World.isSubscribed, hsubp] using hsub1
        obtain ⟨c, hc1, hc2⟩ := (hWF1 p subp hsubp).2.2 hsp
        obtain ⟨coll, hcoll⟩ := getElem?_of_lt hc2
        have hsubn1 : w1.subs[n]? = some sub := by rw [(hfr1 n hpn).1, hsub]
        refine ⟨World.attach n ({ w1 with colls := w1.colls.set c (coll.subscribe
            (Fn.handleChangeWrapper n)) }, Cap.listener c coll.heap.length),
          T1 ++ [Event.upstream n (Cap.listener c coll.heap.length)],
          ?_, ?_, ?_, ?_, ?_, ?_, ?_, ?_⟩
        · simp only [World.trySubscribe, hsub, hs, hp, h1, Option.some_bind,
            World.listenersSubscribe, hsubp, hc1, hcoll]
          rfl
        · exact WF.attach (hWF1.set_coll c _) n _
        · simp [World.attach, hlen1]
        · simp [World.attach, htr1]
        · simp [World.isSubscribed, World.attach, List.getElem?_modify, hsubn1]
        · intro m hm
          refine ⟨?_, ?_⟩
          · simp only [World.attach]
            rw [List.getElem?_modify_ne _ _ (by omega)]
            exact (hfr1 m (by omega)).1
          · rw [upstreamEvents_append, (hfr1 m (by omega)).2]
            simp only [upstreamEvents, List.nil_append]
            rw [if_neg (by omega)]
        · intro hh; rw [hsubd] at hh; cases hh
        · intro _
          refine ⟨Cap.listener c coll.heap.length, (w1.colls.set c (coll.subscribe
            (Fn.handleChangeWrapper n))).length,
            { sub with unsubscribe := some (Cap.listener c coll.heap.length),
                       listeners := some (w1.colls.set c (coll.subscribe
                        (Fn.handleChangeWrapper n))).length }, ?_, rfl, rfl, ?_, ?_⟩
          · simp only [World.attach, List.getElem?_modify_eq, hsubn1]
            rfl
          · simp [World.attach]
          · rw [upstreamEvents_append, (hfr1 n hpn).2]
            simp [upstreamEvents]

theorem World.held_eq {n : Nat} {w : World} {sub : Subscription} (h : w.subs[n]? = some sub) :
    w.held n = sub.unsubscribe := by
  simp [World.held, h]

/-- `tryUnsubscribe()` on a node of a well-formed world returns and leaves the node Unsubscribed
with `nullListeners`; the slot is not touched; the held capability, if any, is invoked once. -/
theorem tryUnsubscribe_spec (n : Nat) (w : World) (hWF : WF w) (hn : n < w.subs.length) :
    ∃ w2 T, w.tryUnsubscribe n = some w2 ∧ WF w2 ∧ w2.subs.length = w.subs.length ∧
      w2.trace = w.trace ++ T ∧ w2.held n = none ∧
      (∃ sub sub2, w.subs[n]? = some sub ∧ w2.subs[n]? = some sub2 ∧
        sub2.onStateChange = sub.onStateChange ∧ sub2.listeners = none ∧
        sub2.unsubscribe = none) ∧
      (w.held n = none → w2 = w ∧ T = []) ∧
      (∀ cap, w.held n = some cap → upstreamEvents n T = [(Upstream.detach, cap)]) := by
  obtain ⟨sub, hsub⟩ := getElem?_of_lt hn
  obtain ⟨hW1, hW2, hW3⟩ := hWF n sub hsub
  cases hu : sub.unsubscribe with
  | none =>
    have hheld : w.held n = none := by rw [World.held_eq hsub, hu]
    refine ⟨w, [], ?_, hWF, rfl, by simp, hheld, ⟨sub, sub, hsub, hsub, rfl, hW2 hu, hu⟩,
      fun _ => ⟨rfl, rfl⟩, fun cap hc => ?_⟩
    · simp [World.tryUnsubscribe, hsub, hu]
    · rw [hheld] at hc; cases hc
  | some cap =>
    have hheld : w.held n = some cap := by rw [World.held_eq hsub, hu]
    obtain ⟨c, hc1, hc2⟩ := hW3 (by simp [hu])
    have hsubs : ∀ cp, (World.invokeCap cp w).subs = w.subs := by
      intro cp; cases cp <;> rfl
    have hcolls : ∀ cp, (World.invokeCap cp w).colls.length = w.colls.length := by
      intro cp; cases cp <;> simp [World.invokeCap]
    have htrace : ∀ cp, (World.invokeCap cp w).trace = w.trace := by
      intro cp; cases cp <;> rfl
    refine ⟨{ ((World.invokeCap cap w).emit [Event.detach n cap]) with
        subs := List.modify (fun s => { s with unsubscribe := none, listeners := none }) n
          ((World.invokeCap cap w).emit [Event.detach n cap]).subs
        colls := List.modify ListenerCollection.clear c
          ((World.invokeCap cap w).emit [Event.detach n cap]).colls },
      [Event.detach n cap], ?_, ?_, ?_, ?_, ?_, ?_, ?_, ?_⟩
    · simp [World.tryUnsubscribe, hsub, hu, hc1]
    · intro m subm hm
      simp only [World.emit, hsubs, List.getElem?_modify] at hm
      cases hm0 : w.subs[m]? with
      | none => rw [hm0] at hm; simp at hm
      | some sub0 =>
        rw [hm0] at hm
        simp only [Option.map_eq_map, Option.map_some', Option.some.injEq] at hm
        obtain ⟨h1, h2, h3⟩ := hWF m sub0 hm0
        subst hm
        simp only [World.emit, List.length_modify, hcolls]
        split
        · exact ⟨h1, fun _ => rfl, fun hh => by simp at hh⟩
        · exact ⟨h1, h2, h3⟩
    · simp [World.emit, hsubs]
    · simp [World.emit, htrace]
    · simp [World.held, World.emit, hsubs, hsub]
    · refine ⟨sub, { sub with unsubscribe := none, listeners := none }, hsub, ?_, rfl, rfl, rfl⟩
      simp [World.emit, hsubs, hsub]
    · intro hh; rw [hheld] at hh; cases hh
    · intro cap2 hcap2
      rw [hheld] at hcap2
      injection hcap2 with hcap2
      subst hcap2
      simp [upstreamEvents]

/-- `addNestedSub(cb)` on a node of a well-formed world: `trySubscribe()`, then the callback
becomes the last listener of the node's collection. -/
theorem addNestedSub_spec (fuel n : Nat) (cb : Fn) (w : World) (hWF : WF w)
    (hn : n < w.subs.length) (hfuel : n < fuel) :
    ∃ w1 sub1 c coll, w.trySubscribe fuel n = some w1 ∧ w1.subs[n]? = some sub1 ∧
      sub1.unsubscribe.isSome = true ∧
      sub1.listeners = some c ∧ w1.colls[c]? = some coll ∧
      w.addNestedSub fuel n cb =
        some ({ w1 with colls := w1.colls.set c (coll.subscribe cb) },
          Cap.listener c coll.heap.length) ∧
      WF { w1 with colls := w1.colls.set c (coll.subscribe cb) } := by
  obtain ⟨w1, T1, h1, hWF1, hlen1, _, hsub1, _, _, _⟩ := trySubscribe_spec fuel n w hWF hn hfuel
  obtain ⟨sub1, hs1⟩ := getElem?_of_lt (l := w1.subs) (n := n) (by omega)
  have hsp : sub1.unsubscribe.isSome = true := by
    simpa [World.isSubscribed, hs1] using hsub1
  obtain ⟨c, hc1, hc2⟩ := (hWF1 n sub1 hs1).2.2 hsp
  obtain ⟨coll, hcoll⟩ := getElem?_of_lt hc2
  refine ⟨w1, sub1, c, coll, h1, hs1, hsp, hc1, hcoll, ?_, hWF1.set_coll c _⟩
  simp [World.addNestedSub, h1, World.listenersSubscribe, hs1, hc1, hcoll]

theorem World.isSubscribed_false_iff {n : Nat} {w : World} :
    w.isSubscribed n = false ↔ w.held n = none := by
  rw [World.isSubscribed_eq_held]
  cases w.held n <;> simp

/-- One call on a node: what it does upstream and what the node holds afterwards. -/
theorem upstream_step (fuel n : Nat) (op : NodeOp) (w : World) (hWF : WF w)
    (hn : n < w.subs.length) (hfuel : n < fuel) :
    ∃ w2 T, op.apply fuel n w = some w2 ∧ WF w2 ∧ w2.subs.length = w.subs.length ∧
      w2.trace = w.trace ++ T ∧
      ((op = NodeOp.tryUnsubscribe ∧ w2.held n = none ∧
          ((w.held n = none ∧ upstreamEvents n T = []) ∨
           (∃ cap, w.held n = some cap ∧ upstreamEvents n T = [(Upstream.detach, cap)]))) ∨
       (op ≠ NodeOp.tryUnsubscribe ∧
          ((∃ cap, w.held n = some cap ∧ w2.held n = some cap ∧ upstreamEvents n T = []) ∨
           (∃ cap, w.held n = none ∧ w2.held n = some cap ∧
              upstreamEvents n T = [(Upstream.subscribe, cap)])))) := by
  have hts : ∃ w1 T, w.trySubscribe fuel n = some w1 ∧ WF w1 ∧ w1.subs.length = w.subs.length ∧
      w1.trace = w.trace ++ T ∧
      ((∃ cap, w.held n = some cap ∧ w1.held n = some cap ∧ upstreamEvents n T = []) ∨
       (∃ cap, w.held n = none ∧ w1.held n = some cap ∧
          upstreamEvents n T = [(Upstream.subscribe, cap)])) := by
    obtain ⟨w1, T1, h1, hWF1, hlen1, htr1, _, _, hA, hB⟩ :=
      trySubscribe_spec fuel n w hWF hn hfuel
    refine ⟨w1, T1, h1, hWF1, hlen1, htr1, ?_⟩
    cases hh : w.held n with
    | some cap =>
      left
      have : w.isSubscribed n = true := by rw [World.isSubscribed_eq_held, hh]; rfl
      obtain ⟨rfl, rfl⟩ := hA this
      exact ⟨cap, rfl, hh, rfl⟩
    | none =>
      right
      obtain ⟨cap, c, sub2, h2, h3, _, _, h6⟩ := hB (World.isSubscribed_false_iff.mpr hh)
      exact ⟨cap, rfl, by rw [World.held_eq h2, h3], h6⟩
  cases op with
  | trySubscribe =>
    obtain ⟨w1, T1, h1, hWF1, hlen1, htr1, hcase⟩ := hts
    exact ⟨w1, T1, h1, hWF1, hlen1, htr1, Or.inr ⟨by simp, hcase⟩⟩
  | addNestedSub cb =>
    obtain ⟨w1, T1, h1, hWF1, hlen1, htr1, hcase⟩ := hts
    obtain ⟨w1b, sub1, c, coll, h1b, _, _, _, _, h6, h7⟩ :=
      addNestedSub_spec fuel n cb w hWF hn hfuel
    rw [h1] at h1b
    injection h1b with h1b
    subst h1b
    refine ⟨_, T1, ?_, h7, hlen1, htr1, Or.inr ⟨by simp, ?_⟩⟩
    · simp only [NodeOp.apply, h6, Option.map_some']
    · exact hcase
  | tryUnsubscribe =>
    obtain ⟨w2, T, h1, hWF2, hlen2, htr2, hheld2, _, hA, hB⟩ := tryUnsubscribe_spec n w hWF hn
    refine ⟨w2, T, h1, hWF2, hlen2, htr2, Or.inl ⟨rfl, hheld2, ?_⟩⟩
    cases hh : w.held n with
    | none => left; exact ⟨rfl, by rw [(hA hh).2]; rfl⟩
    | some cap => right; exact ⟨cap, rfl, hB cap hh⟩

theorem upstream_run (fuel n : Nat) (hfuel : n < fuel) (ops : List NodeOp) :
    ∀ w : World, WF w → n < w.subs.length →
      ∃ w2 T, runNodeOps fuel n ops w = some w2 ∧ WF w2 ∧ w2.subs.length = w.subs.length ∧
        w2.trace = w.trace ++ T ∧
        (upstreamEvents n T).map Prod.fst = specUpstream (w.held n).isSome ops ∧
        Paired (w.held n) (upstreamEvents n T) := by
  induction ops with
  | nil =>
    intro w hWF _
    refine ⟨w, [], rfl, hWF, rfl, by simp, ?_, ?_⟩
    · cases (w.held n).isSome <;> rfl
    · cases w.held n <;> simp [upstreamEvents, Paired]
  | cons op ops ih =>
    intro w hWF hn
    obtain ⟨w1, T1, h1, hWF1, hlen1, htr1, hcase⟩ := upstream_step fuel n op w hWF hn hfuel
    obtain ⟨w2, T2, h2, hWF2, hlen2, htr2, hspec2, hpair2⟩ := ih w1 hWF1 (by omega)
    refine ⟨w2, T1 ++ T2, ?_, hWF2, by omega, by rw [htr2, htr1, List.append_assoc], ?_, ?_⟩
    · simp only [runNodeOps, h1, h2]
    · rw [upstreamEvents_append, List.map_append, hspec2]
      rcases hcase with ⟨rfl, hh2, ⟨hh, hT⟩ | ⟨cap, hh, hT⟩⟩ |
        ⟨hop, ⟨cap, hh, hh2, hT⟩ | ⟨cap, hh, hh2, hT⟩⟩
      · simp [hT, hh, hh2, specUpstream]
      · simp [hT, hh, hh2, specUpstream]
      · cases op with
        | tryUnsubscribe => exact absurd rfl hop
        | trySubscribe => simp [hT, hh, hh2, specUpstream]
        | addNestedSub cb => simp [hT, hh, hh2, specUpstream]
      · cases op with
        | tryUnsubscribe => exact absurd rfl hop
        | trySubscribe => simp [hT, hh, hh2, specUpstream]
        | addNestedSub cb => simp [hT, hh, hh2, specUpstream]
    · rw [upstreamEvents_append]
      rcases hcase with ⟨rfl, hh2, ⟨hh, hT⟩ | ⟨cap, hh, hT⟩⟩ |
        ⟨hop, ⟨cap, hh, hh2, hT⟩ | ⟨cap, hh, hh2, hT⟩⟩
      · rw [hT, hh]; rw [hh2] at hpair2; simpa using hpair2
      · rw [hT, hh]; rw [hh2] at hpair2; exact ⟨rfl, hpair2⟩
      · rw [hT, hh]; rw [hh2] at hpair2; simpa using hpair2
      · rw [hT, hh]; rw [hh2] at hpair2; exact hpair2

/-- C5: for every node of a well-formed world and every sequence of `trySubscribe()`,
`tryUnsubscribe()` and `addNestedSub()` calls on it, the calls return, and the node's upstream
events are those of the specification's state machine: it subscribes upstream exactly when a
call finds it Unsubscribed, and it invokes a capability exactly when `tryUnsubscribe()` finds it
Subscribed; the capability invoked is always the one captured last, which is then dropped, so
no captured capability is invoked twice. -/
theorem upstream_subscription_discipline (w : World) (n : Nat) (hWF : WF w)
    (hn : n < w.subs.length) (ops : List NodeOp) (fuel : Nat) (hfuel : n < fuel) :
    ∃ w2 T, runNodeOps fuel n ops w = some w2 ∧ w2.trace = w.trace ++ T ∧
      (upstreamEvents n T).map Prod.fst = specUpstream (w.isSubscribed n) ops ∧
      Paired (w.held n) (upstreamEvents n T) := by
  obtain ⟨w2, T, h1, _, _, h4, h5, h6⟩ := upstream_run fuel n hfuel ops w hWF hn
  exact ⟨w2, T, h1, h4, by rw [World.isSubscribed_eq_held]; exact h5, h6⟩

/-! ## Unsubscribed nodes -/

theorem runOps_append {α : Type} (a b : List (Op α)) (s : ListenerCollection α) :
    runOps (a ++ b) s = runOps b (runOps a s) := by
  simp [runOps, List.foldl_append]

theorem noClear_map_subscribe {α : Type} (cur : List α) :
    noClear (cur.map Op.subscribe) = true := by
  induction cur with
  | nil => rfl
  | cons c cs ih => simpa [noClear] using ih

theorem issuedFrom_map_subscribe {α : Type} (cur : List α) :
    ∀ k, issuedFrom k (cur.map Op.subscribe) = true := by
  induction cur with
  | nil => intro k; rfl
  | cons c cs ih => intro k; simpa [issuedFrom] using ih (k + 1)

theorem subscribedCallbacks_map_subscribe {α : Type} (cur : List α) :
    subscribedCallbacks (cur.map Op.subscribe) = cur := by
  induction cur with
  | nil => rfl
  | cons c cs ih => simp [subscribedCallbacks, ih]

theorem invoked_map_subscribe {α : Type} (cur : List α) (k : Nat) :
    invoked k (cur.map Op.subscribe) = false := by
  induction cur with
  | nil => rfl
  | cons c cs ih => simpa [invoked] using ih

theorem callbackOf_eq_map {α : Type} (h : List (Listener α)) (a : Nat) :
    callbackOf h a = (h.map (fun l => l.callback))[a]? := by
  unfold callbackOf
  rw [List.getElem?_map]
  cases h[a]? <;> rfl

theorem map_getElem?_range {β : Type} (l : List β) :
    (List.range l.length).map (fun i => l[i]?) = l.map some := by
  apply List.ext_getElem?
  intro i
  by_cases hi : i < l.length
  · simp [List.getElem?_map, List.getElem?_range hi, List.getElem?_eq_getElem hi]
  · rw [List.getElem?_eq_none (by simpa using hi), List.getElem?_eq_none (by simpa using hi)]

/-- A collection built from a fresh one by subscribing `cur`: `get()` returns listeners with
exactly these callbacks, in this order. -/
theorem get_runOps_subscribes (cur : List Fn) (fuel : Nat) (hfuel : cur.length ≤ fuel) :
    ((runOps (cur.map Op.subscribe) ListenerCollection.fresh).get fuel).map
      (fun ls => ls.map (callbackOf (runOps (cur.map Op.subscribe)
        (ListenerCollection.fresh : ListenerCollection Fn)).heap)) = some (cur.map some) := by
  have hnc := noClear_map_subscribe cur
  have hiss := issuedFrom_map_subscribe cur 0
  obtain ⟨hI, hlen, _⟩ := flagOf_runOps (cur.map Op.subscribe) ListenerCollection.fresh
    Inv.fresh hnc (by simpa [ListenerCollection.fresh] using hiss)
  have hmap := map_callback_runOps (cur.map Op.subscribe)
    (ListenerCollection.fresh : ListenerCollection Fn)
  rw [subscribedCallbacks_map_subscribe] at hlen hmap
  have hfh : (ListenerCollection.fresh : ListenerCollection Fn).heap = [] := rfl
  rw [hfh] at hlen hmap
  simp only [List.length_nil, Nat.zero_add, List.map_nil, List.nil_append] at hlen hmap
  rw [hI.get_eq fuel (by rw [hlen]; exact hfuel),
    linkedSince_zero_fresh_runOps _ hnc hiss]
  simp only [Option.map_some', Option.some.injEq]
  have hni : notInvoked (cur.map Op.subscribe) = List.range cur.length := by
    unfold notInvoked
    rw [subscribedCallbacks_map_subscribe]
    apply List.filter_eq_self.mpr
    intro k _
    simp [invoked_map_subscribe]
  rw [hni]
  have : callbackOf (runOps (cur.map Op.subscribe)
      (ListenerCollection.fresh : ListenerCollection Fn)).heap = fun i => cur[i]? := by
    funext i
    rw [callbackOf_eq_map, hmap]
  rw [this]
  exact map_getElem?_range cur

theorem HoldsListeners.step (fuel n : Nat) (op : NodeOp) (w : World) (cur : List Fn)
    (hWF : WF w) (hn : n < w.subs.length) (hfuel : n < fuel) (hJ : HoldsListeners n w cur) :
    ∃ w2, op.apply fuel n w = some w2 ∧ WF w2 ∧ w2.subs.length = w.subs.length ∧
      ∀ ops, ∃ cur2, HoldsListeners n w2 cur2 ∧
        registeredSince cur (op :: ops) = registeredSince cur2 ops := by
  have hts : ∃ w1, w.trySubscribe fuel n = some w1 ∧ WF w1 ∧ w1.subs.length = w.subs.length ∧
      ∃ sub c, w1.subs[n]? = some sub ∧ sub.unsubscribe.isSome = true ∧
        sub.listeners = some c ∧
        w1.colls[c]? = some (runOps (cur.map Op.subscribe) ListenerCollection.fresh) := by
    obtain ⟨w1, T1, h1, hWF1, hlen1, _, _, _, hA, hB⟩ := trySubscribe_spec fuel n w hWF hn hfuel
    refine ⟨w1, h1, hWF1, hlen1, ?_⟩
    rcases hJ with ⟨hheld, rfl⟩ | ⟨sub, c, h2, h3, h4, h5⟩
    · obtain ⟨cap, c, sub2, h2, h3, h4, h5, _⟩ := hB (World.isSubscribed_false_iff.mpr hheld)
      exact ⟨sub2, c, h2, by simp [h3], h4, h5⟩
    · have : w.isSubscribed n = true := by simp [World.isSubscribed, h2, h3]
      obtain ⟨rfl, _⟩ := hA this
      exact ⟨sub, c, h2, h3, h4, h5⟩
  cases op with
  | trySubscribe =>
    obtain ⟨w1, h1, hWF1, hlen1, hJ1⟩ := hts
    exact ⟨w1, h1, hWF1, hlen1, fun ops => ⟨cur, Or.inr hJ1, rfl⟩⟩
  | addNestedSub cb =>
    obtain ⟨w1, h1, hWF1, hlen1, sub, c, h2, h3, h4, h5⟩ := hts
    obtain ⟨w1b, sub1, c1, coll, h1b, h2b, _, h4b, h5b, h6, h7⟩ :=
      addNestedSub_spec fuel n cb w hWF hn hfuel
    rw [h1] at h1b
    injection h1b with h1b
    subst h1b
    rw [h2] at h2b
    injection h2b with h2b
    subst h2b
    rw [h4] at h4b
    injection h4b with h4b
    subst h4b
    rw [h5] at h5b
    injection h5b with h5b
    subst h5b
    refine ⟨_, by simp only [NodeOp.apply, h6, Option.map_some'], h7, hlen1,
      fun ops => ⟨cur ++ [cb], Or.inr ⟨sub, c, h2, h3, h4, ?_⟩, rfl⟩⟩
    have hc : c < w1.colls.length := by
      by_contra hc
      rw [List.getElem?_eq_none (by omega)] at h5
      cases h5
    simp only [List.getElem?_set_self hc, List.map_append, List.map_cons, List.map_nil,
      runOps_append]
    rfl
  | tryUnsubscribe =>
    obtain ⟨w2, T, h1, hWF2, hlen2, _, hheld2, _, _, _⟩ := tryUnsubscribe_spec n w hWF hn
    exact ⟨w2, h1, hWF2, hlen2, fun ops => ⟨[], Or.inl ⟨hheld2, rfl⟩, rfl⟩⟩

theorem HoldsListeners.run (fuel n : Nat) (hfuel : n < fuel) (ops : List NodeOp) :
    ∀ (w : World) (cur : List Fn), WF w → n < w.subs.length → HoldsListeners n w cur →
      ∃ w2, runNodeOps fuel n ops w = some w2 ∧ WF w2 ∧ n < w2.subs.length ∧
        HoldsListeners n w2 (registeredSince cur ops) := by
  induction ops with
  | nil => intro w cur hWF hn hJ; exact ⟨w, rfl, hWF, hn, hJ⟩
  | cons op ops ih =>
    intro w cur hWF hn hJ
    obtain ⟨w1, h1, hWF1, hlen1, hnext⟩ := HoldsListeners.step fuel n op w cur hWF hn hfuel hJ
    obtain ⟨cur2, hJ2, hreg⟩ := hnext ops
    obtain ⟨w2, h2, hWF2, hn2, hJ3⟩ := ih w1 cur2 hWF1 (by omega) hJ2
    exact ⟨w2, by simp only [runNodeOps, h1, h2], hWF2, hn2, by rw [hreg]; exact hJ3⟩

/-- What `getListeners().get()` and `notifyNestedSubs()` see of a node that holds `cur`. -/
theorem HoldsListeners.observe {n : Nat} {w : World} {cur : List Fn} (hWF : WF w)
    (hn : n < w.subs.length) (hJ : HoldsListeners n w cur) :
    (∀ fuel, cur.length ≤ fuel → w.listenerCallbacks fuel n = some (cur.map some)) ∧
    (cur = [] → ∀ k, w.callFn (k + 1) (Fn.notifyNestedSubs n) =
      some (w.emit [Event.call (Fn.notifyNestedSubs n)])) := by
  rcases hJ with ⟨hheld, rfl⟩ | ⟨sub, c, h2, h3, h4, h5⟩
  · obtain ⟨sub, hsub⟩ := getElem?_of_lt hn
    have hu : sub.unsubscribe = none := by rw [← World.held_eq hsub]; exact hheld
    have hl := (hWF n sub hsub).2.1 hu
    refine ⟨fun fuel _ => ?_, fun _ k => ?_⟩
    · simp [World.listenerCallbacks, hsub, hl]
    · have e2 : ∀ l, (w.emit l).subs = w.subs := fun _ => rfl
      simp only [World.callFn, e2, hsub, hl]
  · refine ⟨fun fuel hfuel => ?_, fun hcur k => ?_⟩
    · simp only [World.listenerCallbacks, h2, h4, h5]
      exact get_runOps_subscribes cur fuel hfuel
    · subst hcur
      have e2 : ∀ l, (w.emit l).subs = w.subs := fun _ => rfl
      have e3 : ∀ l, (w.emit l).colls = w.colls := fun _ => rfl
      simp only [World.callFn, e2, e3, h2, h4, h5]
      exact World.notifyColl_none _ _ _ _

/-! ## Passes over the listeners of a node -/

/-- A pass over listeners whose callbacks are functions of the owners that make no call: each is
called once, in order, and nothing else happens. -/
theorem notifyColl_passive (w : World) (c : Nat) (coll : ListenerCollection Fn)
    (hc : w.colls[c]? = some coll) (cbs : List Fn) :
    ∀ (addrs : List Nat) (fuel0 : Nat) (f : Option Nat),
      (∀ g ∈ cbs, ∃ id, g = Fn.other id) →
      ListenerCollection.getFrom coll.heap fuel0 f = some addrs →
      addrs.map (callbackOf coll.heap) = cbs.map some →
      ∀ (cf lf : Nat), cbs.length ≤ cf → cbs.length ≤ lf → ∀ tr : List Event,
        World.notifyColl (World.callFn cf) c lf f (w.emit tr) =
          some (w.emit (tr ++ cbs.map Event.call)) := by
  induction cbs with
  | nil =>
    intro addrs fuel0 f _ hg hcb cf lf _ _ tr
    simp only [List.map_nil, List.map_eq_nil_iff] at hcb
    subst hcb
    rw [getFrom_eq_nil hg, World.notifyColl_none]
    simp
  | cons g gs ih =>
    intro addrs fuel0 f hp hg hcb cf lf hcf hlf tr
    cases addrs with
    | nil => simp at hcb
    | cons a addrs2 =>
      simp only [List.map_cons, List.cons.injEq] at hcb
      obtain ⟨hcb1, hcb2⟩ := hcb
      obtain ⟨rfl, fuel2, hg2⟩ := getFrom_eq_cons hg
      obtain ⟨id, rfl⟩ := hp g (List.mem_cons_self _ _)
      simp only [List.length_cons] at hcf hlf
      obtain ⟨k, rfl⟩ : ∃ k, lf = k + 1 := ⟨lf - 1, by omega⟩
      obtain ⟨j, rfl⟩ : ∃ j, cf = j + 1 := ⟨cf - 1, by omega⟩
      have h2 := ih addrs2 fuel2 _ (fun g2 hg2 => hp g2 (List.mem_cons_of_mem _ hg2)) hg2 hcb2
        (j + 1) k (by omega) (by omega) (tr ++ [Event.call (Fn.other id)])
      have e3 : ∀ l, (w.emit l).colls = w.colls := fun _ => rfl
      have h1 : World.callFn (j + 1) (Fn.other id) (w.emit tr) =
          some (w.emit (tr ++ [Event.call (Fn.other id)])) := by
        simp only [World.callFn, World.emit_emit]
      simp only [World.notifyColl, e3, hc, hcb1, h1, h2, List.map_cons, List.append_assoc,
        List.singleton_append]

/-- A `notifyNestedSubs()` pass begun on a node that holds the callbacks `cur`, all of them
functions of the owners that make no call: exactly these are called, once each and in order. -/
theorem HoldsListeners.notify_passive {n : Nat} {w : World} {cur : List Fn} (hWF : WF w)
    (hn : n < w.subs.length) (hJ : HoldsListeners n w cur)
    (hp : ∀ g ∈ cur, ∃ id, g = Fn.other id) (k : Nat) :
    w.callFn (k + cur.length + 1) (Fn.notifyNestedSubs n) =
      some (w.emit (Event.call (Fn.notifyNestedSubs n) :: cur.map Event.call)) := by
  have e2 : ∀ l, (w.emit l).subs = w.subs := fun _ => rfl
  have e3 : ∀ l, (w.emit l).colls = w.colls := fun _ => rfl
  rcases hJ with ⟨hheld, rfl⟩ | ⟨sub, c, h2, h3, h4, h5⟩
  · obtain ⟨sub, hsub⟩ := getElem?_of_lt hn
    have hu : sub.unsubscribe = none := by rw [← World.held_eq hsub]; exact hheld
    have hl := (hWF n sub hsub).2.1 hu
    simp only [World.callFn, e2, hsub, hl, List.map_nil]
  · have hget := get_runOps_subscribes cur cur.length (Nat.le_refl _)
    simp only [Option.map_eq_some'] at hget
    obtain ⟨addrs, hg, hcb⟩ := hget
    have := notifyColl_passive w c _ h5 cur addrs cur.length _ hp hg hcb (k + cur.length)
      (k + cur.length) (by omega) (by omega) [Event.call (Fn.notifyNestedSubs n)]
    simp only [World.callFn, e2, e3, h2, h4, h5]
    simpa using this

/-! ## Owner functions that act on the subsystem -/

/-- With owner functions that make no call, `callFnWith` is `callFn`. -/
theorem callFnWith_passive (fuel : Nat) :
    World.callFnWith (fun _ w => some w) fuel = World.callFn fuel := by
  induction fuel with
  | zero => funext f w; rfl
  | succ k ih =>
    funext f w
    cases f with
    | other id => rfl
    | handleChangeWrapper n => simp only [World.callFnWith, World.callFn, ih]
    | notifyNestedSubs n => simp only [World.callFnWith, World.callFn, ih]

theorem registeredSince_length_le (ops : List NodeOp) :
    ∀ cur : List Fn, (registeredSince cur ops).length ≤ cur.length + ops.length := by
  induction ops with
  | nil => intro cur; simp [registeredSince]
  | cons op ops ih =>
    intro cur
    cases op with
    | trySubscribe => have := ih cur; simp only [registeredSince, List.length_cons]; omega
    | tryUnsubscribe =>
      have := ih []
      simp only [registeredSince, List.length_cons, List.length_nil] at this ⊢; omega
    | addNestedSub cb =>
      have := ih (cur ++ [cb])
      simp only [registeredSince, List.length_cons, List.length_append, List.length_nil] at this ⊢
      omega

theorem WF.threeLevelWorld : WF threeLevelWorld := by
  intro n sub h
  rcases n with _ | _ | _ | n
  · simp only [ReactRedux.threeLevelWorld, List.getElem?_cons_zero, Option.some.injEq] at h
    subst h
    exact ⟨fun p hp => (by cases hp), fun hh => (by cases hh), fun _ => ⟨0, rfl, by decide⟩⟩
  · simp only [ReactRedux.threeLevelWorld, List.getElem?_cons_succ, List.getElem?_cons_zero,
      Option.some.injEq] at h
    subst h
    exact ⟨fun p hp => (by injection hp with hp; omega), fun hh => (by cases hh),
      fun _ => ⟨1, rfl, by decide⟩⟩
  · simp only [ReactRedux.threeLevelWorld, List.getElem?_cons_succ, List.getElem?_cons_zero,
      Option.some.injEq] at h
    subst h
    exact ⟨fun p hp => (by injection hp with hp; omega), fun hh => (by cases hh),
      fun _ => ⟨2, rfl, by decide⟩⟩
  · simp [ReactRedux.threeLevelWorld] at h

/-- Witness for C5: on node `B` of the three-level world, `tryUnsubscribe` twice invokes the held
capability once, and `trySubscribe` twice then subscribes upstream once. -/
theorem upstream_subscription_discipline_witness :
    (∃ w2 T, runNodeOps 3 2
        [NodeOp.tryUnsubscribe, .tryUnsubscribe, .trySubscribe, .trySubscribe,
          .addNestedSub (Fn.other 5), .tryUnsubscribe] threeLevelWorld = some w2 ∧
      w2.trace = threeLevelWorld.trace ++ T ∧
      (upstreamEvents 2 T).map Prod.fst =
        specUpstream (threeLevelWorld.isSubscribed 2)
          [NodeOp.tryUnsubscribe, .tryUnsubscribe, .trySubscribe, .trySubscribe,
            .addNestedSub (Fn.other 5), .tryUnsubscribe] ∧
      Paired (threeLevelWorld.held 2) (upstreamEvents 2 T)) ∧
    (runNodeOps 3 2
        [NodeOp.tryUnsubscribe, .tryUnsubscribe, .trySubscribe, .trySubscribe,
          .addNestedSub (Fn.other 5), .tryUnsubscribe] threeLevelWorld).map
        (fun w2 => upstreamEvents 2 (w2.trace.drop 3)) =
      some [(Upstream.detach, Cap.listener 1 0), (Upstream.subscribe, Cap.listener 1 1),
        (Upstream.detach, Cap.listener 1 1)] :=
  ⟨upstream_subscription_discipline threeLevelWorld 2 WF.threeLevelWorld (by decide) _ 3
    (by decide), by decide⟩

/-- C8, as stated, fails: a root node whose slot holds its `notifyNestedSubs` is subscribed and
then unsubscribed; a later `handleChangeWrapper()` still calls the slot. -/
theorem handleChangeWrapper_after_tryUnsubscribe_calls_slot :
    (((((World.empty.createSubscription none).setOnStateChange 0
        (some (Fn.notifyNestedSubs 0))).trySubscribe 1 0).bind
        (World.tryUnsubscribe 0)).bind
        (World.callFn 2 (Fn.handleChangeWrapper 0))).map (fun w => w.trace) =
      some [Event.upstream 0 (Cap.store 0), Event.detach 0 (Cap.store 0),
        Event.call (Fn.handleChangeWrapper 0), Event.call (Fn.notifyNestedSubs 0)] := by
  decide

/-- C8, amended: `tryUnsubscribe()` leaves the `onStateChange` slot as it is, and a later
`handleChangeWrapper()` calls the slot exactly when the slot is set.  It calls nothing when the
slot is null, in particular once the owner has assigned `onStateChange = null`; and when the
slot holds the node's `notifyNestedSubs`, that function is called but notifies no listener. -/
theorem handleChangeWrapper_after_tryUnsubscribe (w : World) (n : Nat) (hWF : WF w)
    (hn : n < w.subs.length) :
    ∃ w2 sub sub2, w.tryUnsubscribe n = some w2 ∧ w.subs[n]? = some sub ∧
      w2.subs[n]? = some sub2 ∧ sub2.onStateChange = sub.onStateChange ∧
      (sub2.onStateChange = none → ∀ fuel, w2.callFn (fuel + 1) (Fn.handleChangeWrapper n) =
        some (w2.emit [Event.call (Fn.handleChangeWrapper n)])) ∧
      (∀ g, sub2.onStateChange = some g → ∀ fuel,
        w2.callFn (fuel + 1) (Fn.handleChangeWrapper n) =
          (w2.emit [Event.call (Fn.handleChangeWrapper n)]).callFn fuel g) ∧
      (sub2.onStateChange = some (Fn.notifyNestedSubs n) → ∀ fuel,
        w2.callFn (fuel + 2) (Fn.handleChangeWrapper n) =
          some (w2.emit [Event.call (Fn.handleChangeWrapper n),
            Event.call (Fn.notifyNestedSubs n)])) ∧
      (∀ fuel, (w2.setOnStateChange n none).callFn (fuel + 1) (Fn.handleChangeWrapper n) =
        some ((w2.setOnStateChange n none).emit [Event.call (Fn.handleChangeWrapper n)])) := by
  obtain ⟨w2, T, h1, _, _, _, _, ⟨sub, sub2, h2, h3, h4, h5, _⟩, _, _⟩ :=
    tryUnsubscribe_spec n w hWF hn
  have e2 : ∀ (v : World) l, (v.emit l).subs = v.subs := fun _ _ => rfl
  refine ⟨w2, sub, sub2, h1, h2, h3, h4, ?_, ?_, ?_, ?_⟩
  · intro hnone fuel
    simp only [World.callFn, e2, h3, hnone]
  · intro g hg fuel
    simp only [World.callFn, e2, h3, hg]
  · intro hg fuel
    simp only [World.callFn, e2, h3, hg, h5, World.emit_emit]
    rfl
  · intro fuel
    have : (w2.setOnStateChange n none).subs[n]? = some { sub2 with onStateChange := none } := by
      simp [World.setOnStateChange, h3]
    simp only [World.callFn, e2, this]

/-- Witness for the amended C8: node `A` of the three-level world. -/
theorem handleChangeWrapper_after_tryUnsubscribe_witness :
    (∃ w2 sub sub2, threeLevelWorld.tryUnsubscribe 1 = some w2 ∧
      threeLevelWorld.subs[1]? = some sub ∧
      w2.subs[1]? = some sub2 ∧ sub2.onStateChange = sub.onStateChange ∧
      (sub2.onStateChange = none → ∀ fuel, w2.callFn (fuel + 1) (Fn.handleChangeWrapper 1) =
        some (w2.emit [Event.call (Fn.handleChangeWrapper 1)])) ∧
      (∀ g, sub2.onStateChange = some g → ∀ fuel,
        w2.callFn (fuel + 1) (Fn.handleChangeWrapper 1) =
          (w2.emit [Event.call (Fn.handleChangeWrapper 1)]).callFn fuel g) ∧
      (sub2.onStateChange = some (Fn.notifyNestedSubs 1) → ∀ fuel,
        w2.callFn (fuel + 2) (Fn.handleChangeWrapper 1) =
          some (w2.emit [Event.call (Fn.handleChangeWrapper 1),
            Event.call (Fn.notifyNestedSubs 1)])) ∧
      (∀ fuel, (w2.setOnStateChange 1 none).callFn (fuel + 1) (Fn.handleChangeWrapper 1) =
        some ((w2.setOnStateChange 1 none).emit [Event.call (Fn.handleChangeWrapper 1)]))) ∧
    ((threeLevelWorld.tryUnsubscribe 1).bind
        (World.callFn 2 (Fn.handleChangeWrapper 1))).map (fun w => w.trace.drop 4) =
      some [Event.call (Fn.handleChangeWrapper 1), Event.call (Fn.notifyNestedSubs 1)] :=
  ⟨handleChangeWrapper_after_tryUnsubscribe threeLevelWorld 1 WF.threeLevelWorld (by decide),
    by decide⟩

/-- C10, as stated, fails: the root node holds two listeners, and the callback of the first calls
`tryUnsubscribe()` on the node while the node's `notifyNestedSubs()` is running.  `clear()` leaves
the `next` links alone, so the pass goes on to the second listener: a callback registered before
the `tryUnsubscribe()` is invoked after it, by a node that is Unsubscribed with `get()` empty. -/
theorem notifyNestedSubs_in_flight_invokes_old_listener :
    ((((World.empty.createSubscription none).addNestedSub 1 0 (Fn.other 0)).bind
        (fun r => r.1.addNestedSub 1 0 (Fn.other 1))).bind
        (fun r => r.1.callFnWith (fun id w => if id = 0 then w.tryUnsubscribe 0 else some w) 3
          (Fn.notifyNestedSubs 0))).map
        (fun w => (w.trace, w.isSubscribed 0, w.listenerCallbacks 0 0)) =
      some ([Event.upstream 0 (Cap.store 0), Event.call (Fn.notifyNestedSubs 0),
        Event.call (Fn.other 0), Event.detach 0 (Cap.store 0), Event.call (Fn.other 1)],
        false, some []) := by
  decide

/-- C10, amended: a newly created node, and every node after `tryUnsubscribe()`, is
Unsubscribed: `isSubscribed()` is false, `getListeners().get()` is empty and a
`notifyNestedSubs()` call calls nothing.  After `tryUnsubscribe()` has returned and after any
further `trySubscribe()`, `tryUnsubscribe()` and `addNestedSub()` calls on the node, the
listeners it holds are exactly the callbacks registered since it last became Subscribed, so none
registered before; a `notifyNestedSubs()` call that begins then calls nothing while there are
none (also right after a later `trySubscribe()`), and when the callbacks registered since make
no call themselves it calls exactly these, once each and in order. -/
theorem unsubscribed_node_is_inert (w : World) (n : Nat) (hWF : WF w) (hn : n < w.subs.length) :
    (∀ parent fuel k,
      (w.createSubscription parent).isSubscribed w.subs.length = false ∧
      (w.createSubscription parent).listenerCallbacks fuel w.subs.length = some [] ∧
      (w.createSubscription parent).callFn (k + 1) (Fn.notifyNestedSubs w.subs.length) =
        some ((w.createSubscription parent).emit
          [Event.call (Fn.notifyNestedSubs w.subs.length)])) ∧
    (∃ w1, w.tryUnsubscribe n = some w1 ∧ w1.isSubscribed n = false ∧
      ∀ ops fuel fuel2, n < fuel → ops.length ≤ fuel2 →
        ∃ w2, runNodeOps fuel n ops w1 = some w2 ∧
          w2.listenerCallbacks fuel2 n = some ((registeredSince [] ops).map some) ∧
          (registeredSince [] ops = [] → ∀ k,
            w2.callFn (k + 1) (Fn.notifyNestedSubs n) =
              some (w2.emit [Event.call (Fn.notifyNestedSubs n)])) ∧
          ((∀ g ∈ registeredSince [] ops, ∃ id, g = Fn.other id) → ∀ k,
            w2.callFn (k + (registeredSince [] ops).length + 1) (Fn.notifyNestedSubs n) =
              some (w2.emit (Event.call (Fn.notifyNestedSubs n) ::
                (registeredSince [] ops).map Event.call)))) := by
  constructor
  · intro parent fuel k
    have hnew : (w.createSubscription parent).subs[w.subs.length]? =
        some { parentSub := parent, unsubscribe := none, listeners := none,
               onStateChange := none } := by
      simp [World.createSubscription]
    have e2 : ∀ (v : World) l, (v.emit l).subs = v.subs := fun _ _ => rfl
    refine ⟨?_, ?_, ?_⟩
    · simp [World.isSubscribed, hnew]
    · simp [World.listenerCallbacks, hnew]
    · simp only [World.callFn, e2, hnew]
  · obtain ⟨w1, T, h1, hWF1, hlen1, _, hheld1, _, _, _⟩ := tryUnsubscribe_spec n w hWF hn
    refine ⟨w1, h1, World.isSubscribed_false_iff.mpr hheld1, ?_⟩
    intro ops fuel fuel2 hfuel hfuel2
    obtain ⟨w2, h2, hWF2, hn2, hJ⟩ :=
      HoldsListeners.run fuel n hfuel ops w1 [] hWF1 (by omega) (Or.inl ⟨hheld1, rfl⟩)
    obtain ⟨hobs1, hobs2⟩ := hJ.observe hWF2 hn2
    refine ⟨w2, h2, hobs1 fuel2 ?_, hobs2, fun hp k => hJ.notify_passive hWF2 hn2 hp k⟩
    have := registeredSince_length_le ops []
    simp only [List.length_nil, Nat.zero_add] at this
    omega

/-- Witness for the amended C10: node `A` of the three-level world, which holds the listener of
`B`; after `tryUnsubscribe()` and a later `trySubscribe()` its collection is empty and a
notification calls nothing, and after two later `addNestedSub` calls a notification calls
exactly the two new callbacks. -/
theorem unsubscribed_node_is_inert_witness :
    ((∀ parent fuel k,
      (threeLevelWorld.createSubscription parent).isSubscribed threeLevelWorld.subs.length =
        false ∧
      (threeLevelWorld.createSubscription parent).listenerCallbacks fuel
        threeLevelWorld.subs.length = some [] ∧
      (threeLevelWorld.createSubscription parent).callFn (k + 1)
          (Fn.notifyNestedSubs threeLevelWorld.subs.length) =
        some ((threeLevelWorld.createSubscription parent).emit
          [Event.call (Fn.notifyNestedSubs threeLevelWorld.subs.length)])) ∧
    (∃ w1, threeLevelWorld.tryUnsubscribe 1 = some w1 ∧ w1.isSubscribed 1 = false ∧
      ∀ ops fuel fuel2, 1 < fuel → ops.length ≤ fuel2 →
        ∃ w2, runNodeOps fuel 1 ops w1 = some w2 ∧
          w2.listenerCallbacks fuel2 1 = some ((registeredSince [] ops).map some) ∧
          (registeredSince [] ops = [] → ∀ k,
            w2.callFn (k + 1) (Fn.notifyNestedSubs 1) =
              some (w2.emit [Event.call (Fn.notifyNestedSubs 1)])) ∧
          ((∀ g ∈ registeredSince [] ops, ∃ id, g = Fn.other id) → ∀ k,
            w2.callFn (k + (registeredSince [] ops).length + 1) (Fn.notifyNestedSubs 1) =
              some (w2.emit (Event.call (Fn.notifyNestedSubs 1) ::
                (registeredSince [] ops).map Event.call))))) ∧
    threeLevelWorld.listenerCallbacks 1 1 = some [some (Fn.handleChangeWrapper 2)] ∧
    ((threeLevelWorld.tryUnsubscribe 1).bind (runNodeOps 2 1 [NodeOp.trySubscribe])).bind
        (World.listenerCallbacks 1 1) = some [] ∧
    (((threeLevelWorld.tryUnsubscribe 1).bind (runNodeOps 2 1 [NodeOp.trySubscribe])).bind
        (World.callFn 3 (Fn.notifyNestedSubs 1))).map (fun w => w.trace.drop 5) =
      some [Event.call (Fn.notifyNestedSubs 1)] ∧
    (((threeLevelWorld.tryUnsubscribe 1).bind
        (runNodeOps 2 1
          [NodeOp.addNestedSub (Fn.other 7), NodeOp.addNestedSub (Fn.other 8)])).bind
        (World.callFn 3 (Fn.notifyNestedSubs 1))).map (fun w => w.trace.drop 5) =
      some [Event.call (Fn.notifyNestedSubs 1), Event.call (Fn.other 7),
        Event.call (Fn.other 8)] :=
  ⟨unsubscribed_node_is_inert threeLevelWorld 1 WF.threeLevelWorld (by decide),
    by decide, by decide, by decide, by decide⟩

/-! ## The events of a `notify()` pass -/

theorem invokedIn_append (a b : List (PassEvent α)) :
    invokedIn (a ++ b) = invokedIn a ++ invokedIn b := by
  induction a with
  | nil => rfl
  | cons ev evs ih => cases ev <;> simp [invokedIn, ih]

theorem opsIn_append (a b : List (PassEvent α)) :
    opsIn (a ++ b) = opsIn a ++ opsIn b := by
  induction a with
  | nil => rfl
  | cons ev evs ih => cases ev <;> simp [opsIn, ih]

theorem invokedIn_map_op (ops : List (Op α)) : invokedIn (ops.map PassEvent.op) = [] := by
  induction ops with
  | nil => rfl
  | cons o os ih => simpa [invokedIn] using ih

theorem opsIn_map_op (ops : List (Op α)) : opsIn (ops.map PassEvent.op) = ops := by
  induction ops with
  | nil => rfl
  | cons o os ih => simp [opsIn, ih]

theorem invoke_not_mem_map_op (y : Nat) (ops : List (Op α)) :
    PassEvent.invoke y ∉ ops.map PassEvent.op := by
  simp

/-- The two renderings of the loop agree: when the loop returns, the listeners it has logged are
the ones invoked in the event list. -/
theorem notifyLoop_log_eq (beh : Behaviour α) :
    ∀ (fuel : Nat) (c : Option Nat) (s s2 : ListenerCollection α) (log log2 : List Nat),
      notifyLoop beh fuel c (s, log) = some (s2, log2) →
      log2 = log ++ invokedIn (notifyEvents beh fuel c s) ∧
      s2 = runOps (opsIn (notifyEvents beh fuel c s)) s := by
  intro fuel
  induction fuel with
  | zero =>
    intro c s s2 log log2 h
    cases c with
    | none =>
      simp only [notifyLoop, Option.some.injEq, Prod.mk.injEq] at h
      simp [notifyEvents, invokedIn, opsIn, runOps_nil, h.1, h.2]
    | some a => simp [notifyLoop] at h
  | succ k ih =>
    intro c s s2 log log2 h
    cases c with
    | none =>
      simp only [notifyLoop, Option.some.injEq, Prod.mk.injEq] at h
      simp [notifyEvents, invokedIn, opsIn, runOps_nil, h.1, h.2]
    | some a =>
      simp only [notifyLoop, notifyEvents] at h ⊢
      cases hcb : callbackOf s.heap a with
      | none => rw [hcb] at h; cases h
      | some cb =>
        rw [hcb] at h
        simp only at h ⊢
        obtain ⟨h1, h2⟩ := ih _ _ _ _ _ h
        refine ⟨?_, ?_⟩
        · rw [h1]
          simp [invokedIn, invokedIn_append, invokedIn_map_op]
        · rw [h2]
          simp [opsIn, opsIn_append, opsIn_map_op, runOps_append]

/-- A pass never begins with a call made by a callback. -/
theorem notifyEvents_head (beh : Behaviour α) (fuel : Nat) (c : Option Nat)
    (s : ListenerCollection α) (o : Op α) (rest : List (PassEvent α)) :
    notifyEvents beh fuel c s ≠ PassEvent.op o :: rest := by
  cases fuel with
  | zero => cases c <;> simp [notifyEvents]
  | succ k =>
    cases c with
    | none => simp [notifyEvents]
    | some a =>
      simp only [notifyEvents]
      cases hcb : callbackOf s.heap a with
      | none => simp
      | some cb => simp

/-! ### Scripts of admissible calls -/

theorem length_runOps_le (ops : List (Op α)) :
    ∀ s : ListenerCollection α, s.heap.length ≤ (runOps ops s).heap.length := by
  induction ops with
  | nil => intro s; exact Nat.le_refl _
  | cons op ops ih =>
    intro s
    rw [runOps_cons]
    refine Nat.le_trans ?_ (ih _)
    cases op with
    | subscribe cb => simp only [Op.apply]; rw [length_subscribe]; omega
    | unsubscribe a => simp only [Op.apply]; rw [length_unsubscribe]
    | clear => exact Nat.le_refl _

theorem noClear_append (a b : List (Op α)) :
    noClear (a ++ b) = (noClear a && noClear b) := by
  induction a with
  | nil => simp [noClear]
  | cons op ops ih => cases op <;> simp [noClear, ih]

/-- A capability invoked in an admissible script has been issued when it is invoked. -/
theorem issuedFrom_append_unsubscribe (sp sq : List (Op α)) (b : Nat) :
    ∀ s : ListenerCollection α,
      issuedFrom s.heap.length (sp ++ Op.unsubscribe b :: sq) = true →
      b < (runOps sp s).heap.length := by
  induction sp with
  | nil =>
    intro s h
    simp only [List.nil_append, issuedFrom, Bool.and_eq_true, decide_eq_true_eq] at h
    exact h.1
  | cons op ops ih =>
    intro s h
    rw [runOps_cons]
    cases op with
    | subscribe cb =>
      simp only [List.cons_append, issuedFrom] at h
      apply ih
      simp only [Op.apply]
      rw [length_subscribe]; exact h
    | unsubscribe a =>
      simp only [List.cons_append, issuedFrom, Bool.and_eq_true] at h
      apply ih
      simp only [Op.apply]
      rw [length_unsubscribe]; exact h.2
    | clear =>
      simp only [List.cons_append, issuedFrom] at h
      apply ih
      exact h

/-- Admissible calls keep the representation invariant. -/
theorem Inv.runOps_admissible {e : Nat} (ops : List (Op α)) (hnc : noClear ops = true)
    (hge : ∀ a, Op.unsubscribe a ∈ ops → e ≤ a) :
    ∀ s : ListenerCollection α, Inv e s → Inv e (runOps ops s) := by
  induction ops with
  | nil => intro s hI; exact hI
  | cons op ops ih =>
    intro s hI
    rw [runOps_cons]
    cases op with
    | subscribe cb =>
      exact ih hnc (fun a ha => hge a (List.mem_cons_of_mem _ ha)) _ (hI.subscribe cb)
    | unsubscribe a =>
      exact ih hnc (fun a2 ha => hge a2 (List.mem_cons_of_mem _ ha)) _
        (hI.unsubscribe_inv (Or.inl (hge a (List.mem_cons_self _ _))))
    | clear => simp [noClear] at hnc

/-! ### Flags and links around `unsubscribe` -/

/-- Under the invariant, invoking an admissible capability leaves its listener unlinked. -/
theorem Inv.flagOf_unsubscribe_self {e b : Nat} {s : ListenerCollection α} (hI : Inv e s)
    (hb : e ≤ b) : flagOf (s.unsubscribe b).heap b = false := by
  rw [ReactRedux.flagOf_unsubscribe]
  split
  · rename_i hg
    cases hfl : flagOf s.heap b with
    | false => rfl
    | true =>
      exfalso
      have hfn : s.first = none := by
        cases hf : s.first with
        | none => rfl
        | some x => simp [hfl, hf] at hg
      have hmem : b ∈ linkedSince e s.heap := mem_linkedSince.mpr ⟨hb, hfl⟩
      have := hI.2.first_eq
      rw [hfn] at this
      cases hl : linkedSince e s.heap with
      | nil => rw [hl] at hmem; cases hmem
      | cons c cs => rw [hl] at this; simp at this
  · rw [flagOf_setFlag]
    by_cases hlt : b < s.heap.length
    · simp [hlt]
    · have : flagOf s.heap b = false := by
        cases hfl : flagOf s.heap b with
        | false => rfl
        | true => exact absurd (flagOf_lt hfl) hlt
      simp [hlt, this]

/-- Invoking a capability leaves the flags of the other listeners as they were. -/
theorem flagOf_unsubscribe_of_ne {b x : Nat} (s : ListenerCollection α) (hne : b ≠ x) :
    flagOf (s.unsubscribe b).heap x = flagOf s.heap x := by
  rw [ReactRedux.flagOf_unsubscribe]
  split
  · rfl
  · rw [flagOf_setFlag]; simp [hne]

/-- Under the invariant the linked listeners are the flagged ones from the base address on. -/
theorem Inv.isLinked_iff {e x : Nat} {s : ListenerCollection α} (hI : Inv e s) :
    s.isLinked x ↔ x ∈ linkedSince e s.heap := by
  unfold ListenerCollection.isLinked
  rw [hI.get_eq _ (Nat.le_refl _)]
  constructor
  · rintro ⟨ls, hls, hx⟩
    injection hls with hls
    rw [hls]; exact hx
  · intro hx
    exact ⟨_, rfl, hx⟩

/-- Splitting the image of a script at one of its events. -/
theorem map_op_eq_append_cons {script : List (Op α)} {pre post : List (PassEvent α)} {o : Op α}
    (h : script.map PassEvent.op = pre ++ PassEvent.op o :: post) :
    ∃ sp sq, script = sp ++ o :: sq ∧ pre = sp.map PassEvent.op ∧ post = sq.map PassEvent.op := by
  induction script generalizing pre with
  | nil =>
    cases pre <;> simp at h
  | cons c cs ih =>
    cases pre with
    | nil =>
      simp only [List.map_cons, List.nil_append, List.cons.injEq, PassEvent.op.injEq] at h
      obtain ⟨rfl, h2⟩ := h
      exact ⟨[], cs, rfl, rfl, h2.symm⟩
    | cons p ps =>
      simp only [List.map_cons, List.cons_append, List.cons.injEq] at h
      obtain ⟨h1, h2⟩ := h
      obtain ⟨sp, sq, rfl, rfl, rfl⟩ := ih h2
      exact ⟨c :: sp, sq, rfl, by simp [h1], rfl⟩

/-! ### Listeners the traversal can still arrive at -/

theorem nextOf_eq_none_of_le {h : List (Listener α)} {a : Nat} (ha : h.length ≤ a) :
    nextOf h a = none := by
  unfold nextOf
  rw [List.getElem?_eq_none ha]

/-- After `subscribe` a `next` pointer is what it was, or it is the pointer from the old `last`
to the new listener. -/
theorem nextOf_subscribe_cases (cb : α) (s : ListenerCollection α) (x y : Nat)
    (h : nextOf (s.subscribe cb).heap x = some y) :
    y = s.heap.length ∨ nextOf s.heap x = some y := by
  have hold : ∀ (l : Listener α) (z : Nat), l.next = none →
      nextOf (s.heap ++ [l]) x = some z → nextOf s.heap x = some z := by
    intro l z hl hz
    rcases Nat.lt_trichotomy x s.heap.length with hlt | heq | hgt
    · rw [nextOf_append_left _ _ _ hlt] at hz; exact hz
    · rw [heq, nextOf_append_new, hl] at hz; cases hz
    · rw [nextOf_eq_none_of_le (by simp; omega)] at hz; cases hz
  unfold ListenerCollection.subscribe at h
  cases hl : s.last with
  | none =>
    rw [hl] at h
    exact Or.inr (hold _ y rfl h)
  | some p =>
    rw [hl] at h
    simp only at h
    rw [nextOf_setNext] at h
    split at h
    · injection h with h
      exact Or.inl h.symm
    · exact Or.inr (hold _ y rfl h)

theorem Reach.subscribe_reach {P : Nat → Prop} {e : Nat} {s : ListenerCollection α} (cb : α)
    (hR : Reach P e s) : Reach P e (s.subscribe cb) := by
  obtain ⟨hI, hlk, hcl, hnew⟩ := hR
  refine ⟨hI.subscribe cb, ?_, ?_, ?_⟩
  · intro a ha
    rw [linkedSince_subscribe s cb hI.1] at ha
    rcases List.mem_append.mp ha with ha | ha
    · exact hlk a ha
    · rw [List.mem_singleton] at ha
      rw [ha]; exact hnew _ (Nat.le_refl _)
  · intro x y hx hn
    rcases nextOf_subscribe_cases cb s x y hn with hy | hy
    · rw [hy]; exact hnew _ (Nat.le_refl _)
    · exact hcl x y hx hy
  · intro a ha
    rw [length_subscribe] at ha
    exact hnew a (by omega)

theorem Reach.unsubscribe_reach {P : Nat → Prop} {e a : Nat} {s : ListenerCollection α}
    (hR : Reach P e s) (hea : e ≤ a) : Reach P e (s.unsubscribe a) := by
  obtain ⟨hI, hlk, hcl, hnew⟩ := hR
  refine ⟨hI.unsubscribe_inv (Or.inl hea), ?_, ?_, ?_⟩
  · intro b hb
    exact hlk b (linkedSince_unsubscribe_subset hb).1
  · intro x y hx hn
    rw [nextOf_unsubscribe] at hn
    split at hn
    · exact hcl x y hx hn
    · rename_i hg
      have hfl : flagOf s.heap a = true := by
        cases hh : flagOf s.heap a
        · simp [hh] at hg
        · rfl
      split at hn
      · exact hcl a y (hlk a (mem_linkedSince.mpr ⟨hea, hfl⟩)) hn
      · exact hcl x y hx hn
  · intro b hb
    rw [length_unsubscribe] at hb
    exact hnew b hb

theorem Reach.runOps_reach {P : Nat → Prop} {e : Nat} (ops : List (Op α))
    (hnc : noClear ops = true) (hge : ∀ a, Op.unsubscribe a ∈ ops → e ≤ a) :
    ∀ s : ListenerCollection α, Reach P e s → Reach P e (runOps ops s) := by
  induction ops with
  | nil => intro s hR; exact hR
  | cons op ops ih =>
    intro s hR
    rw [runOps_cons]
    cases op with
    | subscribe cb =>
      exact ih hnc (fun a ha => hge a (List.mem_cons_of_mem _ ha)) _ (hR.subscribe_reach cb)
    | unsubscribe a =>
      exact ih hnc (fun a2 ha => hge a2 (List.mem_cons_of_mem _ ha)) _
        (hR.unsubscribe_reach (hge a (List.mem_cons_self _ _)))
    | clear => simp [noClear] at hnc

/-- While the cursor is a listener of `P`, only listeners of `P` are invoked. -/
theorem notifyEvents_invokes_within (beh : Behaviour α) (e n0 : Nat) (P : Nat → Prop)
    (hbeh : ∀ cb st, n0 ≤ st.heap.length → callsAdmissible e st.heap.length (beh cb st)) :
    ∀ (fuel : Nat) (c : Option Nat) (s : ListenerCollection α),
      Reach P e s → n0 ≤ s.heap.length → (∀ x, c = some x → P x) →
      ∀ y, PassEvent.invoke y ∈ notifyEvents beh fuel c s → P y := by
  intro fuel
  induction fuel with
  | zero =>
    intro c s _ _ _ y hy
    cases c <;> simp [notifyEvents] at hy
  | succ k ih =>
    intro c s hR hn0 hc y hy
    cases c with
    | none => simp [notifyEvents] at hy
    | some x =>
      simp only [notifyEvents] at hy
      cases hcb : callbackOf s.heap x with
      | none => rw [hcb] at hy; cases hy
      | some cb =>
        rw [hcb] at hy
        simp only at hy
        obtain ⟨hnc, _, hge⟩ := hbeh cb s hn0
        have hR1 := Reach.runOps_reach (beh cb s) hnc hge s hR
        have hPx := hc x rfl
        rcases List.mem_cons.mp hy with hy | hy
        · injection hy with hy; rw [hy]; exact hPx
        · rcases List.mem_append.mp hy with hy | hy
          · exact absurd hy (invoke_not_mem_map_op y _)
          · exact ih _ _ hR1 (Nat.le_trans hn0 (length_runOps_le _ _))
              (fun z hz => hR1.2.2.1 x z hPx hz) y hy

/-- Right after an issued capability has been invoked, the linked listeners and the addresses not
yet allocated form a set the traversal cannot leave, and the listener just unlinked is outside. -/
theorem Reach.after_unsubscribe {e b : Nat} {s : ListenerCollection α} (hI : Inv e s)
    (heb : e ≤ b) (hb : b < s.heap.length) :
    Reach (fun y => y ≠ b ∧ (y ∈ linkedSince e (s.unsubscribe b).heap ∨
      (s.unsubscribe b).heap.length ≤ y)) e (s.unsubscribe b) := by
  have hIY : Inv e (s.unsubscribe b) := hI.unsubscribe_inv (Or.inl heb)
  have hbY : b ∉ linkedSince e (s.unsubscribe b).heap := by
    intro hm
    have := (mem_linkedSince.mp hm).2
    rw [hI.flagOf_unsubscribe_self heb] at this
    cases this
  refine ⟨hIY, ?_, ?_, ?_⟩
  · intro a ha
    exact ⟨fun hh => hbY (hh ▸ ha), Or.inl ha⟩
  · intro x y hx hn
    rcases hx.2 with hx2 | hx2
    · have hy := ((PassInv.init hIY).2.2.1 x y hx2 hn).1
      exact ⟨fun hh => hbY (hh ▸ hy), Or.inl hy⟩
    · rw [nextOf_eq_none_of_le hx2] at hn; cases hn
  · intro a ha
    refine ⟨?_, Or.inr ha⟩
    rw [length_unsubscribe] at ha
    omega

/-! ### Unsubscribing a listener the traversal has not reached -/

/-- In a pass whose callbacks make admissible calls, a listener unsubscribed by a callback whose
own listener is still linked at that moment is not invoked afterwards. -/
theorem notifyEvents_unsubscribed_ahead (beh : Behaviour α) (e n0 : Nat)
    (hbeh : ∀ cb st, n0 ≤ st.heap.length → callsAdmissible e st.heap.length (beh cb st)) :
    ∀ (fuel : Nat) (c : Option Nat) (s : ListenerCollection α),
      Inv e s → n0 ≤ s.heap.length →
      UnsubscribedAheadNotInvokedWhileLinked s (notifyEvents beh fuel c s) := by
  intro fuel
  induction fuel with
  | zero =>
    intro c s _ _ pre post b x hsplit
    cases c <;> (simp only [notifyEvents] at hsplit; cases pre <;> simp at hsplit)
  | succ k ih =>
    intro c s hI hn0 pre post b x hsplit hpre hlast hlinked
    cases c with
    | none =>
      simp only [notifyEvents] at hsplit
      cases pre <;> simp at hsplit
    | some x0 =>
      simp only [notifyEvents] at hsplit
      cases hcb : callbackOf s.heap x0 with
      | none =>
        rw [hcb] at hsplit
        cases pre <;> simp at hsplit
      | some cb =>
        rw [hcb] at hsplit
        simp only at hsplit
        obtain ⟨hnc, hiss, hge⟩ := hbeh cb s hn0
        have hI1 : Inv e (runOps (beh cb s) s) := Inv.runOps_admissible _ hnc hge s hI
        have hlen1 : n0 ≤ (runOps (beh cb s) s).heap.length :=
          Nat.le_trans hn0 (length_runOps_le _ _)
        cases pre with
        | nil => simp at hsplit
        | cons p pre1 =>
          simp only [List.cons_append, List.cons.injEq] at hsplit
          obtain ⟨rfl, hsplit⟩ := hsplit
          rcases List.append_eq_append_iff.mp hsplit with ⟨a1, hp1, hr1⟩ | ⟨c1, hs1, hc1⟩
          · -- the capability is invoked by a later callback
            subst hp1
            have hinv : invokedIn a1 ≠ [] := by
              cases a1 with
              | nil => exact absurd hr1 (notifyEvents_head beh k _ _ _ _)
              | cons q qs =>
                cases q with
                | invoke z => simp [invokedIn]
                | op o => exact absurd hr1 (notifyEvents_head beh k _ _ _ _)
            refine ih _ _ hI1 hlen1 a1 post b x hr1 ?_ ?_ ?_
            · intro hm
              exact hpre (List.mem_cons_of_mem _ (List.mem_append_right _ hm))
            · simp only [invokedIn, invokedIn_append, invokedIn_map_op, List.nil_append] at hlast
              cases hl : invokedIn a1 with
              | nil => exact absurd hl hinv
              | cons z zs =>
                rw [hl, List.getLast?_cons_cons] at hlast
                exact hlast
            · simp only [opsIn, opsIn_append, opsIn_map_op, runOps_append] at hlinked
              exact hlinked
          · -- the capability is invoked by the callback of the listener just reached
            cases c1 with
            | nil =>
              simp only [List.nil_append] at hc1
              exact absurd hc1.symm (notifyEvents_head beh k _ _ _ _)
            | cons q qs =>
              simp only [List.cons_append, List.cons.injEq] at hc1
              obtain ⟨rfl, rfl⟩ := hc1
              obtain ⟨sp, sq, hsc, rfl, rfl⟩ := map_op_eq_append_cons hs1
              simp only [invokedIn, invokedIn_map_op] at hlast
              simp only [List.getLast?_singleton, Option.some.injEq] at hlast
              subst hlast
              simp only [opsIn, opsIn_map_op] at hlinked
              rw [hsc, noClear_append] at hnc
              simp only [noClear, Bool.and_eq_true] at hnc
              have hgesp : ∀ a, Op.unsubscribe a ∈ sp → e ≤ a := fun a ha =>
                hge a (by rw [hsc]; exact List.mem_append_left _ ha)
              have hgesq : ∀ a, Op.unsubscribe a ∈ sq → e ≤ a := fun a ha =>
                hge a (by rw [hsc]; exact List.mem_append_right _ (List.mem_cons_of_mem _ ha))
              have heb : e ≤ b :=
                hge b (by rw [hsc]; exact List.mem_append_right _ (List.mem_cons_self _ _))
              have hI0 : Inv e (runOps sp s) := Inv.runOps_admissible _ hnc.1 hgesp s hI
              have hblt : b < (runOps sp s).heap.length :=
                issuedFrom_append_unsubscribe sp sq b s (by rw [← hsc]; exact hiss)
              have hx : x0 ∈ linkedSince e (runOps sp s).heap := hI0.isLinked_iff.mp hlinked
              have hbx : b ≠ x0 := by
                intro hh; subst hh
                exact hpre (List.mem_cons_self _ _)
              have hxY : x0 ∈ linkedSince e ((runOps sp s).unsubscribe b).heap := by
                rw [mem_linkedSince] at hx ⊢
                exact ⟨hx.1, by rw [flagOf_unsubscribe_of_ne _ hbx]; exact hx.2⟩
              have hR1 := Reach.runOps_reach sq hnc.2 hgesq _
                (Reach.after_unsubscribe hI0 heb hblt)
              have hs1eq : runOps (beh cb s) s = runOps sq ((runOps sp s).unsubscribe b) := by
                rw [hsc, runOps_append, runOps_cons]; rfl
              have hG := notifyEvents_invokes_within beh e n0 _ hbeh k
                (nextOf (runOps (beh cb s) s).heap x0) (runOps (beh cb s) s)
                (by rw [hs1eq]; exact hR1) hlen1
                (fun z hz => by
                  rw [hs1eq] at hz
                  exact hR1.2.2.1 x0 z ⟨fun hh => hbx hh.symm, Or.inl hxY⟩ hz)
              intro hm
              rcases List.mem_append.mp hm with hm | hm
              · exact invoke_not_mem_map_op b _ hm
              · exact (hG b hm).1 rfl

/-- C12, as stated, fails: over two listeners, the callback of the first unsubscribes its own
listener and then the second one; the unlinked first listener keeps its `next` pointer, the
traversal advances through it, and the second listener is invoked although its capability was
invoked before the traversal reached it. -/
theorem notify_invokes_listener_unsubscribed_ahead :
    notifyEvents (fun cb _ => if cb = 0 then [Op.unsubscribe 0, Op.unsubscribe 1] else []) 2
        (runOps [Op.subscribe 0, .subscribe 1]
          (ListenerCollection.fresh : ListenerCollection Nat)).first
        (runOps [Op.subscribe 0, .subscribe 1]
          (ListenerCollection.fresh : ListenerCollection Nat)) =
      [.invoke 0, .op (.unsubscribe 0), .op (.unsubscribe 1), .invoke 1] ∧
    (notify runOnce (fun cb _ => if cb = 0 then [Op.unsubscribe 0, Op.unsubscribe 1] else []) 2
        (runOps [Op.subscribe 0, .subscribe 1]
          (ListenerCollection.fresh : ListenerCollection Nat))).map (fun r => r.2) =
      some [0, 1] ∧
    ¬ UnsubscribedAheadNotInvoked
      ([.invoke 0, .op (.unsubscribe 0), .op (.unsubscribe 1), .invoke 1] :
        List (PassEvent Nat)) := by
  refine ⟨by decide, by decide, ?_⟩
  intro h
  exact h [.invoke 0, .op (.unsubscribe 0)] [.invoke 1] 1 rfl (by decide)
    (List.mem_singleton_self _)

/-- C12, amended: on every collection state reached by a disciplined call sequence, in a
`notify()` pass whose callbacks subscribe listeners and invoke issued unsubscribe capabilities,
a listener whose capability is invoked before the traversal has reached it, while the listener
whose callback is running is itself still linked, is not invoked in the remainder of the pass.
This holds for the events of any number of iterations of the loop, and when `notify()` returns
these events are the whole pass. -/
theorem notify_skips_listener_unsubscribed_ahead (ops : List (Op α)) (e : Nat)
    (hd : discipline 0 ListenerCollection.fresh ops = some e)
    (beh : Behaviour α)
    (hbeh : ∀ cb st, (runOps ops ListenerCollection.fresh).heap.length ≤ st.heap.length →
      callsAdmissible e st.heap.length (beh cb st))
    (fuel : Nat) :
    UnsubscribedAheadNotInvokedWhileLinked (runOps ops ListenerCollection.fresh)
      (notifyEvents beh fuel (runOps ops ListenerCollection.fresh).first
        (runOps ops ListenerCollection.fresh)) ∧
    ∀ s2 log, notify runOnce beh fuel (runOps ops ListenerCollection.fresh) = some (s2, log) →
      invokedIn (notifyEvents beh fuel (runOps ops ListenerCollection.fresh).first
        (runOps ops ListenerCollection.fresh)) = log ∧
      runOps (opsIn (notifyEvents beh fuel (runOps ops ListenerCollection.fresh).first
        (runOps ops ListenerCollection.fresh))) (runOps ops ListenerCollection.fresh) = s2 := by
  have hI := Inv.runOps_of_discipline ops 0 _ e Inv.fresh hd
  refine ⟨notifyEvents_unsubscribed_ahead beh e _ hbeh fuel _ _ hI (Nat.le_refl _), ?_⟩
  intro s2 log h
  unfold notify runOnce at h
  obtain ⟨h1, h2⟩ := notifyLoop_log_eq beh fuel _ _ _ _ _ h
  exact ⟨by simpa using h1.symm, h2.symm⟩

/-- Witness for the amended C12: three listeners; the callback of the first unsubscribes the
third, then its own listener, and subscribes a fourth.  The pass invokes the listeners 0, 1
and 3; listener 2 is not invoked. -/
theorem notify_skips_listener_unsubscribed_ahead_witness :
    (UnsubscribedAheadNotInvokedWhileLinked
      (runOps [Op.subscribe 0, .subscribe 1, .subscribe 2]
        (ListenerCollection.fresh : ListenerCollection Nat))
      (notifyEvents
        (fun cb _ => if cb = 0 then [Op.unsubscribe 2, Op.unsubscribe 0, Op.subscribe 7] else [])
        5
        (runOps [Op.subscribe 0, .subscribe 1, .subscribe 2]
          (ListenerCollection.fresh : ListenerCollection Nat)).first
        (runOps [Op.subscribe 0, .subscribe 1, .subscribe 2]
          (ListenerCollection.fresh : ListenerCollection Nat))) ∧
    ∀ s2 log, notify runOnce
        (fun cb _ => if cb = 0 then [Op.unsubscribe 2, Op.unsubscribe 0, Op.subscribe 7] else [])
        5
        (runOps [Op.subscribe 0, .subscribe 1, .subscribe 2]
          (ListenerCollection.fresh : ListenerCollection Nat)) = some (s2, log) →
      invokedIn (notifyEvents
        (fun cb _ => if cb = 0 then [Op.unsubscribe 2, Op.unsubscribe 0, Op.subscribe 7] else [])
        5
        (runOps [Op.subscribe 0, .subscribe 1, .subscribe 2]
          (ListenerCollection.fresh : ListenerCollection Nat)).first
        (runOps [Op.subscribe 0, .subscribe 1, .subscribe 2]
          (ListenerCollection.fresh : ListenerCollection Nat))) = log ∧
      runOps (opsIn (notifyEvents
        (fun cb _ => if cb = 0 then [Op.unsubscribe 2, Op.unsubscribe 0, Op.subscribe 7] else [])
        5
        (runOps [Op.subscribe 0, .subscribe 1, .subscribe 2]
          (ListenerCollection.fresh : ListenerCollection Nat)).first
        (runOps [Op.subscribe 0, .subscribe 1, .subscribe 2]
          (ListenerCollection.fresh : ListenerCollection Nat))))
        (runOps [Op.subscribe 0, .subscribe 1, .subscribe 2]
          (ListenerCollection.fresh : ListenerCollection Nat)) = s2) ∧
    notifyEvents
        (fun cb _ => if cb = 0 then [Op.unsubscribe 2, Op.unsubscribe 0, Op.subscribe 7] else [])
        5
        (runOps [Op.subscribe 0, .subscribe 1, .subscribe 2]
          (ListenerCollection.fresh : ListenerCollection Nat)).first
        (runOps [Op.subscribe 0, .subscribe 1, .subscribe 2]
          (ListenerCollection.fresh : ListenerCollection Nat)) =
      [.invoke 0, .op (.unsubscribe 2), .op (.unsubscribe 0), .op (.subscribe 7),
        .invoke 1, .invoke 3] ∧
    (notify runOnce
        (fun cb _ => if cb = 0 then [Op.unsubscribe 2, Op.unsubscribe 0, Op.subscribe 7] else [])
        5
        (runOps [Op.subscribe 0, .subscribe 1, .subscribe 2]
          (ListenerCollection.fresh : ListenerCollection Nat))).map (fun r => r.2) =
      some [0, 1, 3] :=
  ⟨notify_skips_listener_unsubscribed_ahead [Op.subscribe 0, .subscribe 1, .subscribe 2] 0
    (by decide)
    (fun cb _ => if cb = 0 then [Op.unsubscribe 2, Op.unsubscribe 0, Op.subscribe 7] else [])
    (fun cb st hlen => by
      have h3 : 3 ≤ st.heap.length := hlen
      clear hlen
      by_cases h0 : cb = 0
      · simp only [h0, if_true]
        refine ⟨rfl, ?_, fun a _ => Nat.zero_le a⟩
        simp only [issuedFrom, Bool.and_eq_true, decide_eq_true_eq]
        exact ⟨by omega, by omega, trivial⟩
      · simp only [h0, if_false]
        exact ⟨rfl, rfl, fun a _ => Nat.zero_le a⟩)
    5, by decide, by decide⟩

/-! ## Teardown of `subscribeUpdates` -/

theorem Value.truthy_null : Value.null.truthy = false := rfl

/-- The value kept in `lastThrownError` decides the teardown. -/
theorem truthyTeardown_eq (r : SelectorRun) :
    (if r.keptError.truthy then Completion.thrown r.keptError else Completion.normal) =
      truthyTeardown r := by
  cases r with
  | returned p => rfl
  | threw e =>
    simp only [SelectorRun.keptError, truthyTeardown]
    cases h : e.truthy
    · simp [Value.truthy_null]
    · simp [h]

/-- A stale call of `checkForUpdates` does nothing. -/
theorem checkForUpdates_stale (run : SelectorRun) (u : SubscribeUpdates)
    (h : u.didUnsubscribe = true) : checkForUpdates run u = u := by
  simp [checkForUpdates, h]

/-- A call of `checkForUpdates` that is not stale runs the selector and keeps its error; it
touches neither the flag nor the world. -/
theorem checkForUpdates_live (run : SelectorRun) (u : SubscribeUpdates)
    (h : u.didUnsubscribe = false) :
    (checkForUpdates run u).lastThrownError = run.keptError ∧
    (checkForUpdates run u).didUnsubscribe = false ∧
    (checkForUpdates run u).world = u.world ∧
    (checkForUpdates run u).subscription = u.subscription := by
  cases run with
  | returned p =>
    simp only [checkForUpdates, h, SelectorRun.keptError, Value.truthy]
    simp only [Bool.false_eq_true, if_false, Bool.not_false, if_true]
    split
    · split <;> simp [h]
    · simp [h]
  | threw e =>
    simp only [checkForUpdates, h, SelectorRun.keptError]
    cases he : e.truthy
    · simp only [Bool.false_eq_true, if_false, Bool.not_false, if_true]
      split
      · split <;> simp [h]
      · simp [h]
    · simp only [Bool.false_eq_true, if_false, Bool.not_true, if_true]
      split
      · split <;> simp [h]
      · simp [h]

theorem captureWrapperProps_fields (wp cp : Value) (u : SubscribeUpdates) :
    (captureWrapperProps wp cp u).lastThrownError = u.lastThrownError ∧
    (captureWrapperProps wp cp u).didUnsubscribe = u.didUnsubscribe ∧
    (captureWrapperProps wp cp u).world = u.world ∧
    (captureWrapperProps wp cp u).subscription = u.subscription := by
  unfold captureWrapperProps
  simp only
  split <;> simp

theorem length_setOnStateChange (w : World) (n : Nat) (f : Option Fn) :
    (w.setOnStateChange n f).subs.length = w.subs.length := by
  simp [World.setOnStateChange]

/-- On a node of a well-formed world, `unsubscribeWrapper()` completes: it has set
`didUnsubscribe`, called `tryUnsubscribe()` and cleared the slot, and it throws the kept error
when that is truthy. -/
theorem unsubscribeWrapper_spec (u : SubscribeUpdates) (hWF : WF u.world)
    (hn : u.subscription < u.world.subs.length) :
    ∃ w1 sub,
      u.world.tryUnsubscribe u.subscription = some w1 ∧
      unsubscribeWrapper u =
        some ({ u with didUnsubscribe := true, world := w1.setOnStateChange u.subscription none },
          if u.lastThrownError.truthy then Completion.thrown u.lastThrownError
          else Completion.normal) ∧
      WF (w1.setOnStateChange u.subscription none) ∧
      (w1.setOnStateChange u.subscription none).subs.length = u.world.subs.length ∧
      (w1.setOnStateChange u.subscription none).subs[u.subscription]? = some sub ∧
      sub.unsubscribe = none ∧ sub.onStateChange = none ∧ sub.listeners = none := by
  obtain ⟨w1, T, h1, hWF1, hlen1, _, _, ⟨sub0, sub1, _, hs1, _, hl1, hu1⟩, _, _⟩ :=
    tryUnsubscribe_spec u.subscription u.world hWF hn
  refine ⟨w1, { sub1 with onStateChange := none }, h1, ?_, hWF1.setOnStateChange _ _, ?_, ?_,
    hu1, rfl, hl1⟩
  · simp [unsubscribeWrapper, h1]
  · rw [length_setOnStateChange, hlen1]
  · simp [World.setOnStateChange, List.getElem?_modify, hs1]

/-- Every step returns; it keeps the world well formed and the node in it, a call of
`checkForUpdates` that is not stale replaces the kept error, a teardown call sets
`didUnsubscribe`, and nothing else touches these two variables. -/
theorem updateStep_spec (fuel : Nat) (st : UpdateStep) (u : SubscribeUpdates)
    (r : SelectorRun) (hWF : WF u.world) (hn : u.subscription < u.world.subs.length)
    (hfuel : u.subscription < fuel) (herr : u.lastThrownError = r.keptError) :
    ∃ u1, st.apply fuel u = some u1 ∧ WF u1.world ∧ u1.subscription = u.subscription ∧
      u1.subscription < u1.world.subs.length ∧
      ∀ sts, ∃ r1, u1.lastThrownError = r1.keptError ∧
        mostRecentRun u.didUnsubscribe r (st :: sts) = mostRecentRun u1.didUnsubscribe r1 sts := by
  cases st with
  | checkForUpdates run =>
    refine ⟨checkForUpdates run u, rfl, ?_⟩
    cases hd : u.didUnsubscribe with
    | true =>
      rw [checkForUpdates_stale run u hd]
      exact ⟨hWF, rfl, hn, fun sts => ⟨r, herr, by rw [hd]; rfl⟩⟩
    | false =>
      obtain ⟨h1, h2, h3, h4⟩ := checkForUpdates_live run u hd
      refine ⟨by rw [h3]; exact hWF, h4, by rw [h3, h4]; exact hn, fun sts => ⟨run, h1, ?_⟩⟩
      rw [h2]; rfl
  | captureWrapperProps wp cp =>
    obtain ⟨h1, h2, h3, h4⟩ := captureWrapperProps_fields wp cp u
    refine ⟨captureWrapperProps wp cp u, rfl, by rw [h3]; exact hWF, h4,
      by rw [h3, h4]; exact hn, fun sts => ⟨r, by rw [h1]; exact herr, ?_⟩⟩
    rw [h2]
    cases u.didUnsubscribe <;> rfl
  | unsubscribeWrapper =>
    obtain ⟨w1, sub, _, h2, h3, h4, _⟩ := unsubscribeWrapper_spec u hWF hn
    refine ⟨({ u with didUnsubscribe := true
                      world := w1.setOnStateChange u.subscription none } : SubscribeUpdates),
      by simp only [UpdateStep.apply, h2]; rfl, h3, rfl, by simp only [h4]; exact hn,
      fun sts => ⟨r, herr, ?_⟩⟩
    cases u.didUnsubscribe <;> rfl
  | node op =>
    obtain ⟨w2, T, h1, h2, h3, _⟩ := upstream_step fuel u.subscription op u.world hWF hn hfuel
    refine ⟨{ u with world := w2 }, by simp only [UpdateStep.apply, h1]; rfl, h2, rfl,
      by simp only [h3]; exact hn, fun sts => ⟨r, herr, ?_⟩⟩
    cases u.didUnsubscribe <;> rfl

/-- A sequence of steps returns, and afterwards `lastThrownError` holds what the most recent
selector run left there. -/
theorem runUpdateSteps_spec (fuel : Nat) (steps : List UpdateStep) :
    ∀ (u : SubscribeUpdates) (r : SelectorRun), WF u.world →
      u.subscription < u.world.subs.length → u.subscription < fuel →
      u.lastThrownError = r.keptError →
      ∃ u1, runUpdateSteps fuel steps u = some u1 ∧ WF u1.world ∧
        u1.subscription = u.subscription ∧ u1.subscription < u1.world.subs.length ∧
        u1.lastThrownError = (mostRecentRun u.didUnsubscribe r steps).keptError := by
  induction steps with
  | nil =>
    intro u r hWF hn _ herr
    refine ⟨u, rfl, hWF, rfl, hn, ?_⟩
    rw [herr]
    cases u.didUnsubscribe <;> rfl
  | cons st sts ih =>
    intro u r hWF hn hfuel herr
    obtain ⟨u1, h1, h2, h3, h4, h5⟩ := updateStep_spec fuel st u r hWF hn hfuel herr
    obtain ⟨r1, h6, h7⟩ := h5 sts
    obtain ⟨u2, g1, g2, g3, g4, g5⟩ := ih u1 r1 h2 h4 (by rw [h3]; exact hfuel) h6
    refine ⟨u2, ?_, g2, by rw [g3, h3], g4, by rw [g5, h7]⟩
    simp only [runUpdateSteps, h1]
    exact g1

/-- With `shouldHandleStateChanges` set, `subscribeUpdates` on a node of a well-formed world
returns a closure that is not stale and keeps the error of its first selector run. -/
theorem subscribeUpdates_spec (w : World) (subscription checkForUpdatesId fuel : Nat)
    (lastWrapperProps lastChildProps renderIsScheduled childPropsFromStoreUpdate : Value)
    (firstRun : SelectorRun) (hWF : WF w) (hn : subscription < w.subs.length)
    (hfuel : subscription < fuel) :
    ∃ u0, subscribeUpdates true fuel w subscription checkForUpdatesId lastWrapperProps
        lastChildProps renderIsScheduled childPropsFromStoreUpdate firstRun = some (some u0) ∧
      WF u0.world ∧ u0.subscription = subscription ∧ subscription < u0.world.subs.length ∧
      u0.didUnsubscribe = false ∧ u0.lastThrownError = firstRun.keptError ∧
      u0.world.isSubscribed subscription = true := by
  obtain ⟨w1, T, h1, h2, h3, _, h5, _⟩ :=
    trySubscribe_spec fuel subscription
      (w.setOnStateChange subscription (some (Fn.other checkForUpdatesId)))
      (hWF.setOnStateChange _ _) (by rw [length_setOnStateChange]; exact hn) hfuel
  rw [length_setOnStateChange] at h3
  obtain ⟨g1, g2, g3, g4⟩ := checkForUpdates_live firstRun
    { subscription := subscription, didUnsubscribe := false, lastThrownError := Value.null,
      lastWrapperProps := lastWrapperProps, lastChildProps := lastChildProps,
      renderIsScheduled := renderIsScheduled,
      childPropsFromStoreUpdate := childPropsFromStoreUpdate, calls := [], world := w1 } rfl
  refine ⟨_, by simp only [subscribeUpdates, h1]; rfl, ?_, g4, ?_, g2, g1, ?_⟩
  · rw [g3]; exact h2
  · rw [g3]; simp only [h3]; exact hn
  · rw [g3]; exact h5

/-- C11: at the failing input the code does not do what the claim says.  The selector run of
the first `checkForUpdates()` throws the falsy value `0`; `if (!error)` resets
`lastThrownError` to `null`, and the teardown function, having set `didUnsubscribe`, detached
the node and cleared the slot, returns normally, where the claim has it throw `0`, the error of
the most recent selector run. -/
theorem unsubscribeWrapper_returns_after_falsy_throw :
    ((subscribeUpdates true 1 (World.empty.createSubscription none) 0 0 Value.undefined
        Value.undefined (Value.boolean false) Value.undefined
        (SelectorRun.threw (Value.number 0))).bind
      (fun r => r.bind unsubscribeWrapper)).map
      (fun r => (r.2, r.1.didUnsubscribe, r.1.lastThrownError, r.1.world.subs,
        r.1.world.trace)) =
      some (Completion.normal, true, Value.null,
        [{ parentSub := none, unsubscribe := none, listeners := none, onStateChange := none }],
        [Event.upstream 0 (Cap.store 0), Event.detach 0 (Cap.store 0)]) ∧
    specTeardown (mostRecentRun false (SelectorRun.threw (Value.number 0)) []) =
      Completion.thrown (Value.number 0) := by
  decide

/-- Where the thrown values are truthy, the teardown of the code is the teardown of the
specification. -/
theorem truthyTeardown_eq_specTeardown (r : SelectorRun)
    (h : ∀ e, r = SelectorRun.threw e → e.truthy = true) : truthyTeardown r = specTeardown r := by
  cases r with
  | returned p => rfl
  | threw e => simp [truthyTeardown, specTeardown, h e rfl]

/-- The teardown in general: on a node of a well-formed world `subscribeUpdates` returns a
teardown function, and after any sequence of `checkForUpdates` calls, render effects, earlier
teardown calls and calls made on the node from elsewhere, `unsubscribeWrapper()` completes
having set `didUnsubscribe` (every later `checkForUpdates` is a no-op), called
`tryUnsubscribe()` and cleared the `onStateChange` slot, so that the node is Unsubscribed with
`nullListeners`.  What it throws is decided by the truthiness of the value thrown by the most
recent selector run; for truthy values this is the teardown of the specification. -/
theorem unsubscribeWrapper_detaches_then_rethrows (w : World)
    (subscription checkForUpdatesId fuel : Nat)
    (lastWrapperProps lastChildProps renderIsScheduled childPropsFromStoreUpdate : Value)
    (firstRun : SelectorRun) (steps : List UpdateStep) (hWF : WF w)
    (hn : subscription < w.subs.length) (hfuel : subscription < fuel) :
    ∃ u0 u1 u2 w1 sub,
      subscribeUpdates true fuel w subscription checkForUpdatesId lastWrapperProps
        lastChildProps renderIsScheduled childPropsFromStoreUpdate firstRun = some (some u0) ∧
      runUpdateSteps fuel steps u0 = some u1 ∧
      unsubscribeWrapper u1 = some (u2, truthyTeardown (mostRecentRun false firstRun steps)) ∧
      u2.didUnsubscribe = true ∧ (∀ run, checkForUpdates run u2 = u2) ∧
      u1.world.tryUnsubscribe subscription = some w1 ∧
      u2.world = w1.setOnStateChange subscription none ∧
      u2.world.subs[subscription]? = some sub ∧ sub.unsubscribe = none ∧
      sub.onStateChange = none ∧ sub.listeners = none ∧
      ((∀ e, mostRecentRun false firstRun steps = SelectorRun.threw e → e.truthy = true) →
        unsubscribeWrapper u1 =
          some (u2, specTeardown (mostRecentRun false firstRun steps))) := by
  obtain ⟨u0, h1, h2, h3, h4, h5, h6, _⟩ :=
    subscribeUpdates_spec w subscription checkForUpdatesId fuel lastWrapperProps lastChildProps
      renderIsScheduled childPropsFromStoreUpdate firstRun hWF hn hfuel
  obtain ⟨u1, g1, g2, g3, g4, g5⟩ := runUpdateSteps_spec fuel steps u0 firstRun h2
    (by rw [h3]; exact h4) (by rw [h3]; exact hfuel) h6
  rw [h5] at g5
  obtain ⟨w1, sub, k1, k2, _, _, k5, k6, k7, k8⟩ := unsubscribeWrapper_spec u1 g2 g4
  have hsub : u1.subscription = subscription := by rw [g3, h3]
  refine ⟨u0, u1,
    ({ u1 with didUnsubscribe := true
               world := w1.setOnStateChange u1.subscription none } : SubscribeUpdates),
    w1, sub, h1, g1, ?_, rfl, fun run => checkForUpdates_stale run _ rfl, ?_, ?_, ?_, k6, k7, k8,
    fun h => ?_⟩
  · rw [k2, g5, truthyTeardown_eq]
  · rw [← hsub]; exact k1
  · rw [← hsub]
  · rw [← hsub]; exact k5
  · rw [k2, g5, truthyTeardown_eq, truthyTeardown_eq_specTeardown _ h]

/-- An instance of the general teardown: a component below node `B` of the three-level world.
Its selector throws an error object, then returns, then throws another error object; the
teardown function throws the last one. -/
theorem unsubscribeWrapper_detaches_then_rethrows_witness :
    (∃ u0 u1 u2 w1 sub,
      subscribeUpdates true 4 (threeLevelWorld.createSubscription (some 2)) 3 0
        (Value.object 1) (Value.object 2) (Value.boolean false) Value.undefined
        (SelectorRun.returned (Value.object 2)) = some (some u0) ∧
      runUpdateSteps 4
        [UpdateStep.checkForUpdates (SelectorRun.threw (Value.object 8)),
          UpdateStep.captureWrapperProps (Value.object 1) (Value.object 2),
          UpdateStep.node (NodeOp.addNestedSub (Fn.other 5)),
          UpdateStep.checkForUpdates (SelectorRun.returned (Value.object 3)),
          UpdateStep.checkForUpdates (SelectorRun.threw (Value.object 9))] u0 = some u1 ∧
      unsubscribeWrapper u1 = some (u2, truthyTeardown (mostRecentRun false
        (SelectorRun.returned (Value.object 2))
        [UpdateStep.checkForUpdates (SelectorRun.threw (Value.object 8)),
          UpdateStep.captureWrapperProps (Value.object 1) (Value.object 2),
          UpdateStep.node (NodeOp.addNestedSub (Fn.other 5)),
          UpdateStep.checkForUpdates (SelectorRun.returned (Value.object 3)),
          UpdateStep.checkForUpdates (SelectorRun.threw (Value.object 9))])) ∧
      u2.didUnsubscribe = true ∧ (∀ run, checkForUpdates run u2 = u2) ∧
      u1.world.tryUnsubscribe 3 = some w1 ∧
      u2.world = w1.setOnStateChange 3 none ∧
      u2.world.subs[3]? = some sub ∧ sub.unsubscribe = none ∧
      sub.onStateChange = none ∧ sub.listeners = none ∧
      ((∀ e, mostRecentRun false (SelectorRun.returned (Value.object 2))
        [UpdateStep.checkForUpdates (SelectorRun.threw (Value.object 8)),
          UpdateStep.captureWrapperProps (Value.object 1) (Value.object 2),
          UpdateStep.node (NodeOp.addNestedSub (Fn.other 5)),
          UpdateStep.checkForUpdates (SelectorRun.returned (Value.object 3)),
          UpdateStep.checkForUpdates (SelectorRun.threw (Value.object 9))] = SelectorRun.threw e → e.truthy = true) →
        unsubscribeWrapper u1 = some (u2, specTeardown (mostRecentRun false
          (SelectorRun.returned (Value.object 2))
        [UpdateStep.checkForUpdates (SelectorRun.threw (Value.object 8)),
          UpdateStep.captureWrapperProps (Value.object 1) (Value.object 2),
          UpdateStep.node (NodeOp.addNestedSub (Fn.other 5)),
          UpdateStep.checkForUpdates (SelectorRun.returned (Value.object 3)),
          UpdateStep.checkForUpdates (SelectorRun.threw (Value.object 9))])))) ∧
    ((((subscribeUpdates true 4 (threeLevelWorld.createSubscription (some 2)) 3 0
        (Value.object 1) (Value.object 2) (Value.boolean false) Value.undefined
        (SelectorRun.returned (Value.object 2))).bind (fun r => r)).bind
      (runUpdateSteps 4
        [UpdateStep.checkForUpdates (SelectorRun.threw (Value.object 8)),
          UpdateStep.captureWrapperProps (Value.object 1) (Value.object 2),
          UpdateStep.node (NodeOp.addNestedSub (Fn.other 5)),
          UpdateStep.checkForUpdates (SelectorRun.returned (Value.object 3)),
          UpdateStep.checkForUpdates (SelectorRun.threw (Value.object 9))])).bind
      unsubscribeWrapper).map (fun r => (r.2, r.1.calls, r.1.world.trace.drop 3)) =
      some (Completion.thrown (Value.object 9),
        [Effect.notifyNestedSubs,
          Effect.forceComponentUpdateDispatch (Value.object 8),
          Effect.forceComponentUpdateDispatch Value.undefined,
          Effect.forceComponentUpdateDispatch (Value.object 9)],
        [Event.upstream 3 (Cap.listener 2 0), Event.detach 3 (Cap.listener 2 0)]) :=
  ⟨unsubscribeWrapper_detaches_then_rethrows (threeLevelWorld.createSubscription (some 2)) 3 0 4
    (Value.object 1) (Value.object 2) (Value.boolean false) Value.undefined
    (SelectorRun.returned (Value.object 2)) _
    (WF.createSubscription WF.threeLevelWorld (some 2) (fun q hq => by
      injection hq with hq
      rw [← hq]; decide))
    (by decide) (by decide), by decide⟩

end ReactRedux
